import Mathlib

/-!
URL metadata extraction (copus-network, `backend-reference/`).

A shallow embedding of `url_info_handler.go` and `url_info_simple.go`.

* A Go `string` is a sequence of bytes: `GoString := List Nat`, every element
  standing for one byte.  `str` turns a Lean literal into its UTF-8 bytes.
* The Go standard library functions the handlers call (`strings`,
  `unicode/utf8`, `net/url`, `regexp`) are embedded next to the handlers,
  following the Go 1.21 sources line by line; an index result of `-1` is
  `none`.
* `html.Parse` is not embedded: the parsed document (`*html.Node`) is the
  input of the structural strategy.
* The Unicode case table behind `strings.ToLower` is a parameter
  (`lowerMap`), used only for strings that hold a byte `≥ 0x80`.
* The two HTTP handlers run on a request and a recording response writer.
  The network is a parameter: the list of replies to the requests the client
  sends, in order.  A run returns the writer and the calls it made (fetcher
  calls, requests sent, `html.Parse`, log lines); `json` encoding and `fmt`
  formatting are not embedded, the body holds the Go values encoded.
-/

namespace Copus

deriving instance DecidableEq for Except

/-- A Go `string`: a sequence of bytes. -/
abbrev GoString := List Nat

/-- UTF-8 encoding of one code point (`utf8.EncodeRune` on a valid rune). -/
def utf8Bytes (c : Nat) : List Nat :=
  if c < 0x80 then [c]
  else if c < 0x800 then [0xC0 + c / 64, 0x80 + c % 64]
  else if c < 0x10000 then [0xE0 + c / 4096, 0x80 + c / 64 % 64, 0x80 + c % 64]
  else [0xF0 + c / 262144, 0x80 + c / 4096 % 64, 0x80 + c / 64 % 64, 0x80 + c % 64]

/-- The bytes of a string literal. -/
def str (s : String) : GoString := s.toList.flatMap fun c => utf8Bytes c.toNat

/-! ## `strings` -/

/-- `strings.HasPrefix(s, p)`. -/
def HasPrefix (s p : GoString) : Bool := p.isPrefixOf s

/-- `strings.HasSuffix(s, p)`. -/
def HasSuffix (s p : GoString) : Bool := p.isSuffixOf s

/-- `strings.Index(s, sub)`: the first `i` with `s[i:]` starting with `sub`. -/
def Index : GoString → GoString → Option Nat
  | [], sub => if sub.isEmpty then some 0 else none
  | c :: s, sub =>
    if HasPrefix (c :: s) sub then some 0 else (Index s sub).map (· + 1)

/-- `strings.LastIndex(s, sub)`: the last `i` with `s[i:]` starting with `sub`. -/
def LastIndex : GoString → GoString → Option Nat
  | [], sub => if sub.isEmpty then some 0 else none
  | c :: s, sub =>
    match LastIndex s sub with
    | some i => some (i + 1)
    | none => if HasPrefix (c :: s) sub then some 0 else none

/-- `strings.IndexByte(s, c)`. -/
def IndexByte (s : GoString) (c : Nat) : Option Nat := Index s [c]

/-- `strings.LastIndexByte(s, c)`. -/
def LastIndexByte (s : GoString) (c : Nat) : Option Nat := LastIndex s [c]

/-- `strings.Contains(s, sub)`: `Index(s, sub) >= 0`. -/
def Contains (s sub : GoString) : Bool := (Index s sub).isSome

/-- `strings.Count(s, sub)` for a one-byte `sub` (the only use here is `"?"`). -/
def CountByte (s : GoString) (c : Nat) : Nat := s.count c

/-- `strings.Cut(s, sep)`: `(before, after, found)`. -/
def Cut (s sep : GoString) : GoString × GoString × Bool :=
  match Index s sep with
  | some i => (s.take i, s.drop (i + sep.length), true)
  | none => (s, [], false)

/-! ## `unicode/utf8` and `unicode.IsSpace` -/

/-- `utf8.RuneError`. -/
def RuneError : Nat := 0xFFFD

/-- `utf8.RuneSelf`: bytes below it are single-byte runes. -/
def RuneSelf : Nat := 0x80

/-- `utf8.UTFMax`. -/
def UTFMax : Nat := 4

/-- The table `utf8.first`: information about the first byte of a sequence.
`0xF0` (`as`) is ASCII, `0xF1` (`xx`) invalid; otherwise the high nibble
indexes `acceptRanges` and the low nibble is the length. -/
def first (b : Nat) : Nat :=
  if b < 0x80 then 0xF0
  else if b < 0xC2 then 0xF1
  else if b < 0xE0 then 0x02
  else if b = 0xE0 then 0x13
  else if b = 0xED then 0x23
  else if b < 0xF0 then 0x03
  else if b = 0xF0 then 0x34
  else if b < 0xF4 then 0x04
  else if b = 0xF4 then 0x44
  else 0xF1

/-- The table `utf8.acceptRanges`: `(lo, hi)` for the second byte. -/
def acceptRanges (i : Nat) : Nat × Nat :=
  match i with
  | 0 => (0x80, 0xBF)
  | 1 => (0xA0, 0xBF)
  | 2 => (0x80, 0x9F)
  | 3 => (0x90, 0xBF)
  | 4 => (0x80, 0x8F)
  | _ => (0, 0)

/-- `utf8.DecodeRuneInString(s)`: `(rune, size)`.  Masks and shifts are written
arithmetically (`b & 0x3F` is `b % 64`, `<< 6` is `* 64`, `|` of disjoint bit
fields is `+`). -/
def DecodeRuneInString (s : GoString) : Nat × Nat :=
  match s with
  | [] => (RuneError, 0)
  | s0 :: rest =>
    let x := first s0
    if x ≥ 0xF0 then
      (if x % 2 = 1 then RuneError else s0, 1)
    else
      let sz := x % 8
      let accept := acceptRanges (x / 16)
      if s.length < sz then (RuneError, 1)
      else
        match rest with
        | [] => (RuneError, 1)
        | s1 :: rest1 =>
          if s1 < accept.1 ∨ accept.2 < s1 then (RuneError, 1)
          else if sz ≤ 2 then (s0 % 32 * 64 + s1 % 64, 2)
          else
            match rest1 with
            | [] => (RuneError, 1)
            | s2 :: rest2 =>
              if s2 < 0x80 ∨ 0xBF < s2 then (RuneError, 1)
              else if sz ≤ 3 then (s0 % 16 * 4096 + s1 % 64 * 64 + s2 % 64, 3)
              else
                match rest2 with
                | [] => (RuneError, 1)
                | s3 :: _ =>
                  if s3 < 0x80 ∨ 0xBF < s3 then (RuneError, 1)
                  else (s0 % 8 * 262144 + s1 % 64 * 4096 + s2 % 64 * 64 + s3 % 64, 4)

/-- `utf8.RuneStart(b)`: `b & 0xC0 != 0x80`. -/
def RuneStart (b : Nat) : Bool := !(b / 64 % 4 == 2)

/-- The backward scan of `utf8.DecodeLastRuneInString`: `rev` holds the bytes
before the last one, nearest first; `n` more bytes may be inspected.  The
result is how many of them belong to the candidate rune (`start` has moved
that far), or `none` when the loop ran to `lim` without a rune start. -/
def lastRuneLookback : Nat → List Nat → Option Nat
  | 0, _ => none
  | _ + 1, [] => none
  | n + 1, b :: rev =>
    if RuneStart b then some 1 else (lastRuneLookback n rev).map (· + 1)

/-- `utf8.DecodeLastRuneInString(s)`: `(rune, size)`.  Subtraction on `Nat`
stops at `0`, which is what the source does with `lim` and `start` when
they fall below `0`. -/
def DecodeLastRuneInString (s : GoString) : Nat × Nat :=
  match s.reverse with
  | [] => (RuneError, 0)
  | r :: rev =>
    if r < RuneSelf then (r, 1)
    else
      let lim := s.length - UTFMax
      let start : Nat :=
        match lastRuneLookback (s.length - 1 - lim) rev with
        | some k => s.length - 1 - k
        | none => lim - 1
      let (r1, size) := DecodeRuneInString (s.drop start)
      if start + size ≠ s.length then (RuneError, 1) else (r1, size)

/-- `unicode.IsSpace(r)`: the Latin-1 cases and the table `White_Space`. -/
def IsSpace (r : Nat) : Bool :=
  if r ≤ 0xFF then
    r == 0x09 || r == 0x0A || r == 0x0B || r == 0x0C || r == 0x0D || r == 0x20
      || r == 0x85 || r == 0xA0
  else
    r == 0x1680 || (0x2000 ≤ r && r ≤ 0x200A) || r == 0x2028 || r == 0x2029
      || r == 0x202F || r == 0x205F || r == 0x3000

/-- The table `strings.asciiSpace`. -/
def asciiSpace (c : Nat) : Bool :=
  c == 0x09 || c == 0x0A || c == 0x0B || c == 0x0C || c == 0x0D || c == 0x20

/-- The loop of `strings.indexFunc(s, f, truth)` (`for i, r := range s`), at
byte offset `i` of the original string. -/
def indexFuncLoop (f : Nat → Bool) (truth : Bool) : Nat → Nat → GoString → Option Nat
  | 0, _, _ => none
  | _ + 1, _, [] => none
  | fuel + 1, i, c :: s =>
    let (r, size) := DecodeRuneInString (c :: s)
    if f r == truth then some i
    else indexFuncLoop f truth fuel (i + size) ((c :: s).drop size)

/-- `strings.indexFunc(s, f, truth)`. -/
def indexFunc (s : GoString) (f : Nat → Bool) (truth : Bool) : Option Nat :=
  indexFuncLoop f truth s.length 0 s

/-- The loop of `strings.lastIndexFunc(s, f, truth)`, with `i` the current end. -/
def lastIndexFuncLoop (s : GoString) (f : Nat → Bool) (truth : Bool) : Nat → Nat → Option Nat
  | 0, _ => none
  | fuel + 1, i =>
    if i > 0 then
      let (r, size) := DecodeLastRuneInString (s.take i)
      if f r == truth then some (i - size)
      else lastIndexFuncLoop s f truth fuel (i - size)
    else none

/-- `strings.lastIndexFunc(s, f, truth)`. -/
def lastIndexFunc (s : GoString) (f : Nat → Bool) (truth : Bool) : Option Nat :=
  lastIndexFuncLoop s f truth s.length s.length

/-- `strings.TrimLeftFunc(s, f)`. -/
def TrimLeftFunc (s : GoString) (f : Nat → Bool) : GoString :=
  match indexFunc s f false with
  | none => []
  | some i => s.drop i

/-- `strings.TrimRightFunc(s, f)`. -/
def TrimRightFunc (s : GoString) (f : Nat → Bool) : GoString :=
  match lastIndexFunc s f false with
  | some i =>
    if s.getD i 0 ≥ RuneSelf then s.take (i + (DecodeRuneInString (s.drop i)).2)
    else s.take (i + 1)
  | none => []

/-- `strings.TrimFunc(s, f)`. -/
def TrimFunc (s : GoString) (f : Nat → Bool) : GoString :=
  TrimRightFunc (TrimLeftFunc s f) f

/-- The second loop of `strings.TrimSpace`, on `s[start:]` read from its end
(`rev` is `s[start:stop]` reversed). -/
def trimSpaceStop : List Nat → GoString
  | [] => []
  | c :: rev =>
    if c ≥ RuneSelf then TrimRightFunc (c :: rev).reverse IsSpace
    else if asciiSpace c then trimSpaceStop rev
    else (c :: rev).reverse

/-- `strings.TrimSpace(s)`: the ASCII fast path, falling back to the
Unicode-aware `TrimFunc` / `TrimRightFunc` at the first non-ASCII byte. -/
def TrimSpace : GoString → GoString
  | [] => []
  | c :: s =>
    if c ≥ RuneSelf then TrimFunc (c :: s) IsSpace
    else if asciiSpace c then TrimSpace s
    else trimSpaceStop (c :: s).reverse

/-- `strings.ToLower(s)`: the ASCII fast path; a string with a byte `≥ 0x80`
goes through `strings.Map(unicode.ToLower, s)`, the parameter `lowerMap`. -/
def ToLower (lowerMap : GoString → GoString) (s : GoString) : GoString :=
  if s.all (· < RuneSelf) then
    s.map fun c => if 0x41 ≤ c ∧ c ≤ 0x5A then c + 0x20 else c
  else lowerMap s

/-! ## `net/url` -/

/-- The byte of an ASCII character literal. -/
abbrev byte (c : Char) : Nat := c.toNat

/-- The `encoding` modes of `net/url`. -/
inductive Encoding
  | encodePath
  | encodePathSegment
  | encodeHost
  | encodeZone
  | encodeUserPassword
  | encodeQueryComponent
  | encodeFragment
  deriving DecidableEq, Repr

open Encoding

/-- The errors of `net/url` (the message text is not kept). -/
inductive UrlError
  | invalidControlCharacter
  | emptyURL
  | missingProtocolScheme
  | invalidURIForRequest
  | firstPathSegmentColon
  | missingBracket
  | invalidPort (colonPort : GoString)
  | invalidUserinfo
  | escapeError (s : GoString)
  | invalidHostError (s : GoString)
  deriving DecidableEq, Repr

/-- `url.Userinfo`. -/
structure Userinfo where
  username : GoString
  password : GoString
  passwordSet : Bool
  deriving DecidableEq, Repr

/-- `url.URL`; `User` is `none` for a nil `*Userinfo`. -/
structure URL where
  Scheme : GoString := []
  Opaque : GoString := []
  User : Option Userinfo := none
  Host : GoString := []
  Path : GoString := []
  RawPath : GoString := []
  OmitHost : Bool := false
  ForceQuery : Bool := false
  RawQuery : GoString := []
  Fragment : GoString := []
  RawFragment : GoString := []
  deriving DecidableEq, Repr

/-- `ishex(c)`. -/
def ishex (c : Nat) : Bool :=
  (byte '0' ≤ c && c ≤ byte '9') || (byte 'a' ≤ c && c ≤ byte 'f')
    || (byte 'A' ≤ c && c ≤ byte 'F')

/-- `unhex(c)`. -/
def unhex (c : Nat) : Nat :=
  if byte '0' ≤ c ∧ c ≤ byte '9' then c - byte '0'
  else if byte 'a' ≤ c ∧ c ≤ byte 'f' then c - byte 'a' + 10
  else if byte 'A' ≤ c ∧ c ≤ byte 'F' then c - byte 'A' + 10
  else 0

/-- `shouldEscape(c, mode)`. -/
def shouldEscape (c : Nat) (mode : Encoding) : Bool :=
  -- §2.3 Unreserved characters (alphanum)
  if (byte 'a' ≤ c ∧ c ≤ byte 'z') ∨ (byte 'A' ≤ c ∧ c ≤ byte 'Z')
      ∨ (byte '0' ≤ c ∧ c ≤ byte '9') then false
  else if (mode = encodeHost ∨ mode = encodeZone) ∧ c ∈ str "!$&'()*+,;=:[]<>\"" then false
  else if c ∈ str "-_.~" then false
  else if c ∈ str "$&+,/:;=?@" ∧ mode = encodePath then c == byte '?'
  else if c ∈ str "$&+,/:;=?@" ∧ mode = encodePathSegment then
    c == byte '/' || c == byte ';' || c == byte ',' || c == byte '?'
  else if c ∈ str "$&+,/:;=?@" ∧ mode = encodeUserPassword then
    c == byte '@' || c == byte '/' || c == byte '?' || c == byte ':'
  else if c ∈ str "$&+,/:;=?@" ∧ mode = encodeQueryComponent then true
  else if c ∈ str "$&+,/:;=?@" ∧ mode = encodeFragment then false
  else if mode = encodeFragment ∧ c ∈ str "!()*" then false
  else true

/-- The first loop of `unescape(s, mode)`: checks that every `%` is
well-formed and returns `(n, hasPlus)`. -/
def unescapeCheck (mode : Encoding) : GoString → Nat → Bool → Except UrlError (Nat × Bool)
  | [], n, hasPlus => .ok (n, hasPlus)
  | c :: s, n, hasPlus =>
    if c = byte '%' then
      match s with
      | a :: b :: rest =>
        if !ishex a || !ishex b then .error (.escapeError ((c :: s).take 3))
        else if mode = encodeHost ∧ unhex a < 8 ∧ [c, a, b] ≠ str "%25" then
          .error (.escapeError [c, a, b])
        else if mode = encodeZone ∧ [c, a, b] ≠ str "%25" ∧ unhex a * 16 + unhex b ≠ byte ' '
            ∧ shouldEscape (unhex a * 16 + unhex b) encodeHost then
          .error (.escapeError [c, a, b])
        else unescapeCheck mode rest (n + 1) hasPlus
      | _ => .error (.escapeError ((c :: s).take 3))
    else if c = byte '+' then
      unescapeCheck mode s n (decide (mode = encodeQueryComponent))
    else if (mode = encodeHost ∨ mode = encodeZone) ∧ c < 0x80 ∧ shouldEscape c encodeHost then
      .error (.invalidHostError [c])
    else unescapeCheck mode s n hasPlus

/-- The second loop of `unescape(s, mode)`, run on a checked string. -/
def unescapeDecode (mode : Encoding) : GoString → GoString
  | [] => []
  | c :: s =>
    if c = byte '%' then
      match s with
      | a :: b :: rest => (unhex a * 16 + unhex b) :: unescapeDecode mode rest
      | _ => []
    else if c = byte '+' then
      (if mode = encodeQueryComponent then byte ' ' else byte '+') :: unescapeDecode mode s
    else c :: unescapeDecode mode s

/-- `unescape(s, mode)`. -/
def unescape (s : GoString) (mode : Encoding) : Except UrlError GoString :=
  match unescapeCheck mode s 0 false with
  | .error e => .error e
  | .ok (n, hasPlus) =>
    if n = 0 ∧ hasPlus = false then .ok s else .ok (unescapeDecode mode s)

/-- One of `"0123456789ABCDEF"`. -/
def upperhex (i : Nat) : Nat := (str "0123456789ABCDEF").getD i 0

/-- `escape(s, mode)`: every byte that `shouldEscape` becomes `%XX`, except
that in `encodeQueryComponent` a space becomes `+`. -/
def escape (s : GoString) (mode : Encoding) : GoString :=
  s.flatMap fun c =>
    if c = byte ' ' ∧ mode = encodeQueryComponent then [byte '+']
    else if shouldEscape c mode then [byte '%', upperhex (c / 16), upperhex (c % 16)]
    else [c]

/-- `validEncoded(s, mode)`. -/
def validEncoded (s : GoString) (mode : Encoding) : Bool :=
  s.all fun c =>
    if c ∈ str "!$&'()*+,;=:@" then true
    else if c ∈ str "[]" then true
    else if c = byte '%' then true
    else !shouldEscape c mode

/-- `stringContainsCTLByte(s)`. -/
def stringContainsCTLByte (s : GoString) : Bool :=
  s.any fun b => b < byte ' ' || b == 0x7f

/-- The loop of `getScheme(rawURL)` at index `i`, with `rest = rawURL[i:]`. -/
def getSchemeLoop (rawURL : GoString) : Nat → GoString → Except UrlError (GoString × GoString)
  | _, [] => .ok ([], rawURL)
  | i, c :: rest =>
    if (byte 'a' ≤ c ∧ c ≤ byte 'z') ∨ (byte 'A' ≤ c ∧ c ≤ byte 'Z') then
      getSchemeLoop rawURL (i + 1) rest
    else if (byte '0' ≤ c ∧ c ≤ byte '9') ∨ c = byte '+' ∨ c = byte '-' ∨ c = byte '.' then
      if i = 0 then .ok ([], rawURL) else getSchemeLoop rawURL (i + 1) rest
    else if c = byte ':' then
      if i = 0 then .error .missingProtocolScheme
      else .ok (rawURL.take i, rawURL.drop (i + 1))
    else .ok ([], rawURL)

/-- `getScheme(rawURL)`: `(scheme, path)`. -/
def getScheme (rawURL : GoString) : Except UrlError (GoString × GoString) :=
  getSchemeLoop rawURL 0 rawURL

/-- `validOptionalPort(port)`: empty, or `:` followed by ASCII digits (a
non-ASCII byte decodes to a rune above `'9'`, so the check is byte-wise). -/
def validOptionalPort (port : GoString) : Bool :=
  match port with
  | [] => true
  | c :: digits => c == byte ':' && digits.all fun b => byte '0' ≤ b && b ≤ byte '9'

/-- `validUserinfo(s)` (every accepted rune is ASCII, so the check is
byte-wise). -/
def validUserinfo (s : GoString) : Bool :=
  s.all fun r =>
    (byte 'A' ≤ r && r ≤ byte 'Z') || (byte 'a' ≤ r && r ≤ byte 'z')
      || (byte '0' ≤ r && r ≤ byte '9') || (str "-._:~!$&'()*+,;=%@").contains r

/-- `parseHost(host)`. -/
def parseHost (host : GoString) : Except UrlError GoString :=
  if HasPrefix host (str "[") then
    match LastIndex host (str "]") with
    | none => .error .missingBracket
    | some i =>
      let colonPort := host.drop (i + 1)
      if !validOptionalPort colonPort then .error (.invalidPort colonPort)
      else
        match Index (host.take i) (str "%25") with
        | some zone => do
          let host1 ← unescape (host.take zone) encodeHost
          let host2 ← unescape ((host.take i).drop zone) encodeZone
          let host3 ← unescape (host.drop i) encodeHost
          pure (host1 ++ host2 ++ host3)
        | none => unescape host encodeHost
  else
    match LastIndex host (str ":") with
    | some i =>
      let colonPort := host.drop i
      if !validOptionalPort colonPort then .error (.invalidPort colonPort)
      else unescape host encodeHost
    | none => unescape host encodeHost

/-- `parseAuthority(authority)`: `(user, host)`. -/
def parseAuthority (authority : GoString) : Except UrlError (Option Userinfo × GoString) :=
  match LastIndex authority (str "@") with
  | none => do
    let host ← parseHost authority
    pure (none, host)
  | some i => do
    let host ← parseHost (authority.drop (i + 1))
    let userinfo := authority.take i
    if !validUserinfo userinfo then .error .invalidUserinfo
    else if !Contains userinfo (str ":") then do
      let userinfo ← unescape userinfo encodeUserPassword
      pure (some ⟨userinfo, [], false⟩, host)
    else do
      let (username, password, _) := Cut userinfo (str ":")
      let username ← unescape username encodeUserPassword
      let password ← unescape password encodeUserPassword
      pure (some ⟨username, password, true⟩, host)

/-- `(*URL).setPath(p)`. -/
def URL.setPath (u : URL) (p : GoString) : Except UrlError URL := do
  let path ← unescape p encodePath
  if p = escape path encodePath then
    pure { u with Path := path, RawPath := [] }
  else
    pure { u with Path := path, RawPath := p }

/-- `(*URL).setFragment(f)`. -/
def URL.setFragment (u : URL) (f : GoString) : Except UrlError URL := do
  let frag ← unescape f encodeFragment
  if f = escape frag encodeFragment then
    pure { u with Fragment := frag, RawFragment := [] }
  else
    pure { u with Fragment := frag, RawFragment := f }

/-- The part of `parse(rawURL, viaRequest)` that follows the split at `?`:
`url` holds the scheme and the query, `rest` is what is left of `rawURL`. -/
def parseAfterQuery (viaRequest : Bool) (url : URL) (rest : GoString) : Except UrlError URL :=
  if !HasPrefix rest (str "/") ∧ url.Scheme ≠ [] then
    -- We consider rootless paths per RFC 3986 as opaque.
    .ok { url with Opaque := rest }
  else if !HasPrefix rest (str "/") ∧ viaRequest then .error .invalidURIForRequest
  else if !HasPrefix rest (str "/") ∧ Contains (Cut rest (str "/")).1 (str ":") then
    -- First path segment has colon. Not allowed in relative URL.
    .error .firstPathSegmentColon
  else if (url.Scheme ≠ [] ∨ (!viaRequest ∧ !HasPrefix rest (str "///")))
      ∧ HasPrefix rest (str "//") then do
    let authority := rest.drop 2
    let (authority, rest) :=
      match Index authority (str "/") with
      | some i => (authority.take i, authority.drop i)
      | none => (authority, [])
    let (user, host) ← parseAuthority authority
    URL.setPath { url with User := user, Host := host } rest
  else if url.Scheme ≠ [] ∧ HasPrefix rest (str "/") then
    -- OmitHost is set to true when rawURL has an empty host (authority).
    URL.setPath { url with OmitHost := true } rest
  else
    URL.setPath url rest

/-- `parse(rawURL, viaRequest)`; `lowerMap` is the table path of
`strings.ToLower`. -/
def parse (lowerMap : GoString → GoString) (rawURL : GoString) (viaRequest : Bool) :
    Except UrlError URL :=
  if stringContainsCTLByte rawURL then .error .invalidControlCharacter
  else if rawURL = [] ∧ viaRequest then .error .emptyURL
  else if rawURL = str "*" then .ok { Path := str "*" }
  else
    -- Split off possible leading "http:", "mailto:", etc.
    match getScheme rawURL with
    | .error e => .error e
    | .ok (scheme, rest) =>
      let url : URL := { Scheme := ToLower lowerMap scheme }
      if HasSuffix rest (str "?") ∧ CountByte rest (byte '?') = 1 then
        parseAfterQuery viaRequest { url with ForceQuery := true } (rest.take (rest.length - 1))
      else
        parseAfterQuery viaRequest { url with RawQuery := (Cut rest (str "?")).2.1 }
          (Cut rest (str "?")).1

/-- `url.Parse(rawURL)`. -/
def Parse (lowerMap : GoString → GoString) (rawURL : GoString) : Except UrlError URL :=
  let (u, frag, _) := Cut rawURL (str "#")
  match parse lowerMap u false with
  | .error e => .error e
  | .ok url => if frag = [] then .ok url else url.setFragment frag

/-- The test `p, err := unescape(raw, mode); err == nil && p == want`. -/
def unescapesTo (raw : GoString) (mode : Encoding) (want : GoString) : Bool :=
  match unescape raw mode with
  | .ok p => p == want
  | .error _ => false

/-- `(*URL).EscapedPath()`. -/
def URL.EscapedPath (u : URL) : GoString :=
  if u.RawPath ≠ [] ∧ validEncoded u.RawPath encodePath
      ∧ unescapesTo u.RawPath encodePath u.Path then u.RawPath
  else if u.Path = str "*" then str "*"
  else escape u.Path encodePath

/-- `(*URL).EscapedFragment()`. -/
def URL.EscapedFragment (u : URL) : GoString :=
  if u.RawFragment ≠ [] ∧ validEncoded u.RawFragment encodeFragment
      ∧ unescapesTo u.RawFragment encodeFragment u.Fragment then u.RawFragment
  else escape u.Fragment encodeFragment

/-- `(*Userinfo).String()` for a non-nil receiver. -/
def Userinfo.String (u : Userinfo) : GoString :=
  let s := escape u.username encodeUserPassword
  if u.passwordSet then s ++ str ":" ++ escape u.password encodeUserPassword else s

/-- `(*URL).String()`: the pieces written to `buf`, in source order:
`scheme:`, then the opaque part or `//userinfo@host` and the path (with a `/`
or `./` put before it where the source does), then `?query` and `#fragment`. -/
def URL.String (u : URL) : GoString :=
  let scheme : GoString := if u.Scheme ≠ [] then u.Scheme ++ str ":" else []
  let body : GoString :=
    if u.Opaque ≠ [] then u.Opaque
    else
      let authority : GoString :=
        if u.Scheme ≠ [] ∨ u.Host ≠ [] ∨ u.User.isSome then
          if u.OmitHost ∧ u.Host = [] ∧ u.User.isNone then []
          else
            (if u.Host ≠ [] ∨ u.Path ≠ [] ∨ u.User.isSome then str "//" else [])
              ++ (match u.User with
                  | some ui => ui.String ++ str "@"
                  | none => [])
              ++ (if u.Host ≠ [] then escape u.Host encodeHost else [])
        else []
      let path := u.EscapedPath
      let slash : GoString :=
        if path ≠ [] ∧ path.head? ≠ some (byte '/') ∧ u.Host ≠ [] then str "/" else []
      -- `buf.Len() == 0`: nothing has been written so far
      let dot : GoString :=
        if (scheme ++ authority ++ slash).length = 0
            ∧ Contains (Cut path (str "/")).1 (str ":") then str "./"
        else []
      authority ++ slash ++ dot ++ path
  let query : GoString :=
    if u.ForceQuery ∨ u.RawQuery ≠ [] then str "?" ++ u.RawQuery else []
  let fragment : GoString :=
    if u.Fragment ≠ [] then str "#" ++ u.EscapedFragment else []
  scheme ++ body ++ query ++ fragment

/-- `splitHostPort(hostPort)`: `(host, port)`. -/
def splitHostPort (hostPort : GoString) : GoString × GoString :=
  let (host, port) :=
    match LastIndexByte hostPort (byte ':') with
    | some colon =>
      if validOptionalPort (hostPort.drop colon) then
        (hostPort.take colon, hostPort.drop (colon + 1))
      else (hostPort, [])
    | none => (hostPort, [])
  if HasPrefix host (str "[") ∧ HasSuffix host (str "]") then
    ((host.drop 1).take (host.length - 2), port)
  else (host, port)

/-- `(*URL).Hostname()`. -/
def URL.Hostname (u : URL) : GoString := (splitHostPort u.Host).1

/-- The successive `elem`s that `strings.Cut(remaining, "/")` yields in the loop
of `resolvePath`: the pieces of `full` between slashes. -/
def pathElems : GoString → List GoString
  | [] => [[]]
  | c :: s =>
    if c = byte '/' then [] :: pathElems s
    else
      match pathElems s with
      | [] => [[c]]
      | e :: es => (c :: e) :: es

/-- One turn of the loop of `resolvePath`: the state is `(dst, first)`. -/
def resolveStep (st : GoString × Bool) (e : GoString) : GoString × Bool :=
  let (dst, first) := st
  if e = str "." then (dst, false)
  else if e = str ".." then
    -- Ignore the leading '/' we already wrote.
    let s := dst.drop 1
    match LastIndexByte s (byte '/') with
    | none => (str "/", true)
    | some index => (str "/" ++ s.take index, first)
  else ((if !first then dst ++ str "/" else dst) ++ e, false)

/-- `resolvePath(base, ref)`. -/
def resolvePath (base ref : GoString) : GoString :=
  let full : GoString :=
    if ref = [] then base
    else if ref.head? ≠ some (byte '/') then
      (match LastIndex base (str "/") with
        | some i => base.take (i + 1)
        | none => []) ++ ref
    else ref
  if full = [] then []
  else
    let elems := pathElems full
    let (dst, _) := elems.foldl resolveStep (str "/", true)
    let dst :=
      if elems.getLast? = some (str ".") ∨ elems.getLast? = some (str "..") then dst ++ str "/"
      else dst
    -- We wrote an initial '/', but we don't want two.
    if dst.length > 1 ∧ dst.getD 1 0 = byte '/' then dst.drop 1 else dst

/-- `(*URL).setPath(p)` with the error ignored, as `ResolveReference` calls it:
on an error the receiver is unchanged. -/
def URL.setPathIgnore (u : URL) (p : GoString) : URL :=
  match u.setPath p with
  | .ok v => v
  | .error _ => u

/-- `(*URL).ResolveReference(ref)`. -/
def URL.ResolveReference (u ref : URL) : URL :=
  let url : URL := ref
  let url : URL := if ref.Scheme = [] then { url with Scheme := u.Scheme } else url
  if ref.Scheme ≠ [] ∨ ref.Host ≠ [] ∨ ref.User.isSome then
    -- The "absoluteURI" or "net_path" cases.
    url.setPathIgnore (resolvePath ref.EscapedPath [])
  else if ref.Opaque ≠ [] then
    { url with User := none, Host := [], Path := [] }
  else
    let url : URL :=
      if ref.Path = [] ∧ !ref.ForceQuery ∧ ref.RawQuery = [] then
        let url := { url with RawQuery := u.RawQuery }
        if ref.Fragment = [] then
          { url with Fragment := u.Fragment, RawFragment := u.RawFragment }
        else url
      else url
    if ref.Path = [] ∧ u.Opaque ≠ [] then
      { url with Opaque := u.Opaque, User := none, Host := [], Path := [] }
    else
      -- The "abs_path" or "rel_path" cases.
      let url := { url with Host := u.Host, User := u.User }
      url.setPathIgnore (resolvePath u.EscapedPath ref.EscapedPath)

/-! ## `regexp`

The patterns of the two files use literals, one-rune classes, `*` and `+` on
one-rune classes, groups, alternation and `^`.  Matching is leftmost-first
(the match a backtracking engine finds), on runes decoded from the input.
-/

/-- A set of runes: the union of `ranges`, complemented when `neg`. -/
structure RuneSet where
  neg : Bool
  ranges : List (Nat × Nat)
  deriving DecidableEq, Repr

/-- Whether the rune `r` is in the set. -/
def RuneSet.has (c : RuneSet) (r : Nat) : Bool :=
  (c.ranges.any fun p => p.1 ≤ r && r ≤ p.2) != c.neg

/-- The pattern syntax that occurs in this repository. -/
inductive Regex
  | empty
  | bol
  | rune (c : RuneSet)
  | star (c : RuneSet)
  | plus (c : RuneSet)
  | cat (a b : Regex)
  | alt (a b : Regex)
  | cap (i : Nat) (a : Regex)
  deriving Repr

/-- The state of a match attempt: byte offset, the input from there on, and
the groups closed so far (`(start, end)` offsets). -/
structure MState where
  pos : Nat
  rest : GoString
  caps : List (Option (Nat × Nat))
  deriving DecidableEq, Repr

/-- Consume one rune of the set. -/
def stepRune (c : RuneSet) (st : MState) : Option MState :=
  match st.rest with
  | [] => none
  | b :: t =>
    let (r, size) := DecodeRuneInString (b :: t)
    if c.has r then some { st with pos := st.pos + size, rest := (b :: t).drop size }
    else none

/-- Greedy `c*` followed by the continuation `k`: the longest run first. -/
def starLoop (c : RuneSet) (k : MState → Option MState) : Nat → MState → Option MState
  | 0, st => k st
  | fuel + 1, st =>
    match stepRune c st with
    | some st1 =>
      match starLoop c k fuel st1 with
      | some r => some r
      | none => k st
    | none => k st

/-- Match `re` at the state `st`, then `k`; alternatives are tried in order. -/
def Regex.run : Regex → MState → (MState → Option MState) → Option MState
  | .empty, st, k => k st
  | .bol, st, k => if st.pos = 0 then k st else none
  | .rune c, st, k => (stepRune c st).bind k
  | .star c, st, k => starLoop c k st.rest.length st
  | .plus c, st, k => (stepRune c st).bind fun st1 => starLoop c k st1.rest.length st1
  | .cat a b, st, k => a.run st fun st1 => b.run st1 k
  | .alt a b, st, k =>
    match a.run st k with
    | some r => some r
    | none => b.run st k
  | .cap i a, st, k =>
    a.run st fun st1 => k { st1 with caps := st1.caps.set i (some (st.pos, st1.pos)) }

/-- The unanchored search: the first start offset, rune by rune, at which the
pattern matches.  The result is the start offset and the final state. -/
def findLoop (re : Regex) (groups : Nat) : Nat → Nat → GoString → Option (Nat × MState)
  | 0, pos, rest =>
    (re.run ⟨pos, rest, List.replicate (groups + 1) none⟩ some).map fun st => (pos, st)
  | fuel + 1, pos, rest =>
    match re.run ⟨pos, rest, List.replicate (groups + 1) none⟩ some with
    | some st => some (pos, st)
    | none =>
      match rest with
      | [] => none
      | b :: t =>
        let size := (DecodeRuneInString (b :: t)).2
        findLoop re groups fuel (pos + size) ((b :: t).drop size)

/-- A compiled pattern: its syntax and its number of groups. -/
structure Regexp where
  re : Regex
  groups : Nat

/-- `(*Regexp).MatchString(s)` / `regexp.MatchString(pattern, s)`. -/
def Regexp.MatchString (p : Regexp) (s : GoString) : Bool :=
  (findLoop p.re p.groups s.length 0 s).isSome

/-- `(*Regexp).FindStringSubmatch(s)`: nil (`[]`) without a match, otherwise the
match followed by the text of every group (`""` for a group not taken). -/
def Regexp.FindStringSubmatch (p : Regexp) (s : GoString) : List GoString :=
  match findLoop p.re p.groups s.length 0 s with
  | none => []
  | some (start, st) =>
    (s.drop start).take (st.pos - start) ::
      (List.range p.groups).map fun g =>
        match st.caps.getD (g + 1) none with
        | some (a, b) => (s.drop a).take (b - a)
        | none => []

/-- A literal rune. -/
def Regex.lit (c : Char) : Regex := .rune ⟨false, [(c.toNat, c.toNat)]⟩

/-- A literal rune under `(?i)`: the rune with its case variants (the simple
folding orbit, which for `k` and `s` holds U+212A and U+017F as well). -/
def Regex.litFold (c : Char) : Regex :=
  let lo := c.toLower.toNat
  let up := c.toUpper.toNat
  .rune ⟨false,
    if lo = up then [(lo, lo)]
    else if c.toLower = 'k' then [(up, up), (lo, lo), (0x212A, 0x212A)]
    else if c.toLower = 's' then [(up, up), (lo, lo), (0x17F, 0x17F)]
    else [(up, up), (lo, lo)]⟩

/-- Concatenation of a list of patterns. -/
def Regex.seq : List Regex → Regex
  | [] => .empty
  | [a] => a
  | a :: as => .cat a (Regex.seq as)

/-- A literal text. -/
def Regex.text (s : String) : Regex := Regex.seq (s.toList.map Regex.lit)

/-- A literal text under `(?i)`. -/
def Regex.textFold (s : String) : Regex := Regex.seq (s.toList.map Regex.litFold)

/-- A positive class of single characters. -/
def RuneSet.of (s : String) : RuneSet := ⟨false, s.toList.map fun c => (c.toNat, c.toNat)⟩

/-- A negated class of single characters. -/
def RuneSet.notOf (s : String) : RuneSet := ⟨true, s.toList.map fun c => (c.toNat, c.toNat)⟩

/-- The Perl class `\s`: `[\t\n\f\r ]`. -/
def RuneSet.space : RuneSet := ⟨false, [(0x09, 0x0A), (0x0C, 0x0D), (0x20, 0x20)]⟩

/-! ## `golang.org/x/net/html` nodes -/

/-- `html.NodeType`. -/
inductive NodeType
  | ErrorNode
  | TextNode
  | DocumentNode
  | ElementNode
  | CommentNode
  | DoctypeNode
  | RawNode
  deriving DecidableEq, Repr

/-- `html.Attribute`. -/
structure Attribute where
  Namespace : GoString := []
  Key : GoString
  Val : GoString
  deriving DecidableEq, Repr

/-- `html.Node`: the children are the `FirstChild` / `NextSibling` chain. -/
inductive Node
  | mk (nodeType : NodeType) (Data : GoString) (Attr : List Attribute) (children : List Node)
  deriving Repr

/-- `n.Type`. -/
def Node.nodeType : Node → NodeType
  | .mk t _ _ _ => t

/-- `n.Data`. -/
def Node.Data : Node → GoString
  | .mk _ d _ _ => d

/-- `n.Attr`. -/
def Node.Attr : Node → List Attribute
  | .mk _ _ a _ => a

/-- The children of `n`, first to last. -/
def Node.children : Node → List Node
  | .mk _ _ _ cs => cs

/-- `n.FirstChild` (`none` is nil). -/
def Node.FirstChild (n : Node) : Option Node := n.children.head?

/-! ## `url_info_handler.go` -/

/-- `URLMetadata`: the extracted metadata of a URL. -/
structure URLMetadata where
  OgImage : GoString := []
  Title : GoString := []
  Description : GoString := []
  Favicon : GoString := []
  deriving DecidableEq, Repr

/-- The errors `validateAndNormalizeURL` returns, in source order. -/
inductive ValidateError
  | emptyURL
  | parseFailed (e : UrlError)
  | noHost
  | privateHost
  deriving DecidableEq, Repr

/-- How a call can end without a value: a returned `error`, or the run-time
panic of a nil pointer dereference. -/
inductive Failure
  | htmlParseError
  | nilPointerDereference
  deriving DecidableEq, Repr

/-- The list `privateHosts` of `isPrivateHost`. -/
def privateHosts : List GoString :=
  [str "localhost", str "127.0.0.1", str "0.0.0.0", str "::1"]

/-- The list `privatePatterns` of `isPrivateHost`:
`^10\.`, `^172\.(1[6-9]|2[0-9]|3[0-1])\.`, `^192\.168\.`, `^169\.254\.`. -/
def privatePatterns : List Regexp :=
  [ ⟨.cat .bol (Regex.text "10."), 0⟩,
    ⟨Regex.seq [.bol, Regex.text "172.",
        .cap 1 (.alt (.cat (Regex.lit '1') (.rune ⟨false, [(byte '6', byte '9')]⟩))
          (.alt (.cat (Regex.lit '2') (.rune ⟨false, [(byte '0', byte '9')]⟩))
            (.cat (Regex.lit '3') (.rune ⟨false, [(byte '0', byte '1')]⟩)))),
        Regex.lit '.'], 1⟩,
    ⟨.cat .bol (Regex.text "192.168."), 0⟩,
    ⟨.cat .bol (Regex.text "169.254."), 0⟩ ]

/-- `isPrivateHost(host)`: checks if the host is localhost or a private IP. -/
def isPrivateHost (host : GoString) : Bool :=
  if privateHosts.any fun ph => host == ph then true
  -- Check for private IP ranges
  else if privatePatterns.any fun pattern => pattern.MatchString host then true
  else false

/-- `validateAndNormalizeURL(rawURL)`: validates the URL and adds protocol if
missing. -/
def validateAndNormalizeURL (lowerMap : GoString → GoString) (rawURL : GoString) :
    Except ValidateError GoString :=
  let rawURL := TrimSpace rawURL
  -- Don't allow empty URLs
  if rawURL = [] then .error .emptyURL
  else
    -- Add https:// if no protocol specified
    let rawURL :=
      if !HasPrefix rawURL (str "http://") ∧ !HasPrefix rawURL (str "https://") then
        str "https://" ++ rawURL
      else rawURL
    -- Parse and validate the URL
    match Parse lowerMap rawURL with
    | .error e => .error (.parseFailed e)
    | .ok parsedURL =>
      -- Must have a valid host
      if parsedURL.Host = [] then .error .noHost
      else
        -- Block localhost and private IPs for security
        let host := ToLower lowerMap parsedURL.Hostname
        if isPrivateHost host then .error .privateHost
        else .ok parsedURL.String

/-- The attribute loop of `handleMetaTag`: `(property, name, content)`. -/
def metaAttrs (lowerMap : GoString → GoString) (attrs : List Attribute) :
    GoString × GoString × GoString :=
  attrs.foldl
    (fun (acc : GoString × GoString × GoString) attr =>
      let (property, name, content) := acc
      let key := ToLower lowerMap attr.Key
      if key = str "property" then (ToLower lowerMap attr.Val, name, content)
      else if key = str "name" then (property, ToLower lowerMap attr.Val, content)
      else if key = str "content" then (property, name, attr.Val)
      else acc)
    ([], [], [])

/-- `handleMetaTag(n, metadata)`: extracts metadata from `<meta>` tags. -/
def handleMetaTag (lowerMap : GoString → GoString) (n : Node) (metadata : URLMetadata) :
    URLMetadata :=
  let (property, name, content) := metaAttrs lowerMap n.Attr
  -- Open Graph tags
  let metadata :=
    if property = str "og:image" then
      if metadata.OgImage = [] then { metadata with OgImage := content } else metadata
    else if property = str "og:title" then
      if metadata.Title = [] then { metadata with Title := content } else metadata
    else if property = str "og:description" then
      if metadata.Description = [] then { metadata with Description := content } else metadata
    else metadata
  -- Twitter Card tags (fallback)
  if name = str "twitter:image" then
    if metadata.OgImage = [] then { metadata with OgImage := content } else metadata
  else if name = str "twitter:title" then
    if metadata.Title = [] then { metadata with Title := content } else metadata
  else if name = str "twitter:description" then
    if metadata.Description = [] then { metadata with Description := content } else metadata
  else if name = str "description" then
    if metadata.Description = [] then { metadata with Description := content } else metadata
  else metadata

/-- The attribute loop of `handleLinkTag`: `(rel, href)`. -/
def linkAttrs (lowerMap : GoString → GoString) (attrs : List Attribute) : GoString × GoString :=
  attrs.foldl
    (fun (acc : GoString × GoString) attr =>
      let (rel, href) := acc
      let key := ToLower lowerMap attr.Key
      if key = str "rel" then (ToLower lowerMap attr.Val, href)
      else if key = str "href" then (rel, attr.Val)
      else acc)
    ([], [])

/-- `handleLinkTag(n, metadata, baseURL)`: extracts favicon from `<link>` tags
(`baseURL` is not used by the body). -/
def handleLinkTag (lowerMap : GoString → GoString) (n : Node) (metadata : URLMetadata)
    (_baseURL : Option URL) : URLMetadata :=
  let (rel, href) := linkAttrs lowerMap n.Attr
  -- Look for favicon
  if Contains rel (str "icon") ∧ href ≠ [] ∧ metadata.Favicon = [] then
    { metadata with Favicon := href }
  else metadata

/-- `resolveURL(rawURL, baseURL)`: resolves a relative URL to an absolute URL.
`baseURL = none` is the nil pointer; reading `baseURL.Scheme` through it
panics. -/
def resolveURL (lowerMap : GoString → GoString) (rawURL : GoString) (baseURL : Option URL) :
    Except Failure GoString :=
  if rawURL = [] then .ok []
  -- Already absolute
  else if HasPrefix rawURL (str "http://") ∨ HasPrefix rawURL (str "https://") then .ok rawURL
  -- Protocol-relative URL
  else if HasPrefix rawURL (str "//") then
    match baseURL with
    | some b => .ok (b.Scheme ++ str ":" ++ rawURL)
    | none => .error .nilPointerDereference
  else
    -- Relative URL
    match baseURL with
    | some b =>
      match Parse lowerMap rawURL with
      | .error _ => .ok rawURL
      | .ok ref => .ok (b.ResolveReference ref).String
    | none => .ok rawURL

/-- The state of the closure `traverse`: the metadata and `titleFromTag`. -/
structure TraverseState where
  metadata : URLMetadata
  titleFromTag : GoString
  deriving DecidableEq, Repr

/-- What `traverse` does at the node itself, before its children. -/
def visit (lowerMap : GoString → GoString) (parsedBaseURL : Option URL) (n : Node)
    (st : TraverseState) : TraverseState :=
  if n.nodeType = .ElementNode then
    if n.Data = str "meta" then { st with metadata := handleMetaTag lowerMap n st.metadata }
    else if n.Data = str "title" then
      -- Get title from <title> tag
      match n.FirstChild with
      | some c => { st with titleFromTag := TrimSpace c.Data }
      | none => st
    else if n.Data = str "link" then
      { st with metadata := handleLinkTag lowerMap n st.metadata parsedBaseURL }
    else st
  else st

mutual
/-- The closure `traverse` of `parseHTMLMetadata`: the node, then its children. -/
def traverse (lowerMap : GoString → GoString) (parsedBaseURL : Option URL) :
    Node → TraverseState → TraverseState
  | .mk t d a cs, st =>
    traverseChildren lowerMap parsedBaseURL cs (visit lowerMap parsedBaseURL (.mk t d a cs) st)
/-- The loop `for c := n.FirstChild; c != nil; c = c.NextSibling`. -/
def traverseChildren (lowerMap : GoString → GoString) (parsedBaseURL : Option URL) :
    List Node → TraverseState → TraverseState
  | [], st => st
  | c :: cs, st =>
    traverseChildren lowerMap parsedBaseURL cs (traverse lowerMap parsedBaseURL c st)
end

/-- `fmt.Sprintf("%s://%s/favicon.ico", scheme, host)`. -/
def defaultFavicon (scheme host : GoString) : GoString :=
  scheme ++ str "://" ++ host ++ str "/favicon.ico"

/-- `parseHTMLMetadata(reader, baseURL)`: parses HTML and extracts Open Graph
and other metadata.  `parsed` is what `html.Parse(reader)` returned: the
document, or `none` for its error. -/
def parseHTMLMetadata (lowerMap : GoString → GoString) (parsed : Option Node)
    (baseURL : GoString) : Except Failure URLMetadata :=
  match parsed with
  | none => .error .htmlParseError
  | some doc => do
    -- Parse base URL for resolving relative URLs
    let parsedBaseURL : Option URL := (Parse lowerMap baseURL).toOption
    let st := traverse lowerMap parsedBaseURL doc ⟨{}, []⟩
    let metadata := st.metadata
    -- Use <title> tag if og:title not found
    let metadata :=
      if metadata.Title = [] ∧ st.titleFromTag ≠ [] then
        { metadata with Title := st.titleFromTag }
      else metadata
    -- Resolve relative URLs to absolute URLs
    let metadata ←
      if metadata.OgImage ≠ [] then do
        let r ← resolveURL lowerMap metadata.OgImage parsedBaseURL
        pure { metadata with OgImage := r }
      else pure metadata
    let metadata ←
      if metadata.Favicon ≠ [] then do
        let r ← resolveURL lowerMap metadata.Favicon parsedBaseURL
        pure { metadata with Favicon := r }
      else pure metadata
    -- Generate default favicon URL if not found
    match parsedBaseURL with
    | some b =>
      if metadata.Favicon = [] then
        pure { metadata with Favicon := defaultFavicon b.Scheme b.Host }
      else pure metadata
    | none => pure metadata

/-! ## `url_info_simple.go` -/

/-- One alternative of the meta patterns, `attr` and `content` in either order:
`<meta[^>]*A\s*=\s*["']V["'][^>]*content\s*=\s*["']([^"']+)["'][^>]*>` and
`<meta[^>]*content\s*=\s*["']([^"']+)["'][^>]*A\s*=\s*["']V["'][^>]*>`. -/
def metaPattern (attr value : String) : Regexp :=
  let gt := RuneSet.notOf ">"
  let q := Regex.rune (RuneSet.of "\"'")
  let nq := RuneSet.notOf "\"'"
  let eq := Regex.seq [.star RuneSet.space, Regex.lit '=', .star RuneSet.space]
  let named := Regex.seq [Regex.textFold attr, eq, q, Regex.textFold value, q]
  let content (i : Nat) := Regex.seq [Regex.textFold "content", eq, q, .cap i (.plus nq), q]
  ⟨.alt
    (Regex.seq [Regex.textFold "<meta", .star gt, named, .star gt, content 1, .star gt,
      Regex.lit '>'])
    (Regex.seq [Regex.textFold "<meta", .star gt, content 2, .star gt, named, .star gt,
      Regex.lit '>']), 2⟩

/-- `ogImageRegex`. -/
def ogImageRegex : Regexp := metaPattern "property" "og:image"

/-- `ogTitleRegex`. -/
def ogTitleRegex : Regexp := metaPattern "property" "og:title"

/-- `ogDescRegex`. -/
def ogDescRegex : Regexp := metaPattern "property" "og:description"

/-- `twitterImageRegex`. -/
def twitterImageRegex : Regexp := metaPattern "name" "twitter:image"

/-- `titleTagRegex`: `(?i)<title[^>]*>([^<]+)</title>`. -/
def titleTagRegex : Regexp :=
  ⟨Regex.seq [Regex.textFold "<title", .star (RuneSet.notOf ">"), Regex.lit '>',
    .cap 1 (.plus (RuneSet.notOf "<")), Regex.textFold "</title>"], 1⟩

/-- `faviconRegex`:
`(?i)<link[^>]*rel\s*=\s*["'][^"']*icon[^"']*["'][^>]*href\s*=\s*["']([^"']+)["'][^>]*>`. -/
def faviconRegex : Regexp :=
  let gt := RuneSet.notOf ">"
  let q := Regex.rune (RuneSet.of "\"'")
  let nq := RuneSet.notOf "\"'"
  let eq := Regex.seq [.star RuneSet.space, Regex.lit '=', .star RuneSet.space]
  ⟨Regex.seq [Regex.textFold "<link", .star gt, Regex.textFold "rel", eq, q, .star nq,
    Regex.textFold "icon", .star nq, q, .star gt, Regex.textFold "href", eq, q,
    .cap 1 (.plus nq), q, .star gt, Regex.lit '>'], 1⟩

/-- `SimpleURLMetadata`. -/
structure SimpleURLMetadata where
  OgImage : GoString := []
  Title : GoString := []
  Description : GoString := []
  Favicon : GoString := []
  deriving DecidableEq, Repr

/-- The loop `for i := 1; i < len(matches); i++` that picks the first
non-empty group; `none` when the loop ends without assigning. -/
def firstGroup (ms : List GoString) : Option GoString :=
  (ms.drop 1).find? fun m => m ≠ []

/-- `resolveRelativeURL(rawURL, base)` for the non-nil `base` it is called
with. -/
def resolveRelativeURL (lowerMap : GoString → GoString) (rawURL : GoString) (base : URL) :
    GoString :=
  if rawURL = [] ∨ HasPrefix rawURL (str "http") then rawURL
  else if HasPrefix rawURL (str "//") then base.Scheme ++ str ":" ++ rawURL
  else
    match Parse lowerMap rawURL with
    | .ok ref => (base.ResolveReference ref).String
    | .error _ => rawURL

/-- `extractMetadataRegex(html, baseURL)`.  The four fields of `metadata` are
followed one by one; each starts as `""`. -/
def extractMetadataRegex (lowerMap : GoString → GoString) (html baseURL : GoString) :
    SimpleURLMetadata :=
  -- Extract og:image
  let ogImage : GoString := (firstGroup (ogImageRegex.FindStringSubmatch html)).getD []
  -- Fallback to twitter:image if no og:image
  let ogImage : GoString :=
    if ogImage = [] then (firstGroup (twitterImageRegex.FindStringSubmatch html)).getD ogImage
    else ogImage
  -- Extract og:title
  let title : GoString := (firstGroup (ogTitleRegex.FindStringSubmatch html)).getD []
  -- Fallback to <title> tag
  let title : GoString :=
    if title = [] then
      let ms := titleTagRegex.FindStringSubmatch html
      if ms.length > 1 then TrimSpace (ms.getD 1 []) else title
    else title
  -- Extract og:description
  let description : GoString := (firstGroup (ogDescRegex.FindStringSubmatch html)).getD []
  -- Extract favicon
  let favicon : GoString :=
    let ms := faviconRegex.FindStringSubmatch html
    if ms.length > 1 then ms.getD 1 [] else []
  -- Resolve relative URLs
  match Parse lowerMap baseURL with
  | .ok parsedBase =>
    let ogImage := resolveRelativeURL lowerMap ogImage parsedBase
    let favicon := resolveRelativeURL lowerMap favicon parsedBase
    -- Default favicon
    let favicon :=
      if favicon = [] then defaultFavicon parsedBase.Scheme parsedBase.Host else favicon
    { OgImage := ogImage, Title := title, Description := description, Favicon := favicon }
  | .error _ =>
    { OgImage := ogImage, Title := title, Description := description, Favicon := favicon }

/-! ## `net/http`, as far as the handlers use it

A handler is run on a request and a response writer on which nothing was
written.  What lies outside the program is given to it: the replies the
network makes to the requests sent (`List Reply`, one per request, in order),
and `html.Parse` (`htmlParse`, from the bytes read to the document or `none`
for its error).  A run returns the response writer together with the calls it
made to the outside, in order.
-/

/-- `url.Values`: for each key its values in the order `parseQuery` appended
them; kept as the list of the `(key, value)` pairs in that order. -/
abbrev Values := List (GoString × GoString)

/-- The pieces of `s` between the bytes `sep`: what repeated
`strings.Cut(s, sep)` yields. -/
def splitByte (sep : Nat) : GoString → List GoString
  | [] => [[]]
  | c :: s =>
    if c = sep then [] :: splitByte sep s
    else
      match splitByte sep s with
      | [] => [[c]]
      | e :: es => (c :: e) :: es

/-- `url.parseQuery(m, query)` with the error dropped, as `(*URL).Query` calls
it: one turn of the loop per piece between `&`; a piece with `;`, an empty
piece and a piece that `QueryUnescape` refuses add nothing. -/
def parseQuery (query : GoString) : Values :=
  (splitByte (byte '&') query).filterMap fun key =>
    if Contains key (str ";") then none
    else if key = [] then none
    else
      let (key, value, _) := Cut key (str "=")
      match unescape key encodeQueryComponent with
      | .error _ => none
      | .ok key =>
        match unescape value encodeQueryComponent with
        | .error _ => none
        | .ok value => some (key, value)

/-- `(*URL).Query()`. -/
def URL.Query (u : URL) : Values := parseQuery u.RawQuery

/-- `Values.Get(key)`: the first value of the key, `""` when there is none. -/
def Values.Get (v : Values) (key : GoString) : GoString :=
  match v.find? fun p => p.1 = key with
  | some p => p.2
  | none => []

/-- `http.Request`: the fields the handlers read. -/
structure Request where
  Method : GoString
  URL : URL
  deriving DecidableEq, Repr

/-- `http.MethodGet`. -/
def MethodGet : GoString := str "GET"

/-- `http.StatusOK`. -/
def StatusOK : Nat := 200

/-- `http.StatusBadRequest`. -/
def StatusBadRequest : Nat := 400

/-- `http.StatusMethodNotAllowed`. -/
def StatusMethodNotAllowed : Nat := 405

/-- An `http.ResponseWriter` that records what is written (as
`httptest.ResponseRecorder` does): the `Content-Type` header, the status code
once the header is written, and the values encoded to the body with
`json.NewEncoder(w).Encode`, as Go values of type `β`. -/
structure ResponseWriter (β : Type) where
  ContentType : GoString := []
  Code : Option Nat := none
  Body : List β := []
  deriving DecidableEq, Repr

/-- `w.Header().Set("Content-Type", v)`: without effect on the response once
the header is written. -/
def ResponseWriter.SetContentType {β : Type} (w : ResponseWriter β) (v : GoString) :
    ResponseWriter β :=
  if w.Code.isSome then w else { w with ContentType := v }

/-- `w.WriteHeader(statusCode)`: the first call fixes the status code. -/
def ResponseWriter.WriteHeader {β : Type} (w : ResponseWriter β) (statusCode : Nat) :
    ResponseWriter β :=
  if w.Code.isSome then w else { w with Code := some statusCode }

/-- `json.NewEncoder(w).Encode(v)`: a write to the body; a write before any
`WriteHeader` writes the header with `http.StatusOK` first. -/
def ResponseWriter.Encode {β : Type} (w : ResponseWriter β) (v : β) : ResponseWriter β :=
  let w := w.WriteHeader StatusOK
  { w with Body := w.Body ++ [v] }

/-- The status code of the response sent: the one written, `http.StatusOK`
when the handler wrote none. -/
def ResponseWriter.status {β : Type} (w : ResponseWriter β) : Nat := w.Code.getD StatusOK

/-- `http.Response`: the fields the fetchers read; `ContentType` is
`resp.Header.Get("Content-Type")` and `Body` the bytes `resp.Body` yields. -/
structure Response where
  StatusCode : Nat
  ContentType : GoString := []
  Body : GoString := []
  deriving DecidableEq, Repr

/-- What `c.send` gets for one request: no response (a transport error, the
deadline), a response that the client follows as a redirect to the request
`location`, or a response that it returns. -/
inductive Reply
  | failed
  | redirect (location : GoString)
  | response (resp : Response)
  deriving DecidableEq, Repr

/-- The errors of `client.Do`. -/
inductive ClientError
  | sendFailed
  | tooManyRedirects
  | stoppedAfter10Redirects
  deriving DecidableEq, Repr

/-- The calls a handler makes to the outside, and the calls of the two
fetchers, which make them. -/
inductive Call
  | fetchURLMetadata (targetURL : GoString)
  | fetchPage (targetURL : GoString)
  | send (url : GoString)
  | htmlParse (body : GoString)
  | printf (targetURL : GoString)
  deriving DecidableEq, Repr

/-- The loop of `(*Client).do`: `req` is sent and joins `reqs`, the requests
made already, oldest first; a redirect is followed when `checkRedirect`, called
with the requests made already, returns nil.  A request is its URL.  When
the replies run out the request gets no response. -/
def clientDo (checkRedirect : List GoString → Option ClientError) :
    GoString → List GoString → List Reply → List Call × Except ClientError Response
  | req, _, [] => ([.send req], .error .sendFailed)
  | req, _, .failed :: _ => ([.send req], .error .sendFailed)
  | req, _, .response resp :: _ => ([.send req], .ok resp)
  | req, reqs, .redirect location :: replies =>
    match checkRedirect (reqs ++ [req]) with
    | some err => ([.send req], .error err)
    | none =>
      let (calls, res) := clientDo checkRedirect location (reqs ++ [req]) replies
      (.send req :: calls, res)

/-- The policy `defaultCheckRedirect` of `net/http`, used by a client without
`CheckRedirect`. -/
def defaultCheckRedirect (via : List GoString) : Option ClientError :=
  if via.length ≥ 10 then some .stoppedAfter10Redirects else none

/-! ## The handlers of `url_info_handler.go` -/

/-- The text of `Msg`: a literal, or `fmt.Sprintf("Invalid URL: %v", err)`,
kept as the error it prints. -/
inductive Message
  | text (s : GoString)
  | invalidURL (err : ValidateError)
  deriving DecidableEq, Repr

/-- `URLInfoResponse`: the API response structure (`Data = none` is nil). -/
structure URLInfoResponse where
  Status : Int
  Msg : Message
  Data : Option URLMetadata := none
  deriving DecidableEq, Repr

/-- The errors `fetchURLMetadata` and `fetchPage` return, in source order. -/
inductive FetchError
  | createRequest (e : UrlError)
  | fetchFailed (e : ClientError)
  | statusCode (code : Nat)
  | notHTML (contentType : GoString)
  | parseFailed
  deriving DecidableEq, Repr

/-- How a call of `fetchURLMetadata` ends: with metadata, with an error, or
in the panic of `parseHTMLMetadata`. -/
inductive Fetched
  | metadata (m : URLMetadata)
  | error (e : FetchError)
  | panic
  deriving DecidableEq, Repr

/-- What a run of a handler leaves: the response writer, the calls made, and
whether the run ended in a panic. -/
structure Run (β : Type) where
  w : ResponseWriter β
  calls : List Call := []
  panicked : Bool := false
  deriving DecidableEq, Repr

/-- The function `CheckRedirect` of the client of `fetchURLMetadata`. -/
def checkRedirect (via : List GoString) : Option ClientError :=
  -- Allow up to 5 redirects
  if via.length ≥ 5 then some .tooManyRedirects else none

/-- `fetchURLMetadata(targetURL)`: fetches the webpage and extracts metadata.
`http.NewRequestWithContext` fails when `url.Parse(targetURL)` does; the
limited reader yields the first `5*1024*1024` bytes of the body. -/
def fetchURLMetadata (lowerMap : GoString → GoString) (htmlParse : GoString → Option Node)
    (replies : List Reply) (targetURL : GoString) : List Call × Fetched :=
  -- Create HTTP request
  match Parse lowerMap targetURL with
  | .error e => ([.fetchURLMetadata targetURL], .error (.createRequest e))
  | .ok _ =>
    -- Make the request
    match clientDo checkRedirect targetURL [] replies with
    | (sent, .error e) => (.fetchURLMetadata targetURL :: sent, .error (.fetchFailed e))
    | (sent, .ok resp) =>
      -- Check status code
      if resp.StatusCode ≠ StatusOK then
        (.fetchURLMetadata targetURL :: sent, .error (.statusCode resp.StatusCode))
      -- Check content type - only parse HTML
      else if !Contains resp.ContentType (str "text/html")
          ∧ !Contains resp.ContentType (str "application/xhtml") then
        (.fetchURLMetadata targetURL :: sent, .error (.notHTML resp.ContentType))
      else
        -- Limit response body size (5MB max)
        let limited := resp.Body.take (5 * 1024 * 1024)
        -- Parse HTML and extract metadata
        let calls := .fetchURLMetadata targetURL :: sent ++ [.htmlParse limited]
        match parseHTMLMetadata lowerMap (htmlParse limited) targetURL with
        | .error .htmlParseError => (calls, .error .parseFailed)
        | .error .nilPointerDereference => (calls, .panic)
        | .ok metadata => (calls, .metadata metadata)

/-- `sendURLInfoSuccess(w, data)`: sends a successful response. -/
def sendURLInfoSuccess (w : ResponseWriter URLInfoResponse) (data : URLMetadata) :
    ResponseWriter URLInfoResponse :=
  w.Encode { Status := 1, Msg := .text (str "success"), Data := some data }

/-- `sendURLInfoError(w, statusCode, message)`: sends an error response. -/
def sendURLInfoError (w : ResponseWriter URLInfoResponse) (statusCode : Nat)
    (message : Message) : ResponseWriter URLInfoResponse :=
  (w.WriteHeader statusCode).Encode { Status := 0, Msg := message }

/-- `URLInfoHandler(w, r)`: handles the `/client/common/urlInfo` endpoint. -/
def URLInfoHandler (lowerMap : GoString → GoString) (htmlParse : GoString → Option Node)
    (replies : List Reply) (w : ResponseWriter URLInfoResponse) (r : Request) :
    Run URLInfoResponse :=
  let w := w.SetContentType (str "application/json")
  -- Only allow GET requests
  if r.Method ≠ MethodGet then
    { w := sendURLInfoError w StatusMethodNotAllowed (.text (str "Method not allowed")) }
  else
    -- Get URL parameter
    let targetURL := r.URL.Query.Get (str "url")
    if targetURL = [] then
      { w := sendURLInfoError w StatusBadRequest (.text (str "URL parameter is required")) }
    else
      -- Validate and normalize the URL
      match validateAndNormalizeURL lowerMap targetURL with
      | .error err => { w := sendURLInfoError w StatusBadRequest (.invalidURL err) }
      | .ok normalizedURL =>
        -- Fetch and parse the URL metadata
        match fetchURLMetadata lowerMap htmlParse replies normalizedURL with
        | (calls, .error _) =>
          -- Log the error but return empty metadata (graceful degradation)
          { w := sendURLInfoSuccess w {}, calls := calls ++ [.printf normalizedURL] }
        | (calls, .panic) => { w := w, calls := calls, panicked := true }
        | (calls, .metadata metadata) => { w := sendURLInfoSuccess w metadata, calls := calls }

/-! ## The handler of `url_info_simple.go` -/

/-- The `map[string]interface{}` that `SimpleURLInfoHandler` encodes: the
keys `status`, `msg` and, where the map has it, `data`. -/
structure SimpleResponse where
  status : Int
  msg : GoString
  data : Option SimpleURLMetadata := none
  deriving DecidableEq, Repr

/-- `fetchPage(targetURL)`: the client has no `CheckRedirect`; up to 1MB of
the body is read. -/
def fetchPage (lowerMap : GoString → GoString) (replies : List Reply) (targetURL : GoString) :
    List Call × Except FetchError GoString :=
  match Parse lowerMap targetURL with
  | .error e => ([.fetchPage targetURL], .error (.createRequest e))
  | .ok _ =>
    match clientDo defaultCheckRedirect targetURL [] replies with
    | (sent, .error e) => (.fetchPage targetURL :: sent, .error (.fetchFailed e))
    | (sent, .ok resp) =>
      if resp.StatusCode ≠ StatusOK then
        (.fetchPage targetURL :: sent, .error (.statusCode resp.StatusCode))
      else
        -- Read up to 1MB
        (.fetchPage targetURL :: sent, .ok (resp.Body.take (1024 * 1024)))

/-- `SimpleURLInfoHandler(w, r)`: a simpler regex-based implementation. -/
def SimpleURLInfoHandler (lowerMap : GoString → GoString) (replies : List Reply)
    (w : ResponseWriter SimpleResponse) (r : Request) : Run SimpleResponse :=
  let w := w.SetContentType (str "application/json")
  if r.Method ≠ MethodGet then
    { w := w.Encode { status := 0, msg := str "Method not allowed" } }
  else
    -- Get URL parameter - support both "url" and "targetUrl"
    let targetURL := r.URL.Query.Get (str "targetUrl")
    let targetURL := if targetURL = [] then r.URL.Query.Get (str "url") else targetURL
    if targetURL = [] then
      { w := w.Encode { status := 0, msg := str "targetUrl parameter is required" } }
    else
      -- Add https:// if missing
      let targetURL :=
        if !HasPrefix targetURL (str "http://") ∧ !HasPrefix targetURL (str "https://") then
          str "https://" ++ targetURL
        else targetURL
      -- Fetch the page
      match fetchPage lowerMap replies targetURL with
      | (calls, .error _) =>
        { w := w.Encode { status := 1, msg := str "success", data := some {} },
          calls := calls ++ [.printf targetURL] }
      | (calls, .ok htmlContent) =>
        -- Extract metadata using regex
        let metadata := extractMetadataRegex lowerMap htmlContent targetURL
        { w := w.Encode { status := 1, msg := str "success", data := some metadata },
          calls := calls }

/-! ## Vocabulary of the properties -/

/-- The decimal text of `n`. -/
def decimal (n : Nat) : GoString := (Nat.toDigits 10 n).map Char.toNat

/-- The URL text an input stands for: the input without surrounding white
space, read as an `https` URL when it names neither `http://` nor `https://`. -/
def urlTextOf (raw : GoString) : GoString :=
  let t := TrimSpace raw
  if HasPrefix t (str "http://") ∨ HasPrefix t (str "https://") then t else str "https://" ++ t

/-- The private and loopback host names: one of the four literal names, or a
name that begins with `10.`, `192.168.`, `169.254.` or `172.N.` for
`16 ≤ N ≤ 31`. -/
def BlockedHostname (h : GoString) : Prop :=
  h = str "localhost" ∨ h = str "127.0.0.1" ∨ h = str "0.0.0.0" ∨ h = str "::1"
    ∨ (∃ t, h = str "10." ++ t) ∨ (∃ t, h = str "192.168." ++ t)
    ∨ (∃ t, h = str "169.254." ++ t)
    ∨ (∃ N t, 16 ≤ N ∧ N ≤ 31 ∧ h = str "172." ++ decimal N ++ str "." ++ t)

mutual
/-- The nodes of a document in document order (the order `traverse` visits). -/
def Node.preorder : Node → List Node
  | .mk t d a cs => .mk t d a cs :: preorderList cs
/-- The nodes of a list of siblings and their descendants, in document order. -/
def preorderList : List Node → List Node
  | [] => []
  | c :: cs => c.preorder ++ preorderList cs
end

/-- Whether `n` is an element with the tag `tag`. -/
def Node.isElement (n : Node) (tag : String) : Bool :=
  n.nodeType = .ElementNode ∧ n.Data = str tag

/-- The text of a `<title>` element: the data of its first child (`html.Parse`
gives a `<title>` a single text child, or none when it is empty). -/
def Node.titleText (n : Node) : GoString :=
  match n.FirstChild with
  | some c => c.Data
  | none => []

/-- The title a `<meta>` element carries: its content when it is an `og:title`
or a `twitter:title`. -/
def metaTitle (lowerMap : GoString → GoString) (n : Node) : GoString :=
  let (property, name, content) := metaAttrs lowerMap n.Attr
  if property = str "og:title" ∨ name = str "twitter:title" then content else []

/-- An element with the given attributes and children. -/
def element (tag : String) (attrs : List (String × String)) (children : List Node) : Node :=
  .mk .ElementNode (str tag) (attrs.map fun a => ⟨[], str a.1, str a.2⟩) children

/-- A text node. -/
def text (s : String) : Node := .mk .TextNode (str s) [] []

/-- A document whose `<head>` holds the given elements. -/
def documentWithHead (head : List Node) : Node :=
  .mk .DocumentNode [] [] [element "html" [] [element "head" [] head, element "body" [] []]]

/-- The base of the test `TestResolveURL`: `url.Parse("https://example.com/page/")`. -/
def testBase : URL := { Scheme := str "https", Host := str "example.com", Path := str "/page/" }

/-- The request `GET /client/common/urlInfo?query`, as the tests build it. -/
def getRequest (query : String) : Request :=
  { Method := str "GET", URL := { Path := str "/client/common/urlInfo", RawQuery := str query } }

/-- The loop of `for _, r := range s`: the runes of `s`, an invalid byte
read as `utf8.RuneError`. -/
def runesLoop : Nat → GoString → List Nat
  | 0, _ => []
  | _ + 1, [] => []
  | fuel + 1, c :: s =>
    let (r, size) := DecodeRuneInString (c :: s)
    r :: runesLoop fuel ((c :: s).drop size)

/-- The runes of `s`. -/
def runes (s : GoString) : List Nat := runesLoop s.length s

/-- The string is empty or consists only of white space: every rune of it
is one that `unicode.IsSpace` accepts. -/
def onlyWhitespace (s : GoString) : Bool := (runes s).all IsSpace

/-- The `rel` of a `<link>` element as `handleLinkTag` reads it: lower-cased,
the last one when the attribute is repeated. -/
def linkRel (lowerMap : GoString → GoString) (n : Node) : GoString :=
  (linkAttrs lowerMap n.Attr).1

/-- The `href` of a `<link>` element as `handleLinkTag` reads it. -/
def linkHref (lowerMap : GoString → GoString) (n : Node) : GoString :=
  (linkAttrs lowerMap n.Attr).2

/-- A `<link>` element whose `rel`, lower-cased, contains `icon`. -/
def relHasIcon (lowerMap : GoString → GoString) (n : Node) : Bool :=
  n.isElement "link" && Contains (linkRel lowerMap n) (str "icon")

/-- A `<link>` element whose `rel`, lower-cased, contains `icon` and whose
`href` is not empty. -/
def isIconLink (lowerMap : GoString → GoString) (n : Node) : Bool :=
  relHasIcon lowerMap n && decide (linkHref lowerMap n ≠ [])

/-- A `<title>` element that has a child. -/
def hasTitleText (n : Node) : Bool := n.isElement "title" && n.FirstChild.isSome

/-- The decimal text of a number from `lo` to `hi`. -/
def isDecimalIn (lo hi : Nat) (p : GoString) : Bool :=
  (List.range (hi + 1 - lo)).any fun i => p == decimal (lo + i)

/-- An address of the form `10.x.x.x`, `172.16.x.x` to `172.31.x.x`,
`192.168.x.x` or `169.254.x.x`: four decimal numbers up to 255 with dots
between them. -/
def privateAddress (h : GoString) : Bool :=
  match splitByte (byte '.') h with
  | [a, b, c, d] =>
    isDecimalIn 0 255 c && isDecimalIn 0 255 d
      && ((a == str "10" && isDecimalIn 0 255 b)
        || (a == str "172" && isDecimalIn 16 31 b)
        || (a == str "192" && b == str "168")
        || (a == str "169" && b == str "254"))
  | _ => false

/-! ## Lemmas on the embedded library -/

theorem decodeRune_ascii (b : Nat) (t : GoString) (h : b < 0x80) :
    DecodeRuneInString (b :: t) = (b, 1) := by
  simp [DecodeRuneInString, first, h]

theorem toLower_nil (lm : GoString → GoString) : ToLower lm [] = [] := rfl

theorem matchString_of_run (p : Regexp) (s : GoString)
    (h : (p.re.run ⟨0, s, List.replicate (p.groups + 1) none⟩ some).isSome = true) :
    p.MatchString s = true := by
  unfold Regexp.MatchString
  cases hr : p.re.run ⟨0, s, List.replicate (p.groups + 1) none⟩ some with
  | none => simp [hr] at h
  | some st => cases hl : s.length <;> simp [findLoop, hr]

/-! ## UTF-8 decoding -/

theorem first_cases (b : Nat) :
    (b < 0x80 ∧ first b = 0xF0) ∨ (0x80 ≤ b ∧ first b = 0xF1)
    ∨ (0xC2 ≤ b ∧ (first b = 0x02 ∨ first b = 0x13 ∨ first b = 0x23 ∨ first b = 0x03
        ∨ first b = 0x34 ∨ first b = 0x04 ∨ first b = 0x44)) := by
  unfold first
  split_ifs <;> simp <;> omega

theorem acceptRanges_bounds (x : Nat)
    (hx : x = 0x02 ∨ x = 0x13 ∨ x = 0x23 ∨ x = 0x03 ∨ x = 0x34 ∨ x = 0x04 ∨ x = 0x44) :
    0x80 ≤ (acceptRanges (x / 16)).1 ∧ (acceptRanges (x / 16)).2 ≤ 0xBF ∧ 2 ≤ x % 8 ∧ x % 8 ≤ 4
      ∧ x < 0xF0 := by
  rcases hx with rfl | rfl | rfl | rfl | rfl | rfl | rfl <;> decide

theorem decodeRune_singleton (b : Nat) (h : 0x80 ≤ b) : DecodeRuneInString [b] = (RuneError, 1) := by
  rcases first_cases b with ⟨h1, _⟩ | ⟨_, h2⟩ | ⟨_, h3⟩
  · omega
  · simp [DecodeRuneInString, h2]
  · obtain ⟨_, _, h4, _, h5⟩ := acceptRanges_bounds _ h3
    have : ¬ (0xF0 ≤ first b) := by omega
    have h6 : 1 < first b % 8 := by omega
    simp [DecodeRuneInString, this, h6]

/-- The size `DecodeRuneInString` reports is `1` when the byte after a non-ASCII
first byte is no continuation byte. -/
theorem decodeRune_size_one (b c : Nat) (t : GoString) (h : 0x80 ≤ b)
    (hc : ¬ (0x80 ≤ c ∧ c ≤ 0xBF)) : (DecodeRuneInString (b :: c :: t)).2 = 1 := by
  rcases first_cases b with ⟨h1, _⟩ | ⟨_, h2⟩ | ⟨_, h3⟩
  · omega
  · simp [DecodeRuneInString, h2]
  · obtain ⟨a1, a2, h4, _, h5⟩ := acceptRanges_bounds _ h3
    have : ¬ (0xF0 ≤ first b) := by omega
    have hr : c < (acceptRanges (first b / 16)).1 ∨ (acceptRanges (first b / 16)).2 < c := by
      omega
    simp only [DecodeRuneInString, ge_iff_le, this, if_false, hr, if_true]
    split_ifs <;> rfl

theorem decodeRune_append (a tail : GoString) (h : 2 ≤ (DecodeRuneInString a).2) :
    DecodeRuneInString (a ++ tail) = DecodeRuneInString a := by
  rcases a with _ | ⟨b, t⟩
  · simp [DecodeRuneInString] at h
  rcases first_cases b with ⟨h1, h2⟩ | ⟨h1, h2⟩ | ⟨h1, h3⟩
  · simp [DecodeRuneInString, h2] at h
  · simp [DecodeRuneInString, h2] at h
  · rcases h3 with h3 | h3 | h3 | h3 | h3 | h3 | h3
    all_goals
      rcases t with _ | ⟨s1, _ | ⟨s2, _ | ⟨s3, t3⟩⟩⟩
    all_goals simp only [List.cons_append, List.nil_append] at h ⊢
    all_goals simp only [DecodeRuneInString, h3, acceptRanges, List.length_cons, List.length_nil,
      List.length_append] at h ⊢
    all_goals norm_num at h ⊢
    all_goals (try (split_ifs at h ⊢ <;> first | rfl | omega))

/-- Bounds on the size `DecodeRuneInString` reports, and what a size says about
the first byte. -/
theorem decodeRune_spec (b : Nat) (t : GoString) :
    1 ≤ (DecodeRuneInString (b :: t)).2
    ∧ (DecodeRuneInString (b :: t)).2 ≤ (b :: t).length
    ∧ (2 ≤ (DecodeRuneInString (b :: t)).2 → 0xC2 ≤ b)
    ∧ ((DecodeRuneInString (b :: t)).2 = 1 → 0x80 ≤ b →
        (DecodeRuneInString (b :: t)).1 = RuneError) := by
  rcases first_cases b with ⟨h1, h2⟩ | ⟨h1, h2⟩ | ⟨h1, h3⟩
  · simp [DecodeRuneInString, h2]; omega
  · simp [DecodeRuneInString, h2]
  · rcases h3 with h3 | h3 | h3 | h3 | h3 | h3 | h3
    all_goals
      rcases t with _ | ⟨s1, _ | ⟨s2, _ | ⟨s3, t3⟩⟩⟩
    all_goals simp only [DecodeRuneInString, h3, acceptRanges, List.length_cons, List.length_nil]
    all_goals norm_num
    all_goals (try (split_ifs <;> simp <;> omega))

theorem first_lead (b : Nat) (h : first b < 0xF0) : 0xC2 ≤ b ∧ b ≤ 0xF4 := by
  unfold first at h
  split_ifs at h <;> omega

/-- A rune of size `2`, `3` or `4` starts with a lead byte and goes on with
continuation bytes. -/
theorem decodeRune_bytes (c0 : Nat) (t : GoString) (h : 2 ≤ (DecodeRuneInString (c0 :: t)).2) :
    0xC2 ≤ c0 ∧ c0 ≤ 0xF4 ∧ (DecodeRuneInString (c0 :: t)).2 ≤ 4
    ∧ ∀ c ∈ t.take ((DecodeRuneInString (c0 :: t)).2 - 1), 0x80 ≤ c ∧ c ≤ 0xBF := by
  have hf : first c0 < 0xF0 := by
    by_contra hc
    simp [DecodeRuneInString, not_lt.mp hc] at h
  obtain ⟨hl1, hl2⟩ := first_lead c0 hf
  refine ⟨hl1, hl2, ?_⟩
  rcases first_cases c0 with ⟨h1, h2⟩ | ⟨h1, h2⟩ | ⟨h1, h3⟩
  · omega
  · omega
  · rcases h3 with h3 | h3 | h3 | h3 | h3 | h3 | h3
    all_goals
      rcases t with _ | ⟨s1, _ | ⟨s2, _ | ⟨s3, t3⟩⟩⟩
    all_goals simp only [DecodeRuneInString, h3, acceptRanges, List.length_cons,
      List.length_nil] at h ⊢
    all_goals norm_num at h ⊢
    all_goals (try (split_ifs at h ⊢ <;> simp at h ⊢ <;> omega))

theorem decodeLast_ascii (l : GoString) (r0 : Nat) (h : r0 < 0x80) :
    DecodeLastRuneInString (l ++ [r0]) = (r0, 1) := by
  simp [DecodeLastRuneInString, RuneSelf, h]

theorem lastRuneLookback_le (n : Nat) (rev : List Nat) (k : Nat)
    (h : lastRuneLookback n rev = some k) : 1 ≤ k ∧ k ≤ n ∧ k ≤ rev.length := by
  induction n generalizing rev k with
  | zero => simp [lastRuneLookback] at h
  | succ n ih =>
    rcases rev with _ | ⟨b, rev⟩
    · simp [lastRuneLookback] at h
    · simp only [lastRuneLookback] at h
      split_ifs at h with hb
      · simp at h; subst h; simp
      · cases hl : lastRuneLookback n rev with
        | none => simp [hl] at h
        | some j =>
          simp [hl] at h
          subst h
          have := ih rev j hl
          simp; omega

/-- The shape of `DecodeLastRuneInString` at a non-ASCII last byte: a forward
decoding from some `start` before the end, kept when it ends at the end. -/
theorem decodeLast_shape (l : GoString) (r0 : Nat) (h : 0x80 ≤ r0) :
    ∃ start, start ≤ l.length ∧ DecodeLastRuneInString (l ++ [r0])
      = if start + (DecodeRuneInString ((l ++ [r0]).drop start)).2 ≠ l.length + 1
        then (RuneError, 1) else DecodeRuneInString ((l ++ [r0]).drop start) := by
  have h' : ¬ r0 < 0x80 := by omega
  cases hk : lastRuneLookback (l.length - (l.length + 1 - UTFMax)) l.reverse with
  | none =>
    refine ⟨l.length + 1 - UTFMax - 1, by simp [UTFMax]; omega, ?_⟩
    simp [DecodeLastRuneInString, RuneSelf, h', hk]
  | some k =>
    refine ⟨l.length - k, by omega, ?_⟩
    simp [DecodeLastRuneInString, RuneSelf, h', hk]

/-- The outcome of `DecodeLastRuneInString`: the last byte when it is ASCII,
`RuneError` with size `1`, or the rune that a forward decoding of the last
`size ≥ 2` bytes gives. -/
theorem decodeLast_spec (l : GoString) (r0 : Nat) :
    (DecodeLastRuneInString (l ++ [r0]) = (r0, 1) ∧ r0 < 0x80)
    ∨ (DecodeLastRuneInString (l ++ [r0]) = (RuneError, 1) ∧ 0x80 ≤ r0)
    ∨ (2 ≤ (DecodeLastRuneInString (l ++ [r0])).2
        ∧ (DecodeLastRuneInString (l ++ [r0])).2 ≤ l.length + 1 ∧ 0x80 ≤ r0
        ∧ DecodeRuneInString ((l ++ [r0]).drop
            (l.length + 1 - (DecodeLastRuneInString (l ++ [r0])).2))
          = DecodeLastRuneInString (l ++ [r0])) := by
  by_cases h : r0 < 0x80
  · exact Or.inl ⟨decodeLast_ascii l r0 h, h⟩
  · have h' : 0x80 ≤ r0 := by omega
    obtain ⟨start, hs, he⟩ := decodeLast_shape l r0 h'
    rw [he]
    split_ifs with hc
    · exact Or.inr (Or.inl ⟨rfl, h'⟩)
    · simp only [ne_eq, not_not] at hc
      by_cases h2 : 2 ≤ (DecodeRuneInString ((l ++ [r0]).drop start)).2
      · refine Or.inr (Or.inr ⟨h2, by omega, h', ?_⟩)
        have : l.length + 1 - (DecodeRuneInString ((l ++ [r0]).drop start)).2 = start := by omega
        rw [this]
      · have hd : (l ++ [r0]).drop start ≠ [] := by
          simp; omega
        obtain ⟨b, t, hbt⟩ := List.exists_cons_of_ne_nil hd
        have hsp := decodeRune_spec b t
        rw [← hbt] at hsp
        have h1 : (DecodeRuneInString ((l ++ [r0]).drop start)).2 = 1 := by omega
        have hst : start = l.length := by omega
        subst hst
        have : (l ++ [r0]).drop l.length = [r0] := by simp
        rw [this] at h1 ⊢
        exact Or.inr (Or.inl ⟨decodeRune_singleton r0 h', h'⟩)


theorem lastRuneLookback_found (n : Nat) (mid : List Nat) (c0 : Nat) (rest : List Nat)
    (hn : mid.length < n) (hmid : ∀ c ∈ mid, RuneStart c = false) (h0 : RuneStart c0 = true) :
    lastRuneLookback n (mid ++ c0 :: rest) = some (mid.length + 1) := by
  induction mid generalizing n with
  | nil =>
    obtain ⟨m, rfl⟩ : ∃ m, n = m + 1 := ⟨n - 1, by simp at hn; omega⟩
    simp [lastRuneLookback, h0]
  | cons c mid ih =>
    obtain ⟨m, rfl⟩ : ∃ m, n = m + 1 := ⟨n - 1, by simp at hn; omega⟩
    have hc : RuneStart c = false := hmid c (List.mem_cons_self _ _)
    have := ih m (by simp at hn; omega) (fun x hx => hmid x (List.mem_cons_of_mem _ hx))
    simp [lastRuneLookback, hc, this]

/-- `DecodeLastRuneInString` finds a rune of size `≥ 2` that ends the string. -/
theorem decodeLast_complete (pre chunk : GoString)
    (h2 : 2 ≤ (DecodeRuneInString chunk).2)
    (hlen : (DecodeRuneInString chunk).2 = chunk.length) :
    DecodeLastRuneInString (pre ++ chunk) = DecodeRuneInString chunk := by
  rcases chunk with _ | ⟨c0, t⟩
  · simp [DecodeRuneInString] at h2
  obtain ⟨hc1, hc2, h4, hcont⟩ := decodeRune_bytes c0 t h2
  have ht : (DecodeRuneInString (c0 :: t)).2 - 1 = t.length := by
    simp at hlen; omega
  rw [ht, List.take_length] at hcont
  have htne : t ≠ [] := by
    rintro rfl
    simp at hlen; omega
  obtain ⟨mid, r0, rfl⟩ : ∃ mid r0, t = mid ++ [r0] :=
    ⟨t.dropLast, t.getLast htne, (List.dropLast_append_getLast htne).symm⟩
  have hr0 : 0x80 ≤ r0 := (hcont r0 (by simp)).1
  have hr0' : ¬ r0 < 0x80 := by omega
  have hstart : RuneStart c0 = true := by simp [RuneStart]; omega
  have hmid : ∀ c ∈ mid.reverse, RuneStart c = false := by
    intro c hc
    have := hcont c (by simp at hc; simp [hc])
    simp [RuneStart]; omega
  have hmlen : mid.length + 2 ≤ 4 := by
    simp at hlen; omega
  have hlook := lastRuneLookback_found
    ((pre ++ c0 :: (mid ++ [r0])).length - 1 - ((pre ++ c0 :: (mid ++ [r0])).length - UTFMax))
    mid.reverse c0 pre.reverse (by simp [UTFMax]; omega) hmid hstart
  have hrev : (pre ++ c0 :: (mid ++ [r0])).reverse = r0 :: (mid.reverse ++ c0 :: pre.reverse) := by
    simp
  unfold DecodeLastRuneInString
  rw [hrev]
  simp only [RuneSelf, hr0', if_false, hlook]
  have hd : (pre ++ c0 :: (mid ++ [r0])).length - 1 - (mid.reverse.length + 1) = pre.length := by
    simp
  rw [hd, List.drop_left]
  have : pre.length + (DecodeRuneInString (c0 :: (mid ++ [r0]))).2
      = (pre ++ c0 :: (mid ++ [r0])).length := by
    rw [hlen]; simp
  simp [this]

/-- The last rune of a non-empty string as a final chunk of it: an ASCII byte,
a byte decoded as `RuneError`, or the bytes of a rune of size `≥ 2`. -/
theorem decodeLast_chunk (a : GoString) (ha : a ≠ []) :
    ∃ pre chunk, a = pre ++ chunk ∧ chunk.length = (DecodeLastRuneInString a).2
      ∧ ((∃ r0, chunk = [r0] ∧ r0 < 0x80 ∧ DecodeLastRuneInString a = (r0, 1))
        ∨ (∃ r0, chunk = [r0] ∧ 0x80 ≤ r0 ∧ DecodeLastRuneInString a = (RuneError, 1))
        ∨ (2 ≤ chunk.length ∧ DecodeRuneInString chunk = DecodeLastRuneInString a
            ∧ ∃ c0 t, chunk = c0 :: t ∧ 0xC2 ≤ c0)) := by
  obtain ⟨l, r0, rfl⟩ : ∃ l r0, a = l ++ [r0] :=
    ⟨a.dropLast, a.getLast ha, (List.dropLast_append_getLast ha).symm⟩
  rcases decodeLast_spec l r0 with ⟨h1, h2⟩ | ⟨h1, h2⟩ | ⟨h1, h2, h3, h4⟩
  · exact ⟨l, [r0], rfl, by simp [h1], Or.inl ⟨r0, rfl, h2, h1⟩⟩
  · exact ⟨l, [r0], rfl, by simp [h1], Or.inr (Or.inl ⟨r0, rfl, h2, h1⟩)⟩
  · generalize hp : DecodeLastRuneInString (l ++ [r0]) = p at h1 h2 h4 ⊢
    refine ⟨(l ++ [r0]).take (l.length + 1 - p.2), (l ++ [r0]).drop (l.length + 1 - p.2),
      (List.take_append_drop _ _).symm, by simp; omega, Or.inr (Or.inr ⟨by simp; omega, h4, ?_⟩)⟩
    have hne : (l ++ [r0]).drop (l.length + 1 - p.2) ≠ [] := by
      simp; omega
    obtain ⟨c0, t, hct⟩ := List.exists_cons_of_ne_nil hne
    refine ⟨c0, t, hct, ?_⟩
    rw [hct] at h4
    exact (decodeRune_bytes c0 t (by rw [h4]; exact h1)).1

theorem isSpace_ascii (c : Nat) (h : c < 0x80) : IsSpace c = asciiSpace c := by
  unfold IsSpace asciiSpace
  have : c ≤ 0xFF := by omega
  simp only [this, if_true]
  have h1 : (c == 0x85) = false := by simp; omega
  have h2 : (c == 0xA0) = false := by simp; omega
  simp [h1, h2]

theorem isSpace_runeError : IsSpace RuneError = false := by decide

/-- The loop of `lastIndexFunc(s, unicode.IsSpace, false)`: when it returns an
index, the string splits into a part whose last rune is no space and starts
at that index, and a rest that does not begin with a continuation byte. -/
theorem lastIndexFuncLoop_spec (x : GoString) (fuel : Nat) :
    ∀ (a b : GoString) (j : Nat), x = a ++ b →
      (b = [] ∨ ∃ c b1, b = c :: b1 ∧ ¬ (0x80 ≤ c ∧ c ≤ 0xBF)) →
      lastIndexFuncLoop x IsSpace false fuel a.length = some j →
      ∃ a1 b1, x = a1 ++ b1 ∧ a1 ≠ [] ∧ IsSpace (DecodeLastRuneInString a1).1 = false
        ∧ j = a1.length - (DecodeLastRuneInString a1).2
        ∧ (b1 = [] ∨ ∃ c b2, b1 = c :: b2 ∧ ¬ (0x80 ≤ c ∧ c ≤ 0xBF)) := by
  induction fuel with
  | zero => intro a b j _ _ h; simp [lastIndexFuncLoop] at h
  | succ fuel ih =>
    intro a b j hx hb h
    simp only [lastIndexFuncLoop] at h
    by_cases ha : a.length > 0
    · have hane : a ≠ [] := by
        rintro rfl
        simp at ha
      have htake : x.take a.length = a := by rw [hx]; simp
      simp only [ha, if_true, htake] at h
      by_cases hsp : IsSpace (DecodeLastRuneInString a).1 = false
      · simp only [hsp, beq_self_eq_true, if_true, Option.some.injEq] at h
        exact ⟨a, b, hx, hane, hsp, h.symm, hb⟩
      · have hsp' : IsSpace (DecodeLastRuneInString a).1 = true := by simpa using hsp
        simp only [hsp', Bool.true_eq_false, beq_iff_eq, if_false] at h
        obtain ⟨pre, chunk, hac, hlen, hcases⟩ := decodeLast_chunk a hane
        have hpl : a.length - (DecodeLastRuneInString a).2 = pre.length := by
          rw [← hlen, hac]; simp
        rw [hpl] at h
        refine ih pre (chunk ++ b) j (by rw [hx, hac, List.append_assoc]) ?_ h
        right
        rcases hcases with ⟨r0, hc, hr, _⟩ | ⟨r0, hc, hr, he⟩ | ⟨_, _, c0, t, hc, hr⟩
        · exact ⟨r0, b, by simp [hc], by omega⟩
        · rw [he] at hsp'
          simp [isSpace_runeError] at hsp'
        · exact ⟨c0, t ++ b, by simp [hc], by omega⟩
    · simp [ha] at h

/-! ## `strings.TrimSpace` -/

theorem getD_append_length (pre : GoString) (c : Nat) (rest : GoString) :
    (pre ++ c :: rest).getD pre.length 0 = c := by
  induction pre with
  | nil => rfl
  | cons a pre ih => simpa using ih

theorem take_append_length (pre l : GoString) (n : Nat) :
    (pre ++ l).take (pre.length + n) = pre ++ l.take n := by
  induction pre with
  | nil => simp
  | cons a pre ih =>
    have : (a :: pre).length + n = (pre.length + n) + 1 := by simp; omega
    rw [this]
    simp [ih]

/-- The slice `TrimRightFunc` cuts once `lastIndexFunc` has found the start of
the last rune that is kept: it ends with that rune. -/
theorem trimRight_slice (a1 b1 : GoString) (ha : a1 ≠ [])
    (hb : b1 = [] ∨ ∃ c b2, b1 = c :: b2 ∧ ¬ (0x80 ≤ c ∧ c ≤ 0xBF)) :
    (if (a1 ++ b1).getD (a1.length - (DecodeLastRuneInString a1).2) 0 ≥ RuneSelf then
        (a1 ++ b1).take (a1.length - (DecodeLastRuneInString a1).2
          + (DecodeRuneInString
              ((a1 ++ b1).drop (a1.length - (DecodeLastRuneInString a1).2))).2)
      else (a1 ++ b1).take (a1.length - (DecodeLastRuneInString a1).2 + 1)) = a1 := by
  obtain ⟨pre, chunk, hac, hlen, hcases⟩ := decodeLast_chunk a1 ha
  have hpl : a1.length - (DecodeLastRuneInString a1).2 = pre.length := by
    rw [← hlen, hac]; simp
  rw [hpl]
  have hx : a1 ++ b1 = pre ++ (chunk ++ b1) := by rw [hac, List.append_assoc]
  rw [hx, List.drop_left]
  rcases hcases with ⟨r0, hc, hr, _⟩ | ⟨r0, hc, hr, he⟩ | ⟨h2, hd, c0, t, hc, hr⟩
  · subst hc
    have hg : (pre ++ ([r0] ++ b1)).getD pre.length 0 = r0 := getD_append_length pre r0 b1
    have : ¬ (r0 ≥ RuneSelf) := by simp [RuneSelf]; omega
    rw [hg, if_neg this, hac, take_append_length]
    simp
  · subst hc
    have hg : (pre ++ ([r0] ++ b1)).getD pre.length 0 = r0 := getD_append_length pre r0 b1
    have : r0 ≥ RuneSelf := by simp [RuneSelf]; omega
    rw [hg, if_pos this, hac]
    have hw : (DecodeRuneInString ([r0] ++ b1)).2 = 1 := by
      rcases hb with rfl | ⟨c, b2, rfl, hcn⟩
      · simp [decodeRune_singleton r0 hr]
      · exact decodeRune_size_one r0 c b2 hr hcn
    rw [hw, take_append_length]
    simp
  · have hg : (pre ++ (chunk ++ b1)).getD pre.length 0 = c0 := by
      rw [hc]; exact getD_append_length pre c0 (t ++ b1)
    have : c0 ≥ RuneSelf := by simp [RuneSelf]; omega
    rw [hg, if_pos this]
    have h2' : 2 ≤ (DecodeRuneInString chunk).2 := by rw [hd, ← hlen]; exact h2
    rw [decodeRune_append chunk b1 h2', hd, ← hlen, hac, take_append_length]
    simp

/-- What `TrimRightFunc(s, unicode.IsSpace)` returns does not end with a space. -/
theorem trimRightFunc_end (x : GoString) (h : TrimRightFunc x IsSpace ≠ []) :
    IsSpace (DecodeLastRuneInString (TrimRightFunc x IsSpace)).1 = false := by
  unfold TrimRightFunc at h ⊢
  cases hl : lastIndexFunc x IsSpace false with
  | none => simp [hl] at h
  | some j =>
    obtain ⟨a1, b1, hx, ha, hsp, hj, hb⟩ :=
      lastIndexFuncLoop_spec x x.length x [] j (by simp) (Or.inl rfl) hl
    simp only [hl]
    subst hj
    rw [hx, trimRight_slice a1 b1 ha hb]
    exact hsp

/-- `TrimRightFunc(s, unicode.IsSpace)` returns `s` itself when `s` does not end
with a space. -/
theorem trimRightFunc_fix (x : GoString) (hx : x ≠ [])
    (h : IsSpace (DecodeLastRuneInString x).1 = false) : TrimRightFunc x IsSpace = x := by
  have hl : lastIndexFunc x IsSpace false = some (x.length - (DecodeLastRuneInString x).2) := by
    unfold lastIndexFunc
    obtain ⟨n, hn⟩ : ∃ n, x.length = n + 1 :=
      ⟨x.length - 1, by have := List.length_pos.mpr hx; omega⟩
    rw [hn]
    simp only [lastIndexFuncLoop]
    rw [← hn]
    simp [List.length_pos.mpr hx, h]
  unfold TrimRightFunc
  simp only [hl]
  have := trimRight_slice x [] hx (Or.inl rfl)
  simpa using this

theorem trimSpaceStop_end (rev : List Nat) (h : trimSpaceStop rev ≠ []) :
    IsSpace (DecodeLastRuneInString (trimSpaceStop rev)).1 = false := by
  induction rev with
  | nil => simp [trimSpaceStop] at h
  | cons c rev ih =>
    simp only [trimSpaceStop] at h ⊢
    split_ifs at h ⊢ with h1 h2
    · exact trimRightFunc_end _ h
    · exact ih h
    · have hc : c < 0x80 := by simp [RuneSelf] at h1; omega
      rw [List.reverse_cons, decodeLast_ascii _ c hc, isSpace_ascii c hc]
      simpa using h2

/-- What `TrimSpace` returns does not end with a space. -/
theorem trimSpace_end (s : GoString) (h : TrimSpace s ≠ []) :
    IsSpace (DecodeLastRuneInString (TrimSpace s)).1 = false := by
  induction s with
  | nil => simp [TrimSpace] at h
  | cons c s ih =>
    simp only [TrimSpace] at h ⊢
    split_ifs at h ⊢ with h1 h2
    · exact trimRightFunc_end _ h
    · exact ih h
    · exact trimSpaceStop_end _ h

/-- Bytes put in front of a string do not change its last rune, when they are
ASCII. -/
theorem decodeLast_ascii_append (p t : GoString) (hp : ∀ c ∈ p, c < 0x80) (ht : t ≠ [])
    (h : IsSpace (DecodeLastRuneInString t).1 = false) :
    IsSpace (DecodeLastRuneInString (p ++ t)).1 = false := by
  have hne : p ++ t ≠ [] := by simp [ht]
  obtain ⟨pre, chunk, hac, hlen, hcases⟩ := decodeLast_chunk (p ++ t) hne
  rcases hcases with ⟨r0, hc, hr, he⟩ | ⟨r0, hc, hr, he⟩ | ⟨h2, hd, c0, tt, hc, hr⟩
  · subst hc
    obtain ⟨l, r1, rfl⟩ : ∃ l r1, t = l ++ [r1] :=
      ⟨t.dropLast, t.getLast ht, (List.dropLast_append_getLast ht).symm⟩
    have : r1 = r0 := by
      have := congrArg List.getLast? hac
      simpa [← List.append_assoc] using this
    subst this
    rw [he]
    rw [decodeLast_ascii l r1 hr] at h
    exact h
  · rw [he]; exact isSpace_runeError
  · rcases List.append_eq_append_iff.mp hac with ⟨m, hm1, hm2⟩ | ⟨m, hm1, hm2⟩
    · -- pre = p ++ m, t = m ++ chunk
      have h2' : 2 ≤ (DecodeRuneInString chunk).2 := by rw [hd, ← hlen]; exact h2
      have := decodeLast_complete m chunk h2' (by rw [hd, ← hlen])
      rw [← hm2] at this
      rw [← hd, ← this]
      exact h
    · -- p = pre ++ m, chunk = m ++ t
      rcases m with _ | ⟨a, m⟩
      · simp at hm2
        have h2' : 2 ≤ (DecodeRuneInString chunk).2 := by rw [hd, ← hlen]; exact h2
        have := decodeLast_complete [] chunk h2' (by rw [hd, ← hlen])
        simp only [List.nil_append] at this
        rw [← hd, ← this, hm2]
        exact h
      · exfalso
        have ha : a < 0x80 := hp a (by rw [hm1]; simp)
        rw [hc] at hm2
        simp at hm2
        omega

/-- `TrimSpace` does nothing to `"https://" + t` when `t` is what `TrimSpace`
returned and is not empty. -/
theorem trimSpace_https (s : GoString) (h : TrimSpace s ≠ []) :
    TrimSpace (str "https://" ++ TrimSpace s) = str "https://" ++ TrimSpace s := by
  have hend := trimSpace_end s h
  generalize TrimSpace s = t at h hend
  obtain ⟨l, r0, rfl⟩ : ∃ l r0, t = l ++ [r0] :=
    ⟨t.dropLast, t.getLast h, (List.dropLast_append_getLast h).symm⟩
  have hS : (str "https://" ++ (l ++ [r0])).reverse
      = r0 :: (l.reverse ++ (str "https://").reverse) := by simp
  have h0 : str "https://" ++ (l ++ [r0])
      = 104 :: (str "ttps://" ++ (l ++ [r0])) := rfl
  rw [h0]
  simp only [TrimSpace]
  rw [← h0]
  have e1 : ¬ (104 ≥ RuneSelf) := by decide
  have e2 : asciiSpace 104 = false := by decide
  simp only [e1, e2, if_false, Bool.false_eq_true]
  rw [hS]
  simp only [trimSpaceStop]
  rw [← hS, List.reverse_reverse]
  split_ifs with h1 h2
  · apply trimRightFunc_fix _ (by simp)
    apply decodeLast_ascii_append _ _ _ (by simp) hend
    intro c hc
    have : c = 104 ∨ c = 116 ∨ c = 112 ∨ c = 115 ∨ c = 58 ∨ c = 47 := by
      simpa [str, utf8Bytes] using hc
    omega
  · exfalso
    have hc : r0 < 0x80 := by simp [RuneSelf] at h1; omega
    rw [decodeLast_ascii l r0 hc, isSpace_ascii r0 hc] at hend
    simp [hend] at h2
  · rfl

/-! ## `url.Parse` and `(*URL).String` -/

theorem setPath_fields (u v : URL) (p : GoString) (h : u.setPath p = .ok v) :
    v.Scheme = u.Scheme ∧ v.Opaque = u.Opaque ∧ v.Host = u.Host ∧ v.User = u.User
    ∧ v.OmitHost = u.OmitHost ∧ v.ForceQuery = u.ForceQuery ∧ v.RawQuery = u.RawQuery
    ∧ v.Fragment = u.Fragment ∧ v.RawFragment = u.RawFragment := by
  unfold URL.setPath at h
  simp only [bind, Except.bind, pure, Except.pure] at h
  cases hu : unescape p Encoding.encodePath with
  | error e => simp [hu] at h
  | ok path =>
    simp only [hu] at h
    split_ifs at h <;> cases h <;> simp

theorem setFragment_fields (u v : URL) (f : GoString) (h : u.setFragment f = .ok v) :
    v.Scheme = u.Scheme ∧ v.Opaque = u.Opaque ∧ v.Host = u.Host ∧ v.User = u.User
    ∧ v.OmitHost = u.OmitHost ∧ v.ForceQuery = u.ForceQuery ∧ v.RawQuery = u.RawQuery
    ∧ v.Path = u.Path ∧ v.RawPath = u.RawPath := by
  unfold URL.setFragment at h
  simp only [bind, Except.bind, pure, Except.pure] at h
  cases hu : unescape f Encoding.encodeFragment with
  | error e => simp [hu] at h
  | ok path =>
    simp only [hu] at h
    split_ifs at h <;> cases h <;> simp

/-- A URL that `parseAfterQuery` returns keeps the scheme, and has no opaque
part when it has a host. -/
theorem parseAfterQuery_fields (via : Bool) (url u : URL) (rest : GoString)
    (ho : url.Opaque = []) (hh : url.Host = [])
    (h : parseAfterQuery via url rest = .ok u) :
    u.Scheme = url.Scheme ∧ (u.Host ≠ [] → u.Opaque = []) := by
  unfold parseAfterQuery at h
  simp only [bind, Except.bind, pure, Except.pure] at h
  split_ifs at h
  · cases h
    simp [hh]
  · split at h
    · cases h
    · obtain ⟨h1, h2, -⟩ := setPath_fields _ _ _ h
      simp [h1, h2, ho]
  · obtain ⟨h1, h2, -⟩ := setPath_fields _ _ _ h
    simp [h1, h2, ho]
  · obtain ⟨h1, h2, -⟩ := setPath_fields _ _ _ h
    simp [h1, h2, ho]

/-- A URL that `parse` returns with a host has no opaque part, and its scheme
is the lower-cased scheme that `getScheme` split off. -/
theorem parse_fields (lm : GoString → GoString) (raw : GoString) (u : URL)
    (h : parse lm raw false = .ok u) :
    (u.Host ≠ [] → u.Opaque = [])
    ∧ ∀ sch rest, getScheme raw = .ok (sch, rest) → raw ≠ str "*" →
        u.Scheme = ToLower lm sch := by
  unfold parse at h
  split_ifs at h with h1 h2 h3
  · cases h
    exact ⟨fun _ => rfl, fun _ _ _ hne => absurd h3 hne⟩
  · cases hg : getScheme raw with
    | error e => simp [hg] at h
    | ok p =>
      obtain ⟨sch, rest⟩ := p
      simp only [hg] at h
      split_ifs at h
      · obtain ⟨e1, e2⟩ := parseAfterQuery_fields _ _ _ _ rfl rfl h
        refine ⟨e2, ?_⟩
        intro sch' rest' he _
        cases he
        exact e1
      · obtain ⟨e1, e2⟩ := parseAfterQuery_fields _ _ _ _ rfl rfl h
        refine ⟨e2, ?_⟩
        intro sch' rest' he _
        cases he
        exact e1

theorem Parse_fields (lm : GoString → GoString) (raw : GoString) (u : URL)
    (h : Parse lm raw = .ok u) :
    ∃ v, parse lm (Cut raw (str "#")).1 false = .ok v ∧ u.Scheme = v.Scheme
      ∧ u.Opaque = v.Opaque ∧ u.Host = v.Host := by
  unfold Parse at h
  simp only at h
  cases hp : parse lm (Cut raw (str "#")).1 false with
  | error e => simp [hp] at h
  | ok v =>
    simp only [hp] at h
    split_ifs at h
    · cases h
      exact ⟨u, rfl, rfl, rfl, rfl⟩
    · obtain ⟨h1, h2, h3, -⟩ := setFragment_fields _ _ _ h
      exact ⟨v, rfl, h1, h2, h3⟩

theorem hasPrefix_iff (s p : GoString) : HasPrefix s p = true ↔ ∃ t, s = p ++ t := by
  unfold HasPrefix
  rw [List.isPrefixOf_iff_prefix]
  constructor
  · rintro ⟨t, h⟩; exact ⟨t, h.symm⟩
  · rintro ⟨t, h⟩; exact ⟨t, h.symm⟩

theorem index_hash_cons (c : Nat) (s : GoString) (h : c ≠ 35) :
    Index (c :: s) (str "#") = (Index s (str "#")).map (· + 1) := by
  have : HasPrefix (c :: s) (str "#") = false := by
    simp [HasPrefix, str, utf8Bytes, List.isPrefixOf]
    intro h'; exact absurd h'.symm h
  simp [Index, this]

theorem cut_hash_append (p s : GoString) (hp : ∀ c ∈ p, c ≠ 35) :
    ∃ t, (Cut (p ++ s) (str "#")).1 = p ++ t := by
  induction p with
  | nil => exact ⟨_, rfl⟩
  | cons c p ih =>
    obtain ⟨t, ht⟩ := ih (fun x hx => hp x (List.mem_cons_of_mem _ hx))
    have hc : c ≠ 35 := hp c (List.mem_cons_self _ _)
    unfold Cut at ht ⊢
    rw [List.cons_append, index_hash_cons c _ hc]
    cases hi : Index (p ++ s) (str "#") with
    | none =>
      simp only [hi] at ht
      exact ⟨s, by simp⟩
    | some i =>
      simp only [hi] at ht
      refine ⟨t, ?_⟩
      simp [ht]

theorem getScheme_http (x : GoString) :
    getScheme (str "http://" ++ x) = .ok (str "http", str "//" ++ x) := by
  simp [getScheme, getSchemeLoop, str, utf8Bytes, byte]

theorem getScheme_https (x : GoString) :
    getScheme (str "https://" ++ x) = .ok (str "https", str "//" ++ x) := by
  simp [getScheme, getSchemeLoop, str, utf8Bytes, byte]

/-- The text of a URL with a scheme and a host, without an opaque part, starts
with the scheme followed by `://`. -/
theorem string_scheme (u : URL) (hs : u.Scheme ≠ []) (ho : u.Opaque = []) (hh : u.Host ≠ []) :
    ∃ rest, u.String = u.Scheme ++ str "://" ++ rest := by
  unfold URL.String
  simp only [hs, ho, hh, ne_eq, not_true_eq_false, not_false_eq_true, if_true, if_false,
    true_or, or_true, and_false, false_and]
  have key : ∀ a b c d e f g : GoString,
      ((u.Scheme ++ str ":" ++ (((((str "//" ++ a) ++ b) ++ c) ++ d) ++ e)) ++ f) ++ g
        = u.Scheme ++ str "://" ++ (a ++ b ++ c ++ d ++ e ++ f ++ g) := by
    intro a b c d e f g
    simp [str, utf8Bytes, List.append_assoc]
  exact ⟨_, key _ _ _ _ _ _ _⟩

/-! ## The private-host check -/

theorem isPrivateHost_of_pattern (h : GoString) (p : Regexp) (hp : p ∈ privatePatterns)
    (hm : p.MatchString h = true) : isPrivateHost h = true := by
  unfold isPrivateHost
  have : (privatePatterns.any fun pattern => pattern.MatchString h) = true :=
    List.any_eq_true.mpr ⟨p, hp, hm⟩
  simp [this]

theorem decimal_two (N : Nat) (h1 : 16 ≤ N) (h2 : N ≤ 31) :
    decimal N = [48 + N / 10, 48 + N % 10] := by
  interval_cases N <;> decide

theorem isPrivateHost_10 (t : GoString) : isPrivateHost (str "10." ++ t) = true := by
  refine isPrivateHost_of_pattern _ ⟨.cat .bol (Regex.text "10."), 0⟩ (by simp [privatePatterns]) ?_
  apply matchString_of_run
  simp [Regex.run, Regex.text, Regex.seq, Regex.lit, stepRune, str, utf8Bytes, decodeRune_ascii,
    RuneSet.has]

theorem isPrivateHost_192 (t : GoString) : isPrivateHost (str "192.168." ++ t) = true := by
  refine isPrivateHost_of_pattern _ ⟨.cat .bol (Regex.text "192.168."), 0⟩
    (by simp [privatePatterns]) ?_
  apply matchString_of_run
  simp [Regex.run, Regex.text, Regex.seq, Regex.lit, stepRune, str, utf8Bytes, decodeRune_ascii,
    RuneSet.has]

theorem isPrivateHost_169 (t : GoString) : isPrivateHost (str "169.254." ++ t) = true := by
  refine isPrivateHost_of_pattern _ ⟨.cat .bol (Regex.text "169.254."), 0⟩
    (by simp [privatePatterns]) ?_
  apply matchString_of_run
  simp [Regex.run, Regex.text, Regex.seq, Regex.lit, stepRune, str, utf8Bytes, decodeRune_ascii,
    RuneSet.has]

theorem isPrivateHost_172_digits (a b : Nat) (t : GoString)
    (h : (a = 49 ∧ 54 ≤ b ∧ b ≤ 57) ∨ (a = 50 ∧ 48 ≤ b ∧ b ≤ 57) ∨ (a = 51 ∧ 48 ≤ b ∧ b ≤ 49)) :
    isPrivateHost (str "172." ++ [a, b] ++ str "." ++ t) = true := by
  refine isPrivateHost_of_pattern _ (privatePatterns.getD 1 ⟨.empty, 0⟩)
    (by simp [privatePatterns]) ?_
  apply matchString_of_run
  have hb : b < 128 := by omega
  rcases h with ⟨rfl, h1, h2⟩ | ⟨rfl, h1, h2⟩ | ⟨rfl, h1, h2⟩ <;>
  simp [privatePatterns, Regex.run, Regex.text, Regex.seq, Regex.lit, stepRune, str, utf8Bytes,
    decodeRune_ascii, RuneSet.has, byte, hb, h1, h2]

theorem isPrivateHost_172 (N : Nat) (t : GoString) (h1 : 16 ≤ N) (h2 : N ≤ 31) :
    isPrivateHost (str "172." ++ decimal N ++ str "." ++ t) = true := by
  rw [decimal_two N h1 h2]
  apply isPrivateHost_172_digits
  omega

theorem isPrivateHost_of_blocked (h : GoString) (hb : BlockedHostname h) :
    isPrivateHost h = true := by
  rcases hb with rfl | rfl | rfl | rfl | ⟨t, rfl⟩ | ⟨t, rfl⟩ | ⟨t, rfl⟩ | ⟨N, t, h1, h2, rfl⟩
  · decide
  · decide
  · decide
  · decide
  · exact isPrivateHost_10 t
  · exact isPrivateHost_192 t
  · exact isPrivateHost_169 t
  · exact isPrivateHost_172 N t h1 h2

theorem not_blocked_nil : ¬ BlockedHostname [] := by
  intro h
  rcases h with h | h | h | h | ⟨t, h⟩ | ⟨t, h⟩ | ⟨t, h⟩ | ⟨N, t, _, _, h⟩ <;>
    simp [str, utf8Bytes] at h

/-- Every input whose URL text, read as `validateAndNormalizeURL` reads it,
parses to a URL with a private or loopback host name (one of `localhost`,
`127.0.0.1`, `0.0.0.0`, `::1`, or a name that begins with `10.`, `192.168.`,
`169.254.` or `172.N.`, `16 ≤ N ≤ 31`, compared after lower-casing and with
port and user information stripped) is rejected by `validateAndNormalizeURL`,
whatever its path and query are. -/
theorem private_host_rejected (lowerMap : GoString → GoString) (raw : GoString) (u : URL)
    (hparse : Parse lowerMap (urlTextOf raw) = .ok u)
    (hhost : BlockedHostname (ToLower lowerMap u.Hostname)) :
    validateAndNormalizeURL lowerMap raw = .error .privateHost := by
  have hne : u.Host ≠ [] := by
    intro h0
    have : u.Hostname = [] := by simp [URL.Hostname, h0]; rfl
    rw [this, toLower_nil] at hhost
    exact not_blocked_nil hhost
  unfold validateAndNormalizeURL
  unfold urlTextOf at hparse
  by_cases ht : TrimSpace raw = []
  · exfalso
    rw [ht] at hparse
    have : Parse lowerMap (str "https://") = .ok { Scheme := str "https" } := rfl
    simp [HasPrefix, str, utf8Bytes] at hparse this
    rw [this] at hparse
    cases hparse
    exact hne rfl
  · simp only [ht, if_false]
    by_cases hp : HasPrefix (TrimSpace raw) (str "http://") = true ∨
        HasPrefix (TrimSpace raw) (str "https://") = true
    · rw [if_pos hp] at hparse
      have hc : ¬ ((!HasPrefix (TrimSpace raw) (str "http://")) = true ∧
          (!HasPrefix (TrimSpace raw) (str "https://")) = true) := by
        rcases hp with hp | hp <;> simp [hp]
      simp only [if_neg hc, hparse, hne, if_false, isPrivateHost_of_blocked _ hhost, if_true]
    · rw [if_neg hp] at hparse
      have hc : ((!HasPrefix (TrimSpace raw) (str "http://")) = true ∧
          (!HasPrefix (TrimSpace raw) (str "https://")) = true) := by
        simp only [not_or] at hp
        simpa using hp
      simp only [if_pos hc, hparse, hne, if_false, isPrivateHost_of_blocked _ hhost, if_true]

/-- The rejection at the inputs `http://localhost/test`, `http://10.0.0.1/test`,
`127.0.0.1` and `192.168.1.1`. -/
theorem private_host_rejected_witness :
    (Parse id (urlTextOf (str "http://localhost/test"))
        = .ok { Scheme := str "http", Host := str "localhost", Path := str "/test" }
      ∧ BlockedHostname (ToLower id
          (URL.Hostname { Scheme := str "http", Host := str "localhost", Path := str "/test" }))
      ∧ validateAndNormalizeURL id (str "http://localhost/test") = .error .privateHost)
    ∧ validateAndNormalizeURL id (str "http://10.0.0.1/test") = .error .privateHost
    ∧ validateAndNormalizeURL id (str "127.0.0.1") = .error .privateHost
    ∧ validateAndNormalizeURL id (str "192.168.1.1") = .error .privateHost
    ∧ validateAndNormalizeURL id (str "https://user@172.20.0.9:8080/a?b=c") = .error .privateHost
    ∧ validateAndNormalizeURL id (str "  http://[::1]:80/ ") = .error .privateHost :=
  ⟨⟨by decide, Or.inl (by decide),
      private_host_rejected id _
        { Scheme := str "http", Host := str "localhost", Path := str "/test" } (by decide)
        (Or.inl (by decide))⟩,
    private_host_rejected id _
      { Scheme := str "http", Host := str "10.0.0.1", Path := str "/test" } (by decide)
      (Or.inr (Or.inr (Or.inr (Or.inr (Or.inl ⟨str "0.0.1", by decide⟩))))),
    private_host_rejected id _ { Scheme := str "https", Host := str "127.0.0.1" } (by decide)
      (Or.inr (Or.inl (by decide))),
    private_host_rejected id _ { Scheme := str "https", Host := str "192.168.1.1" } (by decide)
      (Or.inr (Or.inr (Or.inr (Or.inr (Or.inr (Or.inl ⟨str "1.1", by decide⟩)))))),
    private_host_rejected id _
      { Scheme := str "https", User := some ⟨str "user", [], false⟩, Host := str "172.20.0.9:8080",
        Path := str "/a", RawQuery := str "b=c" } (by decide)
      (Or.inr (Or.inr (Or.inr (Or.inr (Or.inr (Or.inr (Or.inr
        ⟨20, str "0.9", by decide, by decide, by decide⟩))))))),
    private_host_rejected id _ { Scheme := str "http", Host := str "[::1]:80", Path := str "/" }
      (by decide) (Or.inr (Or.inr (Or.inr (Or.inl (by decide)))))⟩


/-- C1, the code on `HTTP://localhost/test`: as a URL its scheme is `http` and
its hostname `localhost`, which `isPrivateHost` rejects; but the test for the
prefixes `http://` and `https://` is case-sensitive, so
`validateAndNormalizeURL` prepends `https://`, reads the host `HTTP:` and
returns `https://HTTP://localhost/test` without an error. -/
theorem uppercase_scheme_private_host_accepted :
    Parse id (str "HTTP://localhost/test")
      = .ok { Scheme := str "http", Host := str "localhost", Path := str "/test" }
    ∧ isPrivateHost (ToLower id
        (URL.Hostname { Scheme := str "http", Host := str "localhost", Path := str "/test" }))
      = true
    ∧ HasPrefix (TrimSpace (str "HTTP://localhost/test")) (str "http://") = false
    ∧ Parse id (str "https://HTTP://localhost/test")
      = .ok { Scheme := str "https", Host := str "HTTP:", Path := str "//localhost/test" }
    ∧ validateAndNormalizeURL id (str "HTTP://localhost/test")
      = .ok (str "https://HTTP://localhost/test")
    ∧ validateAndNormalizeURL id (str "Https://10.0.0.1/admin")
      = .ok (str "https://Https://10.0.0.1/admin") := by
  refine ⟨?_, ?_, ?_, ?_, ?_, ?_⟩ <;> decide

/-- C2, the code at the failing input: `http://127.0.0.2/` names a loopback
address (127.0.0.0/8) and `validateAndNormalizeURL` accepts it and returns it
unchanged. -/
theorem loopback_address_accepted (lowerMap : GoString → GoString) :
    isPrivateHost (str "127.0.0.2") = false
      ∧ validateAndNormalizeURL lowerMap (str "http://127.0.0.2/")
        = .ok (str "http://127.0.0.2/") :=
  ⟨by decide, rfl⟩

/-- What `validateAndNormalizeURL` does after trimming, on a non-empty input
with one of the two scheme prefixes. -/
theorem validate_of_prefixed (lm : GoString → GoString) (s : GoString) (h0 : TrimSpace s ≠ [])
    (hp : HasPrefix (TrimSpace s) (str "http://") = true
      ∨ HasPrefix (TrimSpace s) (str "https://") = true) :
    validateAndNormalizeURL lm s =
      match Parse lm (TrimSpace s) with
      | .error e => .error (.parseFailed e)
      | .ok parsedURL =>
        if parsedURL.Host = [] then .error .noHost
        else if isPrivateHost (ToLower lm parsedURL.Hostname) then .error .privateHost
        else .ok parsedURL.String := by
  unfold validateAndNormalizeURL
  have hc : ¬ ((!HasPrefix (TrimSpace s) (str "http://")) = true ∧
      (!HasPrefix (TrimSpace s) (str "https://")) = true) := by
    rcases hp with hp | hp <;> simp [hp]
  simp only [h0, if_false, hc]

/-- The scheme of an accepted URL text that starts with `scheme://`. -/
theorem accepted_scheme (lm : GoString → GoString) (s out sch : GoString)
    (hsch : sch = str "http" ∨ sch = str "https")
    (hp : HasPrefix (TrimSpace s) (sch ++ str "://") = true)
    (h : validateAndNormalizeURL lm s = .ok out) :
    HasPrefix out (sch ++ str "://") = true := by
  have h0 : TrimSpace s ≠ [] := by
    intro h0
    rw [h0] at hp
    rcases hsch with rfl | rfl <;> simp [HasPrefix, str, utf8Bytes] at hp
  have hp' : HasPrefix (TrimSpace s) (str "http://") = true
      ∨ HasPrefix (TrimSpace s) (str "https://") = true := by
    rcases hsch with rfl | rfl
    · exact Or.inl hp
    · exact Or.inr hp
  rw [validate_of_prefixed lm s h0 hp'] at h
  cases hP : Parse lm (TrimSpace s) with
  | error e => simp [hP] at h
  | ok u =>
    simp only [hP] at h
    split_ifs at h with hh hpriv
    cases h
    obtain ⟨v, hv, e1, e2, e3⟩ := Parse_fields lm _ u hP
    obtain ⟨x, hx⟩ := (hasPrefix_iff _ _).mp hp
    have hcut : ∃ t, (Cut (TrimSpace s) (str "#")).1 = sch ++ str "://" ++ t := by
      rw [hx]
      apply cut_hash_append
      intro c hc
      rcases hsch with rfl | rfl
      · have : c = 104 ∨ c = 116 ∨ c = 112 ∨ c = 58 ∨ c = 47 := by
          simpa [str, utf8Bytes] using hc
        omega
      · have : c = 104 ∨ c = 116 ∨ c = 112 ∨ c = 115 ∨ c = 58 ∨ c = 47 := by
          simpa [str, utf8Bytes] using hc
        omega
    obtain ⟨t, ht⟩ := hcut
    rw [ht] at hv
    obtain ⟨f1, f2⟩ := parse_fields lm _ v hv
    have hsv : v.Scheme = sch := by
      rcases hsch with rfl | rfl
      · exact f2 _ _ (getScheme_http t) (by simp [str, utf8Bytes])
      · exact f2 _ _ (getScheme_https t) (by simp [str, utf8Bytes])
    have hs : u.Scheme ≠ [] := by
      rw [e1, hsv]
      rcases hsch with rfl | rfl <;> decide
    obtain ⟨rest, hr⟩ := string_scheme u hs (by rw [e2]; exact f1 (by rw [← e3]; exact hh)) hh
    rw [hr, e1, hsv]
    exact (hasPrefix_iff _ _).mpr ⟨rest, by simp⟩

/-- C3. An input whose trimmed form is not empty and starts with neither
`http://` nor `https://` is validated as `"https://"` followed by the trimmed
form; an accepted input that starts with `http://` or `https://` keeps its
scheme in the returned URL. -/
theorem https_is_prepended (lowerMap : GoString → GoString) (s : GoString) :
    (TrimSpace s ≠ [] → HasPrefix (TrimSpace s) (str "http://") = false →
      HasPrefix (TrimSpace s) (str "https://") = false →
      validateAndNormalizeURL lowerMap s
        = validateAndNormalizeURL lowerMap (str "https://" ++ TrimSpace s))
    ∧ (∀ out, validateAndNormalizeURL lowerMap s = .ok out →
        (HasPrefix (TrimSpace s) (str "http://") = true → HasPrefix out (str "http://") = true)
        ∧ (HasPrefix (TrimSpace s) (str "https://") = true →
            HasPrefix out (str "https://") = true)) := by
  constructor
  · intro h0 h1 h2
    have hR := validate_of_prefixed lowerMap (str "https://" ++ TrimSpace s)
      (by rw [trimSpace_https s h0]; simp [str, utf8Bytes])
      (Or.inr (by rw [trimSpace_https s h0]; exact (hasPrefix_iff _ _).mpr ⟨_, rfl⟩))
    rw [hR, trimSpace_https s h0]
    unfold validateAndNormalizeURL
    simp only [h0, if_false, h1, h2, Bool.not_false, and_self, if_true]
  · intro out h
    exact ⟨fun hp => accepted_scheme lowerMap s out (str "http") (Or.inl rfl) hp h,
      fun hp => accepted_scheme lowerMap s out (str "https") (Or.inr rfl) hp h⟩

/-- C3, at the inputs `example.com`, `example.com/path?query=1` and
`http://example.com`. -/
theorem https_is_prepended_witness :
    (TrimSpace (str "example.com") ≠ []
      ∧ HasPrefix (TrimSpace (str "example.com")) (str "http://") = false
      ∧ HasPrefix (TrimSpace (str "example.com")) (str "https://") = false
      ∧ validateAndNormalizeURL id (str "example.com")
        = validateAndNormalizeURL id (str "https://" ++ TrimSpace (str "example.com")))
    ∧ validateAndNormalizeURL id (str "example.com") = .ok (str "https://example.com")
    ∧ validateAndNormalizeURL id (str "example.com/path?query=1")
      = .ok (str "https://example.com/path?query=1")
    ∧ validateAndNormalizeURL id (str "http://example.com") = .ok (str "http://example.com")
    ∧ HasPrefix (TrimSpace (str "http://example.com")) (str "http://") = true
    ∧ HasPrefix (str "http://example.com") (str "http://") = true :=
  ⟨⟨by decide, by decide, by decide,
      (https_is_prepended id (str "example.com")).1 (by decide) (by decide) (by decide)⟩,
    by decide, by decide, by decide, by decide,
    ((https_is_prepended id (str "http://example.com")).2 (str "http://example.com")
      (by decide)).1 (by decide)⟩

/-- C4, the code at the failing input: on a page whose `twitter:image` meta
comes before its `og:image` meta, the structural strategy returns the
`twitter:image` content as the preview image. -/
theorem twitter_image_before_og_image (lowerMap : GoString → GoString) :
    parseHTMLMetadata lowerMap
        (some (documentWithHead
          [element "meta" [("name", "twitter:image"), ("content", "https://example.com/tw.png")] [],
           element "meta" [("property", "og:image"), ("content", "https://example.com/og.png")] []]))
        (str "https://example.com/")
      = .ok { OgImage := str "https://example.com/tw.png",
              Favicon := str "https://example.com/favicon.ico" } :=
  rfl

/-- C5, the code at the failing input: on a page whose plain `description`
meta comes before its `twitter:description` and `og:description` metas, the
structural strategy returns the plain description. -/
theorem plain_description_before_og_description (lowerMap : GoString → GoString) :
    parseHTMLMetadata lowerMap
        (some (documentWithHead
          [element "meta" [("name", "description"), ("content", "plain")] [],
           element "meta" [("name", "twitter:description"), ("content", "twitter")] [],
           element "meta" [("property", "og:description"), ("content", "og")] []]))
        (str "https://example.com/")
      = .ok { Description := str "plain", Favicon := str "https://example.com/favicon.ico" } :=
  rfl

/-- C6, the code at the failing input: on a page whose `twitter:title` meta
comes before its `og:title` meta, the structural strategy returns the
`twitter:title` content as the title. -/
theorem twitter_title_before_og_title (lowerMap : GoString → GoString) :
    parseHTMLMetadata lowerMap
        (some (documentWithHead
          [element "title" [] [text "Test Page"],
           element "meta" [("name", "twitter:title"), ("content", "Twitter Title")] [],
           element "meta" [("property", "og:title"), ("content", "OG Title")] []]))
        (str "https://example.com/")
      = .ok { Title := str "Twitter Title", Favicon := str "https://example.com/favicon.ico" } :=
  rfl

/-! ## The traversal as a fold over the document order -/

mutual
theorem traverse_eq_foldl (lm : GoString → GoString) (b : Option URL) :
    ∀ (n : Node) (st : TraverseState),
      traverse lm b n st = n.preorder.foldl (fun s m => visit lm b m s) st
  | .mk t d a cs, st => by
    rw [traverse, Node.preorder, List.foldl_cons]
    exact traverseChildren_eq_foldl lm b cs _
theorem traverseChildren_eq_foldl (lm : GoString → GoString) (b : Option URL) :
    ∀ (cs : List Node) (st : TraverseState),
      traverseChildren lm b cs st = (preorderList cs).foldl (fun s m => visit lm b m s) st
  | [], st => by simp [traverseChildren, preorderList]
  | c :: cs, st => by
    rw [traverseChildren, preorderList, List.foldl_append, traverse_eq_foldl lm b c st]
    exact traverseChildren_eq_foldl lm b cs _
end

/-! ## The structural strategy -/

theorem resolveURL_some_ok (lm : GoString → GoString) (r : GoString) (b : URL) :
    ∃ v, resolveURL lm r (some b) = .ok v := by
  unfold resolveURL
  split
  · exact ⟨_, rfl⟩
  · split
    · exact ⟨_, rfl⟩
    · split
      · exact ⟨_, rfl⟩
      · cases Parse lm r <;> exact ⟨_, rfl⟩

theorem resolveURL_nil (lm : GoString → GoString) (pb : Option URL) :
    resolveURL lm [] pb = .ok [] := by
  simp [resolveURL]

/-- The fields of a value `parseHTMLMetadata` returns, in terms of the state
the traversal ends in. -/
theorem parseHTMLMetadata_fields (lm : GoString → GoString) (doc : Node) (base : GoString)
    (md : URLMetadata) (h : parseHTMLMetadata lm (some doc) base = .ok md) :
    md.Title = (if (traverse lm (Parse lm base).toOption doc ⟨{}, []⟩).metadata.Title = []
          ∧ (traverse lm (Parse lm base).toOption doc ⟨{}, []⟩).titleFromTag ≠ []
        then (traverse lm (Parse lm base).toOption doc ⟨{}, []⟩).titleFromTag
        else (traverse lm (Parse lm base).toOption doc ⟨{}, []⟩).metadata.Title)
    ∧ md.Description = (traverse lm (Parse lm base).toOption doc ⟨{}, []⟩).metadata.Description
    ∧ resolveURL lm (traverse lm (Parse lm base).toOption doc ⟨{}, []⟩).metadata.OgImage
        (Parse lm base).toOption = .ok md.OgImage
    ∧ ((traverse lm (Parse lm base).toOption doc ⟨{}, []⟩).metadata.Favicon = [] →
        ∀ b, (Parse lm base).toOption = some b → md.Favicon = defaultFavicon b.Scheme b.Host) := by
  unfold parseHTMLMetadata at h
  simp only [bind, Except.bind, pure, Except.pure] at h
  generalize traverse lm (Parse lm base).toOption doc ⟨{}, []⟩ = st at h ⊢
  generalize (Parse lm base).toOption = pb at h ⊢
  obtain ⟨⟨og, ti, de, fa⟩, tft⟩ := st
  cases hr1 : resolveURL lm og pb <;> cases hr2 : resolveURL lm fa pb <;>
    cases pb <;> by_cases hog : og = [] <;> by_cases hfa : fa = [] <;>
    by_cases hti : ti = [] ∧ tft ≠ [] <;>
    simp [hog, hfa, hti, resolveURL_nil, hr1, hr2] at h hr1 hr2 ⊢ <;>
    (try split at h) <;> (try simp only [Except.ok.injEq] at h) <;> (try subst h) <;> simp_all

/-- With a base URL that parses, `parseHTMLMetadata` returns a value for every
document. -/
theorem parseHTMLMetadata_returns (lm : GoString → GoString) (doc : Node) (base : GoString)
    (b : URL) (hb : Parse lm base = .ok b) :
    ∃ md, parseHTMLMetadata lm (some doc) base = .ok md := by
  unfold parseHTMLMetadata
  simp only [bind, Except.bind, pure, Except.pure, hb, Except.toOption]
  generalize traverse lm (some b) doc ⟨{}, []⟩ = st
  obtain ⟨⟨og, ti, de, fa⟩, tft⟩ := st
  obtain ⟨v1, hv1⟩ := resolveURL_some_ok lm og b
  obtain ⟨v2, hv2⟩ := resolveURL_some_ok lm fa b
  by_cases hog : og = [] <;> by_cases hfa : fa = [] <;>
    by_cases hti : ti = [] ∧ tft ≠ [] <;> by_cases hv : v2 = [] <;>
    simp [hog, hfa, hti, hv1, hv2, hv]

/-! ## Titles -/

theorem tag_names_distinct :
    str "og:title" ≠ str "og:image" ∧ str "og:description" ≠ str "og:image"
    ∧ str "og:description" ≠ str "og:title"
    ∧ str "twitter:title" ≠ str "twitter:image"
    ∧ str "twitter:description" ≠ str "twitter:image"
    ∧ str "twitter:description" ≠ str "twitter:title"
    ∧ str "description" ≠ str "twitter:image" ∧ str "description" ≠ str "twitter:title"
    ∧ str "description" ≠ str "twitter:description"
    ∧ str "title" ≠ str "meta" ∧ str "link" ≠ str "meta" ∧ str "link" ≠ str "title" := by
  decide

/-- The title after `handleMetaTag`: the content of an `og:title` or
`twitter:title` meta when no title was set, the old title otherwise. -/
theorem handleMetaTag_Title (lm : GoString → GoString) (n : Node) (m : URLMetadata) :
    (handleMetaTag lm n m).Title
      = if m.Title = [] then metaTitle lm n else m.Title := by
  obtain ⟨d1, d2, d3, d4, d5, d6, d7, d8, d9, -, -, -⟩ := tag_names_distinct
  unfold metaTitle handleMetaTag
  generalize metaAttrs lm n.Attr = a
  obtain ⟨property, name, content⟩ := a
  obtain ⟨og, ti, de, fa⟩ := m
  have hp : property = str "og:image" ∨ property = str "og:title"
      ∨ property = str "og:description" ∨ (property ≠ str "og:image"
        ∧ property ≠ str "og:title" ∧ property ≠ str "og:description") := by tauto
  have hn : name = str "twitter:image" ∨ name = str "twitter:title"
      ∨ name = str "twitter:description" ∨ name = str "description"
      ∨ (name ≠ str "twitter:image" ∧ name ≠ str "twitter:title"
        ∧ name ≠ str "twitter:description" ∧ name ≠ str "description") := by tauto
  by_cases h0 : ti = [] <;> by_cases hc : content = [] <;>
    rcases hp with rfl | rfl | rfl | ⟨p1, p2, p3⟩ <;>
    rcases hn with rfl | rfl | rfl | rfl | ⟨n1, n2, n3, n4⟩ <;>
    simp [h0, hc, d1, d2, d3, d4, d5, d6, d7, d8, d9, d1.symm, d2.symm, d3.symm, d4.symm, d5.symm,
      d6.symm, d7.symm, d8.symm, d9.symm, *] <;>
    split_ifs <;> simp_all

theorem handleMetaTag_title_nil (lm : GoString → GoString) (n : Node) (m : URLMetadata)
    (h0 : m.Title = []) (hn : metaTitle lm n = []) : (handleMetaTag lm n m).Title = [] := by
  rw [handleMetaTag_Title, if_pos h0, hn]

theorem handleLinkTag_title (lm : GoString → GoString) (n : Node) (m : URLMetadata)
    (b : Option URL) : (handleLinkTag lm n m b).Title = m.Title := by
  unfold handleLinkTag
  generalize linkAttrs lm n.Attr = a
  obtain ⟨rel, href⟩ := a
  simp only
  split_ifs <;> rfl

theorem visit_title_nil (lm : GoString → GoString) (b : Option URL) (n : Node)
    (st : TraverseState) (h0 : st.metadata.Title = [])
    (hn : n.isElement "meta" = true → metaTitle lm n = []) :
    (visit lm b n st).metadata.Title = [] := by
  unfold visit
  unfold Node.isElement at hn
  split_ifs with h1 h2 h3 h4
  · exact handleMetaTag_title_nil lm n _ h0 (hn (by simp [h1, h2]))
  · cases n.FirstChild <;> exact h0
  · rw [handleLinkTag_title]; exact h0
  · exact h0
  · exact h0

theorem foldl_visit_title_nil (lm : GoString → GoString) (b : Option URL) (l : List Node) :
    ∀ (st : TraverseState), st.metadata.Title = [] →
      (∀ n ∈ l, n.isElement "meta" = true → metaTitle lm n = []) →
      (l.foldl (fun s m => visit lm b m s) st).metadata.Title = [] := by
  induction l with
  | nil => intro st h0 _; exact h0
  | cons n l ih =>
    intro st h0 hl
    rw [List.foldl_cons]
    exact ih _ (visit_title_nil lm b n st h0 (hl n (List.mem_cons_self _ _)))
      (fun m hm => hl m (List.mem_cons_of_mem _ hm))

theorem visit_titleFromTag (lm : GoString → GoString) (b : Option URL) (n : Node)
    (st : TraverseState) :
    (visit lm b n st).titleFromTag
      = if n.isElement "title" = true then
          (match n.FirstChild with
            | some c => TrimSpace c.Data
            | none => st.titleFromTag)
        else st.titleFromTag := by
  unfold visit Node.isElement
  by_cases h1 : n.nodeType = .ElementNode
  · by_cases h2 : n.Data = str "meta"
    · have : str "meta" ≠ str "title" := by decide
      simp [h1, h2, this]
    · by_cases h3 : n.Data = str "title"
      · simp only [h1, h2, h3, if_true, if_false, decide_True, Bool.and_self, and_self]
        cases n.FirstChild <;> rfl
      · simp only [h1, h2, h3, if_true, if_false, and_false, decide_False, Bool.false_eq_true]
        split_ifs <;> rfl
  · simp [h1]

theorem foldl_visit_titleFromTag_none (lm : GoString → GoString) (b : Option URL)
    (l : List Node) :
    ∀ (st : TraverseState), l.filter (fun m => m.isElement "title") = [] →
      (l.foldl (fun s m => visit lm b m s) st).titleFromTag = st.titleFromTag := by
  induction l with
  | nil => intro st _; rfl
  | cons n l ih =>
    intro st hl
    rw [List.foldl_cons]
    by_cases hn : n.isElement "title" = true
    · simp [List.filter, hn] at hl
    · simp only [List.filter, hn] at hl
      rw [ih _ hl, visit_titleFromTag, if_neg hn]

theorem foldl_visit_titleFromTag_one (lm : GoString → GoString) (b : Option URL)
    (t : Node) (l : List Node) :
    ∀ (st : TraverseState), l.filter (fun m => m.isElement "title") = [t] →
      (l.foldl (fun s m => visit lm b m s) st).titleFromTag
        = (match t.FirstChild with
            | some c => TrimSpace c.Data
            | none => st.titleFromTag) := by
  induction l with
  | nil => intro st hl; simp at hl
  | cons n l ih =>
    intro st hl
    rw [List.foldl_cons]
    by_cases hn : n.isElement "title" = true
    · simp only [List.filter, hn, List.cons.injEq] at hl
      obtain ⟨rfl, hl⟩ := hl
      rw [foldl_visit_titleFromTag_none lm b l _ hl, visit_titleFromTag, if_pos hn]
    · simp only [List.filter, hn] at hl
      rw [ih _ hl, visit_titleFromTag, if_neg hn]

/-- C7. On a page with exactly one `<title>` element and no `<meta>` that
carries a title, `parseHTMLMetadata` returns as title the text of that
element with leading and trailing white space trimmed; it returns a value
whenever the base URL parses. -/
theorem single_title_is_trimmed (lowerMap : GoString → GoString) (doc t : Node)
    (baseURL : GoString)
    (hone : doc.preorder.filter (fun m => m.isElement "title") = [t])
    (hmeta : ∀ m ∈ doc.preorder, m.isElement "meta" = true → metaTitle lowerMap m = []) :
    (∀ md, parseHTMLMetadata lowerMap (some doc) baseURL = .ok md →
        md.Title = TrimSpace t.titleText)
    ∧ (∀ b, Parse lowerMap baseURL = .ok b →
        ∃ md, parseHTMLMetadata lowerMap (some doc) baseURL = .ok md
          ∧ md.Title = TrimSpace t.titleText) := by
  have key : ∀ md, parseHTMLMetadata lowerMap (some doc) baseURL = .ok md →
      md.Title = TrimSpace t.titleText := by
    intro md h
    have hf := (parseHTMLMetadata_fields lowerMap doc baseURL md h).1
    rw [traverse_eq_foldl] at hf
    have h1 := foldl_visit_title_nil lowerMap (Parse lowerMap baseURL).toOption doc.preorder
      ⟨{}, []⟩ rfl hmeta
    have h2 := foldl_visit_titleFromTag_one lowerMap (Parse lowerMap baseURL).toOption t
      doc.preorder ⟨{}, []⟩ hone
    rw [h1] at hf
    rw [hf, h2]
    unfold Node.titleText
    cases t.FirstChild with
    | none => simp; rfl
    | some c =>
      simp only
      split_ifs with h3
      · rfl
      · simp only [true_and, not_not] at h3
        exact h3.symm
  refine ⟨key, ?_⟩
  intro b hb
  obtain ⟨md, hmd⟩ := parseHTMLMetadata_returns lowerMap doc baseURL b hb
  exact ⟨md, hmd, key md hmd⟩

/-- C7, on the page `<title>Test Page</title>` (here with white space around
the text) and the base `https://example.com/`. -/
theorem single_title_is_trimmed_witness :
    (documentWithHead [element "title" [] [text "  Test Page\n"]]).preorder.filter
        (fun m => m.isElement "title") = [element "title" [] [text "  Test Page\n"]]
    ∧ (∀ m ∈ (documentWithHead [element "title" [] [text "  Test Page\n"]]).preorder,
        m.isElement "meta" = true → metaTitle id m = [])
    ∧ TrimSpace (element "title" [] [text "  Test Page\n"]).titleText = str "Test Page"
    ∧ ∃ md, parseHTMLMetadata id
          (some (documentWithHead [element "title" [] [text "  Test Page\n"]]))
          (str "https://example.com/") = .ok md
        ∧ md.Title = TrimSpace (element "title" [] [text "  Test Page\n"]).titleText :=
  ⟨rfl, by decide, by decide,
    (single_title_is_trimmed id (documentWithHead [element "title" [] [text "  Test Page\n"]])
      (element "title" [] [text "  Test Page\n"])
      (str "https://example.com/") rfl (by decide)).2
      { Scheme := str "https", Host := str "example.com", Path := str "/" } (by decide)⟩

/-! ## Relative references -/

theorem index_byte_none (s : GoString) (c : Nat) (h : ∀ x ∈ s, x ≠ c) : Index s [c] = none := by
  induction s with
  | nil => simp [Index]
  | cons a s ih =>
    have ha : a ≠ c := h a (List.mem_cons_self _ _)
    have hp : HasPrefix (a :: s) [c] = false := by
      simp [HasPrefix, List.isPrefixOf, Ne.symm ha]
    simp [Index, hp, ih (fun x hx => h x (List.mem_cons_of_mem _ hx))]

theorem cut_byte_none (s : GoString) (c : Nat) (h : ∀ x ∈ s, x ≠ c) :
    Cut s [c] = (s, [], false) := by
  simp [Cut, index_byte_none s c h]

/-- A byte that `validEncoded` lets through in a path is no control byte and
none of `#`, `?`. -/
theorem validEncoded_byte (s : GoString) (h : validEncoded s encodePath = true) :
    ∀ c ∈ s, c ≠ byte '#' ∧ c ≠ byte '?' ∧ ¬ (c < byte ' ' ∨ c = 0x7f) := by
  intro c hc
  have := List.all_eq_true.mp h c hc
  refine ⟨?_, ?_, ?_⟩
  · rintro rfl
    revert this
    decide
  · rintro rfl
    revert this
    decide
  · rintro (h1 | rfl)
    · simp [byte] at h1
      have hne : shouldEscape c encodePath = true := by
        unfold shouldEscape
        simp [str, utf8Bytes, byte]
        omega
      simp [str, utf8Bytes, byte, hne] at this
      omega
    · revert this
      decide

theorem hasSuffix_byte_false (s : GoString) (c : Nat) (h : ∀ x ∈ s, x ≠ c) :
    HasSuffix s [c] = false := by
  unfold HasSuffix
  by_contra hc
  simp only [Bool.not_eq_false] at hc
  rw [List.isSuffixOf_iff_suffix] at hc
  obtain ⟨t, ht⟩ := hc
  exact h c (by rw [← ht]; simp) rfl

/-- `url.Parse` on a path-absolute reference made of valid path bytes: only the
path is set. -/
theorem Parse_path_absolute (lm : GoString → GoString) (p P : GoString)
    (hv : validEncoded (byte '/' :: p) encodePath = true)
    (hu : unescape (byte '/' :: p) encodePath = .ok P)
    (hnd : p.head? ≠ some (byte '/')) :
    Parse lm (byte '/' :: p)
      = .ok { Path := P,
              RawPath := if byte '/' :: p = escape P encodePath then [] else byte '/' :: p } := by
  have hb := validEncoded_byte _ hv
  have hhash : Cut (byte '/' :: p) (str "#") = (byte '/' :: p, [], false) :=
    cut_byte_none _ _ (fun x hx => (hb x hx).1)
  have hq : Cut (byte '/' :: p) (str "?") = (byte '/' :: p, [], false) :=
    cut_byte_none _ _ (fun x hx => (hb x hx).2.1)
  have hsuf : HasSuffix (byte '/' :: p) (str "?") = false :=
    hasSuffix_byte_false _ _ (fun x hx => (hb x hx).2.1)
  have hctl : stringContainsCTLByte (byte '/' :: p) = false := by
    unfold stringContainsCTLByte
    rw [← Bool.not_eq_true, List.any_eq_true]
    rintro ⟨x, hx, hx2⟩
    apply (hb x hx).2.2
    simpa using hx2
  have hstar : byte '/' :: p ≠ str "*" := by simp [str, utf8Bytes, byte]
  have hsch : getScheme (byte '/' :: p) = .ok ([], byte '/' :: p) := by
    simp [getScheme, getSchemeLoop, byte]
  have h2 : HasPrefix (byte '/' :: p) (str "//") = false := by
    rcases p with _ | ⟨a, p⟩
    · rfl
    · have : a ≠ byte '/' := by simpa using hnd
      simp [HasPrefix, str, utf8Bytes, List.isPrefixOf, byte] at this ⊢
      intro h; exact absurd h.symm this
  have h1 : HasPrefix (byte '/' :: p) (str "/") = true := by
    simp [HasPrefix, str, utf8Bytes, List.isPrefixOf, byte]
  unfold Parse
  simp only [hhash]
  unfold parse
  simp only [hctl, hstar, hsch, hsuf, hq, toLower_nil, Bool.false_eq_true, if_false, false_and,
    and_false]
  unfold parseAfterQuery
  simp only [h1, h2, Bool.not_true, Bool.false_eq_true, false_and, and_false, if_false,
    ne_eq, not_true_eq_false]
  unfold URL.setPath
  simp only [hu, bind, Except.bind, pure, Except.pure]
  split_ifs <;> rfl

/-- The unescaped form of a text that starts with `/` starts with `/`. -/
theorem unescape_slash (p P : GoString) (hu : unescape (byte '/' :: p) encodePath = .ok P) :
    ∃ P1, P = byte '/' :: P1 := by
  unfold unescape at hu
  cases hc : unescapeCheck encodePath (byte '/' :: p) 0 false with
  | error e => simp [hc] at hu
  | ok r =>
    obtain ⟨n, hasPlus⟩ := r
    simp only [hc] at hu
    split_ifs at hu
    · cases hu; exact ⟨p, rfl⟩
    · cases hu
      exact ⟨unescapeDecode encodePath p, by rw [unescapeDecode.eq_def]; simp [byte]⟩

/-- `EscapedPath` gives back a valid path text that `setPath` stored. -/
theorem escapedPath_setPath (u : URL) (r P : GoString)
    (hv : validEncoded r encodePath = true) (hu : unescape r encodePath = .ok P)
    (hP : P ≠ str "*") (hpath : u.Path = P)
    (hraw : u.RawPath = if r = escape P encodePath then [] else r) :
    u.EscapedPath = r := by
  unfold URL.EscapedPath
  rw [hraw, hpath]
  by_cases he : r = escape P encodePath
  · simp only [he, if_true, ne_eq, not_true_eq_false, false_and, if_false, hP]
  · have hr : r ≠ [] := by
      rintro rfl
      simp [unescape, unescapeCheck] at hu
      subst hu
      simp [escape] at he
    simp [he, hr, hv, unescapesTo, hu]

theorem pathElems_flatMap (s : GoString) :
    (pathElems s).flatMap (fun e => byte '/' :: e) = byte '/' :: s := by
  induction s with
  | nil => rfl
  | cons c s ih =>
    unfold pathElems
    by_cases hc : c = byte '/'
    · simp only [hc, if_true, List.flatMap_cons, ih]
      rfl
    · simp only [hc, if_false]
      cases hp : pathElems s with
      | nil => simp [hp] at ih
      | cons e es =>
        rw [hp] at ih
        simp only [List.flatMap_cons, List.cons_append, List.cons.injEq, true_and] at ih ⊢
        rw [ih]

theorem foldl_resolveStep (es : List GoString) :
    ∀ d : GoString, (∀ e ∈ es, e ≠ str "." ∧ e ≠ str "..") →
      es.foldl resolveStep (d, false) = (d ++ es.flatMap (fun e => byte '/' :: e), es.isEmpty && false) := by
  induction es with
  | nil => intro d _; simp
  | cons e es ih =>
    intro d h
    have he := h e (List.mem_cons_self _ _)
    rw [List.foldl_cons]
    have : resolveStep (d, false) e = (d ++ str "/" ++ e, false) := by
      simp [resolveStep, he.1, he.2]
    rw [this, ih _ (fun x hx => h x (List.mem_cons_of_mem _ hx))]
    simp [str, utf8Bytes, byte]

/-- `resolvePath` returns a reference that starts with `/` and has no dot
segment as it is. -/
theorem resolvePath_absolute (base p : GoString)
    (hd : ∀ e ∈ pathElems (byte '/' :: p), e ≠ str "." ∧ e ≠ str "..") :
    resolvePath base (byte '/' :: p) = byte '/' :: p := by
  have hel : pathElems (byte '/' :: p) = [] :: pathElems p := by
    simp [pathElems]
  have hd2 : ∀ e ∈ pathElems p, e ≠ str "." ∧ e ≠ str ".." := by
    intro e he
    exact hd e (by rw [hel]; exact List.mem_cons_of_mem _ he)
  have hfold : (pathElems (byte '/' :: p)).foldl resolveStep (str "/", true)
      = (str "//" ++ p, false) := by
    rw [hel, List.foldl_cons]
    have : resolveStep (str "/", true) [] = (str "/", false) := by
      simp [resolveStep, str, utf8Bytes]
    rw [this, foldl_resolveStep _ _ hd2, pathElems_flatMap]
    simp [str, utf8Bytes, byte]
  have hlast : ¬ ((pathElems (byte '/' :: p)).getLast? = some (str ".")
      ∨ (pathElems (byte '/' :: p)).getLast? = some (str "..")) := by
    rintro (h | h)
    · exact (hd _ (List.mem_of_getLast?_eq_some h)).1 rfl
    · exact (hd _ (List.mem_of_getLast?_eq_some h)).2 rfl
  unfold resolvePath
  simp only [List.cons_ne_nil, if_false, List.head?_cons, ne_eq, not_true_eq_false, hfold, hlast]
  simp [str, utf8Bytes, byte]

/-- `ResolveReference` on a reference that holds only a path starting with
`/` and without dot segments: scheme, user and host of the base, path of the
reference. -/
theorem resolveReference_path_absolute (b : URL) (p P : GoString)
    (hv : validEncoded (byte '/' :: p) encodePath = true)
    (hu : unescape (byte '/' :: p) encodePath = .ok P)
    (hd : ∀ e ∈ pathElems (byte '/' :: p), e ≠ str "." ∧ e ≠ str "..") :
    b.ResolveReference
        { Path := P,
          RawPath := if byte '/' :: p = escape P encodePath then [] else byte '/' :: p }
      = { Scheme := b.Scheme, User := b.User, Host := b.Host, Path := P,
          RawPath := if byte '/' :: p = escape P encodePath then [] else byte '/' :: p } := by
  obtain ⟨P1, hP1⟩ := unescape_slash p P hu
  have hPne : P ≠ [] := by rw [hP1]; simp
  have hPstar : P ≠ str "*" := by rw [hP1]; simp [str, utf8Bytes, byte]
  have hesc : URL.EscapedPath
      { Path := P,
        RawPath := if byte '/' :: p = escape P encodePath then [] else byte '/' :: p }
      = byte '/' :: p := escapedPath_setPath _ _ P hv hu hPstar rfl rfl
  unfold URL.ResolveReference
  simp only [hesc, resolvePath_absolute _ p hd, hPne, ne_eq, not_true_eq_false, false_or,
    false_and, if_false, if_true, Option.isSome_none, Bool.false_eq_true, or_self]
  unfold URL.setPathIgnore URL.setPath
  simp only [hu, bind, Except.bind, pure, Except.pure]
  split_ifs <;> rfl

/-- `String` of a URL that holds a scheme, a host that needs no escaping and
a path whose escaped form starts with `/`. -/
theorem string_scheme_host_path (u : URL) (r : GoString)
    (hs : u.Scheme ≠ []) (ho : u.Opaque = []) (hu : u.User = none)
    (hh : escape u.Host encodeHost = u.Host) (hom : u.OmitHost = false)
    (hpne : u.Path ≠ []) (hfq : u.ForceQuery = false) (hq : u.RawQuery = [])
    (hf : u.Fragment = []) (hp : u.EscapedPath = byte '/' :: r) :
    u.String = u.Scheme ++ str "://" ++ u.Host ++ (byte '/' :: r) := by
  unfold URL.String
  simp only [hs, ho, hu, hom, hpne, hfq, hq, hf, hp, hh, ne_eq, not_false_eq_true,
    not_true_eq_false, if_true, if_false, true_or, or_true, Bool.false_eq_true, false_and,
    List.head?_cons, and_false, false_or, or_self, or_false, List.append_nil, true_and]
  by_cases h0 : u.Host = []
  · simp [h0, str, utf8Bytes]
  · simp [h0, str, utf8Bytes]

/-- `resolveURL` on a reference that is not empty, not absolute and not
protocol-relative, and that `url.Parse` accepts: the base resolves it. -/
theorem resolveURL_relative (lm : GoString → GoString) (r : GoString) (b ref : URL)
    (h0 : r ≠ []) (h1 : HasPrefix r (str "http://") = false)
    (h2 : HasPrefix r (str "https://") = false) (h3 : HasPrefix r (str "//") = false)
    (hp : Parse lm r = .ok ref) :
    resolveURL lm r (some b) = .ok (b.ResolveReference ref).String := by
  unfold resolveURL
  simp only [h0, h1, h2, h3, hp, if_false, Bool.false_eq_true, or_self]

/-- `resolveURL` on a path-absolute reference that `url.Parse` reads as a
path and nothing else. -/
theorem resolveURL_path_absolute (lm : GoString → GoString) (b : URL) (p P : GoString)
    (hs : b.Scheme ≠ []) (hu : b.User = none) (hh : escape b.Host encodeHost = b.Host)
    (hv : validEncoded (byte '/' :: p) encodePath = true)
    (hP : unescape (byte '/' :: p) encodePath = .ok P)
    (hnd : p.head? ≠ some (byte '/'))
    (hd : ∀ e ∈ pathElems (byte '/' :: p), e ≠ str "." ∧ e ≠ str "..") :
    resolveURL lm (byte '/' :: p) (some b)
      = .ok (b.Scheme ++ str "://" ++ b.Host ++ (byte '/' :: p)) := by
  obtain ⟨P1, hP1⟩ := unescape_slash p P hP
  have h1 : HasPrefix (byte '/' :: p) (str "http://") = false := by
    simp [HasPrefix, str, utf8Bytes, List.isPrefixOf, byte]
  have h2 : HasPrefix (byte '/' :: p) (str "https://") = false := by
    simp [HasPrefix, str, utf8Bytes, List.isPrefixOf, byte]
  have h3 : HasPrefix (byte '/' :: p) (str "//") = false := by
    rcases p with _ | ⟨a, p⟩
    · rfl
    · have : a ≠ byte '/' := by simpa using hnd
      simp [HasPrefix, str, utf8Bytes, List.isPrefixOf, byte] at this ⊢
      intro h; exact absurd h.symm this
  unfold resolveURL
  simp only [h1, h2, h3, Parse_path_absolute lm p P hv hP hnd,
    resolveReference_path_absolute b p P hv hP hd, List.cons_ne_nil, if_false,
    Bool.false_eq_true, or_self]
  congr 1
  exact string_scheme_host_path _ p hs rfl hu hh rfl (by rw [hP1]; simp) rfl rfl rfl
    (escapedPath_setPath _ _ P hv hP (by rw [hP1]; simp [str, utf8Bytes, byte]) rfl rfl)

/-- C8, the claim as stated fails. Against the base `https://example.com/page/`
the path-absolute reference `/my image.jpg` (no dot segment) resolves to
`https://example.com/my%20image.jpg`, and against the base
`https://u@example.com/page/`, whose host is `example.com`, the reference
`/p` resolves to `https://u@example.com/p`: neither is
`base.Scheme + "://" + h + "/p"`. -/
theorem resolveURL_path_absolute_counterexample :
    Parse id (str "https://example.com/page/") = .ok testBase
    ∧ (∀ e ∈ pathElems (str "/my image.jpg"), e ≠ str "." ∧ e ≠ str "..")
    ∧ resolveURL id (str "/my image.jpg") (some testBase)
        = .ok (str "https://example.com/my%20image.jpg")
    ∧ resolveURL id (str "/my image.jpg") (some testBase)
        ≠ .ok (testBase.Scheme ++ str "://" ++ testBase.Host ++ str "/my image.jpg")
    ∧ Parse id (str "https://u@example.com/page/")
        = .ok { testBase with User := some ⟨str "u", [], false⟩ }
    ∧ resolveURL id (str "/p") (some { testBase with User := some ⟨str "u", [], false⟩ })
        = .ok (str "https://u@example.com/p")
    ∧ resolveURL id (str "/p") (some { testBase with User := some ⟨str "u", [], false⟩ })
        ≠ .ok (testBase.Scheme ++ str "://" ++ testBase.Host ++ str "/p") := by
  refine ⟨?_, ?_, ?_, ?_, ?_, ?_, ?_⟩ <;> decide

/-- C8, amended. `resolveURL` resolves a relative reference against the base
by `ResolveReference`: the base of the test is what `url.Parse` gives for
`https://example.com/page/`, and against it `image.jpg` gives
`https://example.com/page/image.jpg`, `../image.jpg` gives
`https://example.com/image.jpg` and `/images/photo.jpg` gives
`https://example.com/images/photo.jpg`. For every base `b` with a scheme,
without userinfo and with a host that `String` writes unescaped, and every
reference `/p` that does not start with `//`, has no dot segment and is a
validly encoded path (`validEncoded` holds and `unescape` succeeds), the
result is `b.Scheme + "://" + b.Host + "/p"`. -/
theorem relative_reference_resolution (lowerMap : GoString → GoString) :
    Parse lowerMap (str "https://example.com/page/") = .ok testBase
    ∧ resolveURL lowerMap (str "image.jpg") (some testBase)
        = .ok (str "https://example.com/page/image.jpg")
    ∧ resolveURL lowerMap (str "../image.jpg") (some testBase)
        = .ok (str "https://example.com/image.jpg")
    ∧ resolveURL lowerMap (str "/images/photo.jpg") (some testBase)
        = .ok (str "https://example.com/images/photo.jpg")
    ∧ ∀ (b : URL) (p : GoString),
        b.Scheme ≠ [] → b.User = none → escape b.Host encodeHost = b.Host →
        validEncoded (byte '/' :: p) encodePath = true →
        (∃ P, unescape (byte '/' :: p) encodePath = .ok P) →
        p.head? ≠ some (byte '/') →
        (∀ e ∈ pathElems (byte '/' :: p), e ≠ str "." ∧ e ≠ str "..") →
        resolveURL lowerMap (byte '/' :: p) (some b)
          = .ok (b.Scheme ++ str "://" ++ b.Host ++ (byte '/' :: p)) := by
  refine ⟨rfl, ?_, ?_, ?_, ?_⟩
  · rw [resolveURL_relative lowerMap (str "image.jpg") testBase { Path := str "image.jpg" }
      (by decide) (by decide) (by decide) (by decide) rfl]
    decide
  · rw [resolveURL_relative lowerMap (str "../image.jpg") testBase { Path := str "../image.jpg" }
      (by decide) (by decide) (by decide) (by decide) rfl]
    decide
  · rw [resolveURL_relative lowerMap (str "/images/photo.jpg") testBase { Path := str "/images/photo.jpg" }
      (by decide) (by decide) (by decide) (by decide) rfl]
    decide
  rintro b p hs hu hh hv ⟨P, hP⟩ hnd hd
  exact resolveURL_path_absolute lowerMap b p P hs hu hh hv hP hnd hd

/-- C8 on the base `http://cdn.example.org:8080/a/b?x=1` and the reference
`/static/img/logo%20v2.png`. -/
theorem relative_reference_resolution_witness :
    Parse id (str "http://cdn.example.org:8080/a/b?x=1")
      = .ok { Scheme := str "http", Host := str "cdn.example.org:8080", Path := str "/a/b",
              RawQuery := str "x=1" }
    ∧ resolveURL id (byte '/' :: str "static/img/logo%20v2.png")
        (some { Scheme := str "http", Host := str "cdn.example.org:8080", Path := str "/a/b",
                RawQuery := str "x=1" })
      = .ok (str "http://cdn.example.org:8080/static/img/logo%20v2.png") :=
  ⟨by decide,
   (relative_reference_resolution id).2.2.2.2
     { Scheme := str "http", Host := str "cdn.example.org:8080", Path := str "/a/b",
       RawQuery := str "x=1" }
     (str "static/img/logo%20v2.png") (by decide) rfl (by decide) (by decide)
     ⟨str "/static/img/logo v2.png", by decide⟩ (by decide) (by decide)⟩

/-! ## The link resolver -/

/-- C9. For every reference `r` and every non-nil base `b`, `resolveURL`
returns `""` for the empty reference, `r` itself when `r` starts with
`http://` or `https://`, and `b.Scheme + ":" + r` when `r` starts with `//`. -/
theorem resolveURL_absolute_cases (lowerMap : GoString → GoString) (r : GoString) (b : URL) :
    (r = [] → resolveURL lowerMap r (some b) = .ok [])
    ∧ (HasPrefix r (str "http://") = true ∨ HasPrefix r (str "https://") = true →
        resolveURL lowerMap r (some b) = .ok r)
    ∧ (HasPrefix r (str "//") = true →
        resolveURL lowerMap r (some b) = .ok (b.Scheme ++ str ":" ++ r)) := by
  refine ⟨?_, ?_, ?_⟩
  · intro h
    simp [resolveURL, h]
  · intro h
    have hne : r ≠ [] := by
      rintro rfl
      rcases h with h | h <;> simp [HasPrefix, str, utf8Bytes] at h
    simp [resolveURL, hne, h]
  · intro h
    have hne : r ≠ [] := by
      rintro rfl
      simp [HasPrefix, str, utf8Bytes] at h
    have h1 : HasPrefix r (str "http://") = false := by
      cases r with
      | nil => rfl
      | cons a s =>
        simp [HasPrefix, str, utf8Bytes, List.isPrefixOf] at h ⊢
        omega
    have h2 : HasPrefix r (str "https://") = false := by
      cases r with
      | nil => rfl
      | cons a s =>
        simp [HasPrefix, str, utf8Bytes, List.isPrefixOf] at h ⊢
        omega
    simp [resolveURL, hne, h, h1, h2]

/-- C9, at the references `https://cdn.example.com/image.jpg` and
`//cdn.example.com/image.jpg` against the base `https://example.com/page/`. -/
theorem resolveURL_absolute_cases_witness :
    (HasPrefix (str "https://cdn.example.com/image.jpg") (str "http://") = true
        ∨ HasPrefix (str "https://cdn.example.com/image.jpg") (str "https://") = true)
    ∧ resolveURL id (str "https://cdn.example.com/image.jpg")
        (some { Scheme := str "https", Host := str "example.com", Path := str "/page/" })
      = .ok (str "https://cdn.example.com/image.jpg")
    ∧ HasPrefix (str "//cdn.example.com/image.jpg") (str "//") = true
    ∧ resolveURL id (str "//cdn.example.com/image.jpg")
        (some { Scheme := str "https", Host := str "example.com", Path := str "/page/" })
      = .ok (str "https://cdn.example.com/image.jpg")
    ∧ resolveURL id [] (some { Scheme := str "https", Host := str "example.com" }) = .ok []
    ∧ Parse id (str "https://example.com/page/")
      = .ok { Scheme := str "https", Host := str "example.com", Path := str "/page/" } :=
  ⟨Or.inr (by decide),
    (resolveURL_absolute_cases id _ _).2.1 (Or.inr (by decide)),
    by decide,
    (resolveURL_absolute_cases id (str "//cdn.example.com/image.jpg")
      { Scheme := str "https", Host := str "example.com", Path := str "/page/" }).2.2 (by decide),
    (resolveURL_absolute_cases id [] _).1 rfl,
    by decide⟩

/-! ## The default favicon -/

theorem resolveRelativeURL_nil (lm : GoString → GoString) (b : URL) :
    resolveRelativeURL lm [] b = [] := by
  simp [resolveRelativeURL]

theorem extractMetadataRegex_default_favicon (lm : GoString → GoString) (html base : GoString)
    (b : URL) (hb : Parse lm base = .ok b)
    (hf : (faviconRegex.FindStringSubmatch html).getD 1 [] = []) :
    (extractMetadataRegex lm html base).Favicon
      = b.Scheme ++ str "://" ++ b.Host ++ str "/favicon.ico" := by
  unfold extractMetadataRegex
  simp only [hb]
  have hfm : (if (faviconRegex.FindStringSubmatch html).length > 1
      then (faviconRegex.FindStringSubmatch html).getD 1 [] else ([] : GoString)) = [] := by
    split
    · exact hf
    · rfl
  simp only [hfm, resolveRelativeURL_nil, if_true]
  rfl


/-- C10. When no favicon reference is extracted from the page and the base
URL parses with scheme `s` and host `h`, the favicon both strategies return
is `s + "://" + h + "/favicon.ico"`. -/
theorem default_favicon (lowerMap : GoString → GoString) (doc : Node) (html baseURL : GoString)
    (b : URL) (hb : Parse lowerMap baseURL = .ok b) :
    ((traverse lowerMap (some b) doc ⟨{}, []⟩).metadata.Favicon = [] →
      ∃ md, parseHTMLMetadata lowerMap (some doc) baseURL = .ok md
        ∧ md.Favicon = b.Scheme ++ str "://" ++ b.Host ++ str "/favicon.ico")
    ∧ ((faviconRegex.FindStringSubmatch html).getD 1 [] = [] →
      (extractMetadataRegex lowerMap html baseURL).Favicon
        = b.Scheme ++ str "://" ++ b.Host ++ str "/favicon.ico") := by
  refine ⟨?_, extractMetadataRegex_default_favicon lowerMap html baseURL b hb⟩
  intro h0
  obtain ⟨md, hmd⟩ := parseHTMLMetadata_returns lowerMap doc baseURL b hb
  refine ⟨md, hmd, ?_⟩
  have hf := (parseHTMLMetadata_fields lowerMap doc baseURL md hmd).2.2.2
  simp only [hb, Except.toOption] at hf
  exact hf h0 b rfl

set_option maxRecDepth 100000 in
/-- C10, on a page without a `<link>` and the base `https://example.com/a/b`. -/
theorem default_favicon_witness :
    Parse id (str "https://example.com/a/b")
      = .ok { Scheme := str "https", Host := str "example.com", Path := str "/a/b" }
    ∧ (traverse id (some { Scheme := str "https", Host := str "example.com", Path := str "/a/b" })
        (documentWithHead [element "title" [] [text "T"]]) ⟨{}, []⟩).metadata.Favicon = []
    ∧ (∃ md, parseHTMLMetadata id (some (documentWithHead [element "title" [] [text "T"]]))
          (str "https://example.com/a/b") = .ok md
        ∧ md.Favicon = str "https://example.com/favicon.ico")
    ∧ (faviconRegex.FindStringSubmatch (str "<html><head><title>T</title></head></html>")).getD 1 []
      = []
    ∧ (extractMetadataRegex id (str "<html><head><title>T</title></head></html>")
        (str "https://example.com/a/b")).Favicon = str "https://example.com/favicon.ico" :=
  ⟨by decide, by decide,
    (default_favicon id (documentWithHead [element "title" [] [text "T"]]) []
      (str "https://example.com/a/b")
      { Scheme := str "https", Host := str "example.com", Path := str "/a/b" } (by decide)).1
      (by decide),
    by decide,
    (default_favicon id (documentWithHead []) (str "<html><head><title>T</title></head></html>")
      (str "https://example.com/a/b")
      { Scheme := str "https", Host := str "example.com", Path := str "/a/b" } (by decide)).2
      (by decide)⟩

/-! ## The structural handler -/

/-- `Values.Get` on values without the key. -/
theorem get_of_no_key (v : Values) (key : GoString) (h : ∀ p ∈ v, p.1 ≠ key) :
    v.Get key = [] := by
  unfold Values.Get
  have : v.find? (fun p => decide (p.1 = key)) = none := by
    rw [List.find?_eq_none]
    intro p hp
    simpa using h p hp
  rw [this]

/-- C16. Every request whose method is not GET gets HTTP 405 with
`status=0` in the body, whatever its query is, and the run makes no call to
the outside: nothing is validated or fetched. -/
theorem method_not_allowed (lowerMap : GoString → GoString) (htmlParse : GoString → Option Node)
    (replies : List Reply) (r : Request) (h : r.Method ≠ MethodGet) :
    (URLInfoHandler lowerMap htmlParse replies {} r).w.status = 405
    ∧ (URLInfoHandler lowerMap htmlParse replies {} r).w.Body
        = [{ Status := 0, Msg := .text (str "Method not allowed") }]
    ∧ (URLInfoHandler lowerMap htmlParse replies {} r).calls = []
    ∧ (URLInfoHandler lowerMap htmlParse replies {} r).panicked = false := by
  unfold URLInfoHandler
  simp only [h, ne_eq, not_false_eq_true, if_true]
  refine ⟨?_, ?_, ?_, ?_⟩ <;> trivial

/-- C16 on a POST with a private url and on a POST without a url. -/
theorem method_not_allowed_witness :
    ((URLInfoHandler id (fun _ => none) [] {}
        { Method := str "POST", URL := { RawQuery := str "url=http://localhost/" } }).w.status = 405
      ∧ (URLInfoHandler id (fun _ => none) [] {}
        { Method := str "POST", URL := { RawQuery := str "url=http://localhost/" } }).w.Body
          = [{ Status := 0, Msg := .text (str "Method not allowed") }]
      ∧ (URLInfoHandler id (fun _ => none) [] {}
        { Method := str "POST", URL := { RawQuery := str "url=http://localhost/" } }).calls = []
      ∧ (URLInfoHandler id (fun _ => none) [] {}
        { Method := str "POST", URL := { RawQuery := str "url=http://localhost/" } }).panicked
          = false)
    ∧ (URLInfoHandler id (fun _ => none) [] {} { Method := str "POST", URL := {} }).w.status = 405 :=
  ⟨method_not_allowed id (fun _ => none) [] _ (by decide),
   (method_not_allowed id (fun _ => none) [] { Method := str "POST", URL := {} } (by decide)).1⟩

/-- C15. A GET request whose query has no `url` parameter, or whose first
`url` parameter is empty, gets HTTP 400 with `status=0` and the message
`URL parameter is required` (not the message of a validation), and the run
makes no call to the outside. -/
theorem missing_url_parameter (lowerMap : GoString → GoString)
    (htmlParse : GoString → Option Node) (replies : List Reply) (r : Request)
    (hm : r.Method = MethodGet)
    (h : (∀ p ∈ r.URL.Query, p.1 ≠ str "url") ∨ r.URL.Query.Get (str "url") = []) :
    (URLInfoHandler lowerMap htmlParse replies {} r).w.status = 400
    ∧ (URLInfoHandler lowerMap htmlParse replies {} r).w.Body
        = [{ Status := 0, Msg := .text (str "URL parameter is required") }]
    ∧ (URLInfoHandler lowerMap htmlParse replies {} r).calls = []
    ∧ (URLInfoHandler lowerMap htmlParse replies {} r).panicked = false := by
  have h0 : r.URL.Query.Get (str "url") = [] := by
    rcases h with h | h
    · exact get_of_no_key _ _ h
    · exact h
  unfold URLInfoHandler
  simp only [hm, h0, ne_eq, not_true_eq_false, if_false, if_true]
  refine ⟨?_, ?_, ?_, ?_⟩ <;> trivial

/-- C15 on `GET /client/common/urlInfo` (the test `TestURLInfoHandler_MissingURL`)
and on `GET /client/common/urlInfo?url=`. -/
theorem missing_url_parameter_witness :
    (URLInfoHandler id (fun _ => none) [] {} (getRequest "")).w.status = 400
    ∧ (URLInfoHandler id (fun _ => none) [] {} (getRequest "url=&x=1")).w.Body
        = [{ Status := 0, Msg := .text (str "URL parameter is required") }] :=
  ⟨(missing_url_parameter id (fun _ => none) [] (getRequest "") rfl
      (Or.inl (by decide))).1,
   (missing_url_parameter id (fun _ => none) [] (getRequest "url=&x=1") rfl
      (Or.inr (by decide))).2.1⟩

/-- C14. A GET request whose non-empty `url` parameter `validateAndNormalizeURL`
rejects gets HTTP 400 with `status=0`, and the run makes no call to the
outside: `fetchURLMetadata` is not called and no request is sent.  The four
URLs of the test `TestURLInfoHandler_PrivateURL` are rejected. -/
theorem invalid_url_rejected (lowerMap : GoString → GoString)
    (htmlParse : GoString → Option Node) (replies : List Reply) (r : Request)
    (err : ValidateError) (hm : r.Method = MethodGet)
    (h0 : r.URL.Query.Get (str "url") ≠ [])
    (hv : validateAndNormalizeURL lowerMap (r.URL.Query.Get (str "url")) = .error err) :
    (URLInfoHandler lowerMap htmlParse replies {} r).w.status = 400
    ∧ (URLInfoHandler lowerMap htmlParse replies {} r).w.Body
        = [{ Status := 0, Msg := .invalidURL err }]
    ∧ (URLInfoHandler lowerMap htmlParse replies {} r).calls = []
    ∧ (URLInfoHandler lowerMap htmlParse replies {} r).panicked = false := by
  unfold URLInfoHandler
  simp only [hm, h0, hv, ne_eq, not_true_eq_false, if_false]
  refine ⟨?_, ?_, ?_, ?_⟩ <;> trivial

/-- C14 on the four URLs of the test `TestURLInfoHandler_PrivateURL`: each is
rejected as a private host, the response is HTTP 400 and nothing is called. -/
theorem invalid_url_rejected_witness :
    (∀ q ∈ ["url=http://localhost/test", "url=http://127.0.0.1/test",
          "url=http://192.168.1.1/test", "url=http://10.0.0.1/test"],
        validateAndNormalizeURL id ((getRequest q).URL.Query.Get (str "url"))
          = .error .privateHost)
    ∧ ((URLInfoHandler id (fun _ => none) [] {} (getRequest "url=http://localhost/test")).w.status
          = 400
      ∧ (URLInfoHandler id (fun _ => none) [] {} (getRequest "url=http://localhost/test")).w.Body
          = [{ Status := 0, Msg := .invalidURL .privateHost }]
      ∧ (URLInfoHandler id (fun _ => none) [] {} (getRequest "url=http://localhost/test")).calls
          = []
      ∧ (URLInfoHandler id (fun _ => none) [] {}
          (getRequest "url=http://localhost/test")).panicked = false)
    ∧ (URLInfoHandler id (fun _ => none) [] {} (getRequest "url=http://127.0.0.1/test")).w.status
        = 400
    ∧ (URLInfoHandler id (fun _ => none) [] {} (getRequest "url=http://192.168.1.1/test")).w.status
        = 400
    ∧ (URLInfoHandler id (fun _ => none) [] {} (getRequest "url=http://10.0.0.1/test")).w.status
        = 400 :=
  ⟨by decide,
   invalid_url_rejected id (fun _ => none) [] (getRequest "url=http://localhost/test")
     .privateHost rfl (by decide) (by decide),
   (invalid_url_rejected id (fun _ => none) [] (getRequest "url=http://127.0.0.1/test")
     .privateHost rfl (by decide) (by decide)).1,
   (invalid_url_rejected id (fun _ => none) [] (getRequest "url=http://192.168.1.1/test")
     .privateHost rfl (by decide) (by decide)).1,
   (invalid_url_rejected id (fun _ => none) [] (getRequest "url=http://10.0.0.1/test")
     .privateHost rfl (by decide) (by decide)).1⟩

/-- A URL that passes validation is not empty. -/
theorem validate_ok_ne_nil (lm : GoString → GoString) (s n : GoString)
    (h : validateAndNormalizeURL lm s = .ok n) : s ≠ [] := by
  rintro rfl
  simp [validateAndNormalizeURL, TrimSpace] at h

/-- `fetchURLMetadata` does not panic: it parses the page only after
`url.Parse` accepted the target URL, so `parseHTMLMetadata` has its base. -/
theorem fetchURLMetadata_returns (lm : GoString → GoString) (htmlParse : GoString → Option Node)
    (replies : List Reply) (targetURL : GoString) :
    (fetchURLMetadata lm htmlParse replies targetURL).2 ≠ .panic := by
  unfold fetchURLMetadata
  cases hp : Parse lm targetURL with
  | error e => simp
  | ok u =>
    rcases hd : clientDo checkRedirect targetURL [] replies with ⟨sent, res⟩
    cases res with
    | error e => simp
    | ok resp =>
      simp only
      split_ifs
      · simp
      · simp
      · cases hh : htmlParse (List.take (5 * 1024 * 1024) resp.Body) with
        | none => simp [parseHTMLMetadata]
        | some doc =>
          obtain ⟨md, hmd⟩ := parseHTMLMetadata_returns lm doc targetURL u hp
          simp [hmd]

/-- C11. For every GET request whose `url` parameter passes validation: when
`fetchURLMetadata` returns an error, whichever it is, the response is HTTP 200
with `status=1`, `msg="success"` and a `data` whose four fields are empty;
and whatever the fetch gives, the run ends without a panic, the response is
HTTP 200 and every value written to the body has `status=1`. -/
theorem graceful_degradation (lowerMap : GoString → GoString)
    (htmlParse : GoString → Option Node) (replies : List Reply) (r : Request)
    (n : GoString) (hm : r.Method = MethodGet)
    (hv : validateAndNormalizeURL lowerMap (r.URL.Query.Get (str "url")) = .ok n) :
    (∀ calls e, fetchURLMetadata lowerMap htmlParse replies n = (calls, .error e) →
      (URLInfoHandler lowerMap htmlParse replies {} r).w.status = 200
      ∧ (URLInfoHandler lowerMap htmlParse replies {} r).w.Body
          = [{ Status := 1, Msg := .text (str "success"),
               Data := some { OgImage := [], Title := [], Description := [], Favicon := [] } }])
    ∧ (URLInfoHandler lowerMap htmlParse replies {} r).panicked = false
    ∧ (URLInfoHandler lowerMap htmlParse replies {} r).w.status = 200
    ∧ ∀ v ∈ (URLInfoHandler lowerMap htmlParse replies {} r).w.Body, v.Status = 1 := by
  have h0 := validate_ok_ne_nil lowerMap _ n hv
  have hnp := fetchURLMetadata_returns lowerMap htmlParse replies n
  constructor
  · intro calls e hf
    unfold URLInfoHandler
    simp only [hm, h0, hv, hf, ne_eq, not_true_eq_false, if_false]
    refine ⟨?_, ?_⟩ <;> trivial
  · unfold URLInfoHandler
    simp only [hm, h0, hv, ne_eq, not_true_eq_false, if_false]
    rcases hf : fetchURLMetadata lowerMap htmlParse replies n with ⟨calls, res⟩
    rw [hf] at hnp
    cases res with
    | metadata m =>
      refine ⟨rfl, rfl, ?_⟩
      intro v hmem
      simp [sendURLInfoSuccess, ResponseWriter.Encode, ResponseWriter.WriteHeader,
        ResponseWriter.SetContentType] at hmem
      rw [hmem]
    | error e =>
      refine ⟨rfl, rfl, ?_⟩
      intro v hmem
      simp [sendURLInfoSuccess, ResponseWriter.Encode, ResponseWriter.WriteHeader,
        ResponseWriter.SetContentType] at hmem
      rw [hmem]
    | panic => exact absurd rfl hnp

/-- Each way a fetch fails is an error of `fetchURLMetadata`: no response
(the deadline, a transport error), a status other than 200, a content type
that is not HTML, a refused redirect, and a body `html.Parse` fails on. -/
theorem fetch_failures :
    fetchURLMetadata id (fun _ => none) [] (str "https://example.com")
      = ([.fetchURLMetadata (str "https://example.com"), .send (str "https://example.com")],
         .error (.fetchFailed .sendFailed))
    ∧ fetchURLMetadata id (fun _ => none) [.response { StatusCode := 404 }]
        (str "https://example.com")
      = ([.fetchURLMetadata (str "https://example.com"), .send (str "https://example.com")],
         .error (.statusCode 404))
    ∧ fetchURLMetadata id (fun _ => none)
        [.response { StatusCode := 200, ContentType := str "image/png" }]
        (str "https://example.com")
      = ([.fetchURLMetadata (str "https://example.com"), .send (str "https://example.com")],
         .error (.notHTML (str "image/png")))
    ∧ fetchURLMetadata id (fun _ => none)
        [.response { StatusCode := 200, ContentType := str "text/html", Body := str "<p>" }]
        (str "https://example.com")
      = ([.fetchURLMetadata (str "https://example.com"), .send (str "https://example.com"),
          .htmlParse (str "<p>")], .error .parseFailed)
    ∧ (fetchURLMetadata id (fun _ => none)
        (List.replicate 5 (.redirect (str "https://example.com")))
        (str "https://example.com")).2
      = .error (.fetchFailed .tooManyRedirects) := by
  refine ⟨?_, ?_, ?_, ?_, ?_⟩ <;> decide

/-- C11 on `GET /client/common/urlInfo?url=https://example.com` when the
page answers 404. -/
theorem graceful_degradation_witness :
    (getRequest "url=https://example.com").Method = MethodGet
    ∧ validateAndNormalizeURL id ((getRequest "url=https://example.com").URL.Query.Get (str "url"))
        = .ok (str "https://example.com")
    ∧ (URLInfoHandler id (fun _ => none) [.response { StatusCode := 404 }] {}
        (getRequest "url=https://example.com")).w.status = 200
    ∧ (URLInfoHandler id (fun _ => none) [.response { StatusCode := 404 }] {}
        (getRequest "url=https://example.com")).w.Body
        = [{ Status := 1, Msg := .text (str "success"),
             Data := some { OgImage := [], Title := [], Description := [], Favicon := [] } }] :=
  ⟨rfl, by decide,
   (graceful_degradation id (fun _ => none) [.response { StatusCode := 404 }]
      (getRequest "url=https://example.com") (str "https://example.com") rfl (by decide)).1
      [.fetchURLMetadata (str "https://example.com"), .send (str "https://example.com")]
      (.statusCode 404) (by decide)⟩

/-! ## The fetchers -/

/-- C12, the code at the redirects of one fetch. At the k-th redirect the
policy is called with the k requests made already; `checkRedirect` returns nil
for k = 1, 2, 3, 4 and `too many redirects` for k = 5 (and k = 6). A page
reached through exactly 5 redirects is not fetched: the fifth redirect is
refused after 5 requests were sent, while a page reached through 4 redirects
is fetched. -/
theorem fifth_redirect_refused :
    (List.range 7).map (fun k => checkRedirect (List.replicate k (str "https://example.com/")))
      = [none, none, none, none, none, some .tooManyRedirects, some .tooManyRedirects]
    ∧ clientDo checkRedirect (str "https://example.com/0") []
        [.redirect (str "https://example.com/1"), .redirect (str "https://example.com/2"),
         .redirect (str "https://example.com/3"), .redirect (str "https://example.com/4"),
         .redirect (str "https://example.com/5"), .response { StatusCode := 200 }]
      = ([.send (str "https://example.com/0"), .send (str "https://example.com/1"),
          .send (str "https://example.com/2"), .send (str "https://example.com/3"),
          .send (str "https://example.com/4")], .error .tooManyRedirects)
    ∧ clientDo checkRedirect (str "https://example.com/0") []
        [.redirect (str "https://example.com/1"), .redirect (str "https://example.com/2"),
         .redirect (str "https://example.com/3"), .redirect (str "https://example.com/4"),
         .response { StatusCode := 200 }]
      = ([.send (str "https://example.com/0"), .send (str "https://example.com/1"),
          .send (str "https://example.com/2"), .send (str "https://example.com/3"),
          .send (str "https://example.com/4")], .ok { StatusCode := 200 }) := by
  refine ⟨?_, ?_, ?_⟩ <;> decide

/-- The calls of `clientDo` are requests sent. -/
theorem clientDo_calls (policy : List GoString → Option ClientError) :
    ∀ (replies : List Reply) (req : GoString) (reqs : List GoString),
      ∀ c ∈ (clientDo policy req reqs replies).1, ∃ u, c = .send u := by
  intro replies
  induction replies with
  | nil => intro req reqs c hc; simp [clientDo] at hc; exact ⟨req, hc⟩
  | cons rp replies ih =>
    intro req reqs c hc
    cases rp with
    | failed => simp [clientDo] at hc; exact ⟨req, hc⟩
    | response resp => simp [clientDo] at hc; exact ⟨req, hc⟩
    | redirect location =>
      unfold clientDo at hc
      cases hp : policy (reqs ++ [req]) with
      | some err => simp [hp] at hc; exact ⟨req, hc⟩
      | none =>
        simp only [hp, List.mem_cons] at hc
        rcases hc with rfl | hc
        · exact ⟨req, rfl⟩
        · exact ih location (reqs ++ [req]) c hc

/-- C18. When `client.Do` returns a response for the request of
`fetchURLMetadata`: if its status code is 200 and its `Content-Type` contains
`text/html` or `application/xhtml`, the body (its first 5 MiB) is handed to
`html.Parse` and the result is what `parseHTMLMetadata` gives on it; in
every other case `fetchURLMetadata` returns an error, which depends on the
status code and the content type only, and `html.Parse` is not called. -/
theorem fetch_gate (lowerMap : GoString → GoString) (htmlParse : GoString → Option Node)
    (replies : List Reply) (targetURL : GoString) (u : URL) (sent : List Call) (resp : Response)
    (hp : Parse lowerMap targetURL = .ok u)
    (hd : clientDo checkRedirect targetURL [] replies = (sent, .ok resp)) :
    ((resp.StatusCode = 200
        ∧ (Contains resp.ContentType (str "text/html") = true
            ∨ Contains resp.ContentType (str "application/xhtml") = true)) →
      (fetchURLMetadata lowerMap htmlParse replies targetURL).1
          = .fetchURLMetadata targetURL :: sent ++ [.htmlParse (resp.Body.take (5 * 1024 * 1024))]
      ∧ (fetchURLMetadata lowerMap htmlParse replies targetURL).2
          = match parseHTMLMetadata lowerMap (htmlParse (resp.Body.take (5 * 1024 * 1024)))
              targetURL with
            | .ok metadata => .metadata metadata
            | .error .htmlParseError => .error .parseFailed
            | .error .nilPointerDereference => .panic)
    ∧ (¬ (resp.StatusCode = 200
        ∧ (Contains resp.ContentType (str "text/html") = true
            ∨ Contains resp.ContentType (str "application/xhtml") = true)) →
      (fetchURLMetadata lowerMap htmlParse replies targetURL).2
          = .error (if resp.StatusCode ≠ 200 then .statusCode resp.StatusCode
                    else .notHTML resp.ContentType)
      ∧ ∀ body, Call.htmlParse body ∉ (fetchURLMetadata lowerMap htmlParse replies targetURL).1) := by
  have hs : ∀ body, Call.htmlParse body ∉ sent := by
    intro body hb
    have := clientDo_calls checkRedirect replies targetURL [] (.htmlParse body) (by rw [hd]; exact hb)
    obtain ⟨u, hu⟩ := this
    cases hu
  constructor
  · rintro ⟨h200, hct⟩
    unfold fetchURLMetadata
    simp only [hp, hd, h200, StatusOK, ne_eq, not_true_eq_false, if_false]
    have hg : ¬ ((!Contains resp.ContentType (str "text/html")) = true
        ∧ (!Contains resp.ContentType (str "application/xhtml")) = true) := by
      rcases hct with h | h <;> simp [h]
    simp only [hg, if_false]
    rcases parseHTMLMetadata lowerMap (htmlParse (List.take (5 * 1024 * 1024) resp.Body))
      targetURL with e | m
    · cases e <;> exact ⟨rfl, rfl⟩
    · exact ⟨rfl, rfl⟩
  · intro hn
    unfold fetchURLMetadata
    simp only [hp, hd, StatusOK]
    by_cases h200 : resp.StatusCode = 200
    · have hg : ((!Contains resp.ContentType (str "text/html")) = true
          ∧ (!Contains resp.ContentType (str "application/xhtml")) = true) := by
        have := fun h => hn ⟨h200, h⟩
        simp only [not_or, Bool.not_eq_true] at this
        simpa using this
      simp only [h200, ne_eq, not_true_eq_false, if_false, hg, and_self, if_true]
      refine ⟨trivial, ?_⟩
      intro body hb
      simp only [List.mem_cons] at hb
      rcases hb with hb | hb
      · cases hb
      · exact hs body hb
    · simp only [h200, ne_eq, not_false_eq_true, if_true]
      refine ⟨trivial, ?_⟩
      intro body hb
      simp only [List.mem_cons] at hb
      rcases hb with hb | hb
      · cases hb
      · exact hs body hb

/-- C18 on the request for `https://example.com`: a 200 response with
`Content-Type: text/html; charset=utf-8` is parsed, a 200 response with
`application/pdf` and a 404 response with `text/html` are not. -/
theorem fetch_gate_witness :
    (fetchURLMetadata id (fun _ => some (documentWithHead [element "title" [] [text "Test Page"]]))
        [.response { StatusCode := 200, ContentType := str "text/html; charset=utf-8",
                     Body := str "<title>Test Page</title>" }]
        (str "https://example.com")).1
      = [.fetchURLMetadata (str "https://example.com"), .send (str "https://example.com"),
         .htmlParse (str "<title>Test Page</title>")]
    ∧ (fetchURLMetadata id (fun _ => some (documentWithHead [element "title" [] [text "Test Page"]]))
        [.response { StatusCode := 200, ContentType := str "application/pdf",
                     Body := str "<title>Test Page</title>" }]
        (str "https://example.com"))
      = ([.fetchURLMetadata (str "https://example.com"), .send (str "https://example.com")],
         .error (.notHTML (str "application/pdf")))
    ∧ (fetchURLMetadata id (fun _ => some (documentWithHead [element "title" [] [text "Test Page"]]))
        [.response { StatusCode := 404, ContentType := str "text/html",
                     Body := str "<title>Test Page</title>" }]
        (str "https://example.com")).2
      = .error (.statusCode 404) :=
  ⟨((fetch_gate id (fun _ => some (documentWithHead [element "title" [] [text "Test Page"]]))
        [.response { StatusCode := 200, ContentType := str "text/html; charset=utf-8",
                     Body := str "<title>Test Page</title>" }]
        (str "https://example.com") { Scheme := str "https", Host := str "example.com" }
        [.send (str "https://example.com")]
        { StatusCode := 200, ContentType := str "text/html; charset=utf-8",
          Body := str "<title>Test Page</title>" }
        (by decide) (by decide)).1 ⟨rfl, Or.inl (by decide)⟩).1.trans (by decide),
   by decide,
   ((fetch_gate id (fun _ => some (documentWithHead [element "title" [] [text "Test Page"]]))
        [.response { StatusCode := 404, ContentType := str "text/html",
                     Body := str "<title>Test Page</title>" }]
        (str "https://example.com") { Scheme := str "https", Host := str "example.com" }
        [.send (str "https://example.com")]
        { StatusCode := 404, ContentType := str "text/html",
          Body := str "<title>Test Page</title>" }
        (by decide) (by decide)).2 (by decide)).1.trans (by decide)⟩

/-! ## The pattern-based handler -/

/-- C17, the code on a request that is not a GET and on a GET without `url`
and `targetUrl`: `SimpleURLInfoHandler` writes the body with `status=0` and no
status code, so the response is HTTP 200 in both cases, where `URLInfoHandler`
answers 405 and 400. -/
theorem simple_handler_answers_200 :
    (SimpleURLInfoHandler id [] {}
        { Method := str "POST", URL := { Path := str "/client/common/urlInfo",
                                         RawQuery := str "url=https://example.com" } }).w
      = { ContentType := str "application/json", Code := some 200,
          Body := [{ status := 0, msg := str "Method not allowed" }] }
    ∧ (SimpleURLInfoHandler id [] {} (getRequest "")).w
      = { ContentType := str "application/json", Code := some 200,
          Body := [{ status := 0, msg := str "targetUrl parameter is required" }] }
    ∧ (URLInfoHandler id (fun _ => none) [] {}
        { Method := str "POST", URL := { Path := str "/client/common/urlInfo",
                                         RawQuery := str "url=https://example.com" } }).w.status
      = 405
    ∧ (URLInfoHandler id (fun _ => none) [] {} (getRequest "")).w.status = 400 := by
  refine ⟨?_, ?_, ?_, ?_⟩ <;> decide

/-- C13, the code on `GET /client/common/urlInfo?targetUrl=http://127.0.0.1/admin`:
`SimpleURLInfoHandler` calls `fetchPage` on the loopback URL, a request is sent
to it, and the response is `status=1` with what the page holds, while
`validateAndNormalizeURL` rejects that URL as a private host. -/
theorem simple_handler_fetches_private_host :
    validateAndNormalizeURL id (str "http://127.0.0.1/admin") = .error .privateHost
    ∧ (getRequest "targetUrl=http://127.0.0.1/admin").URL.Query.Get (str "targetUrl")
        = str "http://127.0.0.1/admin"
    ∧ fetchPage id
        [.response { StatusCode := 200, ContentType := str "text/html",
                     Body := str "<title>Router admin</title>" }]
        (str "http://127.0.0.1/admin")
      = ([.fetchPage (str "http://127.0.0.1/admin"), .send (str "http://127.0.0.1/admin")],
         .ok (str "<title>Router admin</title>"))
    ∧ SimpleURLInfoHandler id
        [.response { StatusCode := 200, ContentType := str "text/html",
                     Body := str "<title>Router admin</title>" }]
        {} (getRequest "targetUrl=http://127.0.0.1/admin")
      = { w := { ContentType := str "application/json", Code := some 200,
                 Body := [{ status := 1, msg := str "success",
                            data := some { OgImage := [], Title := str "Router admin",
                                           Description := [],
                                           Favicon := str "http://127.0.0.1/favicon.ico" } }] },
          calls := [.fetchPage (str "http://127.0.0.1/admin"),
                    .send (str "http://127.0.0.1/admin")],
          panicked := false } := by
  have hq : (getRequest "targetUrl=http://127.0.0.1/admin").URL.Query.Get (str "targetUrl")
      = str "http://127.0.0.1/admin" := by decide
  have hf : fetchPage id
        [.response { StatusCode := 200, ContentType := str "text/html",
                     Body := str "<title>Router admin</title>" }]
        (str "http://127.0.0.1/admin")
      = ([.fetchPage (str "http://127.0.0.1/admin"), .send (str "http://127.0.0.1/admin")],
         .ok (str "<title>Router admin</title>")) := by decide
  have he : extractMetadataRegex id (str "<title>Router admin</title>")
        (str "http://127.0.0.1/admin")
      = { OgImage := [], Title := str "Router admin", Description := [],
          Favicon := str "http://127.0.0.1/favicon.ico" } := by
    set_option maxRecDepth 100000 in decide
  refine ⟨by decide, hq, hf, ?_⟩
  unfold SimpleURLInfoHandler
  have hm : (getRequest "targetUrl=http://127.0.0.1/admin").Method = MethodGet := rfl
  have hne : str "http://127.0.0.1/admin" ≠ [] := by decide
  have h1 : HasPrefix (str "http://127.0.0.1/admin") (str "http://") = true := by decide
  simp only [hq, hm, hne, h1, ne_eq, not_true_eq_false, Bool.not_true, Bool.false_eq_true,
    false_and, if_false, hf, he]
  decide

/-! ## White space only -/

/-- `indexFunc` finds no rune that `f` rejects where `f` accepts every rune. -/
theorem indexFuncLoop_none (f : Nat → Bool) :
    ∀ (fuel i : Nat) (s : GoString), (∀ r ∈ runesLoop fuel s, f r = true) →
      indexFuncLoop f false fuel i s = none := by
  intro fuel
  induction fuel with
  | zero => intro i s _; rfl
  | succ fuel ih =>
    intro i s h
    cases s with
    | nil => rfl
    | cons c s =>
      unfold runesLoop at h
      unfold indexFuncLoop
      simp only [List.mem_cons, forall_eq_or_imp] at h
      simp only [h.1, Bool.true_eq_false, if_false]
      exact ih _ _ h.2

/-- `TrimSpace` leaves nothing of a string of white space. -/
theorem trimSpace_onlyWhitespace (s : GoString) (h0 : onlyWhitespace s = true) :
    TrimSpace s = [] := by
  have h : ∀ r ∈ runes s, IsSpace r = true := List.all_eq_true.mp h0
  clear h0
  induction s with
  | nil => rfl
  | cons c s ih =>
    unfold TrimSpace
    by_cases hc : c ≥ RuneSelf
    · simp only [hc, if_true]
      have hi : indexFunc (c :: s) IsSpace false = none :=
        indexFuncLoop_none IsSpace _ 0 _ h
      simp [TrimFunc, TrimLeftFunc, hi, TrimRightFunc, lastIndexFunc, lastIndexFuncLoop]
    · simp only [hc, if_false]
      have hlt : c < 0x80 := by simpa [RuneSelf] using hc
      have hr : runes (c :: s) = c :: runes s := by
        simp [runes, runesLoop, decodeRune_ascii c s hlt]
      have hsp : IsSpace c = true := h c (by rw [hr]; exact List.mem_cons_self _ _)
      have hasc : asciiSpace c = true := by
        unfold IsSpace at hsp
        unfold asciiSpace
        have : c ≤ 0xFF := by omega
        simp only [this, if_true] at hsp
        simp only [Bool.or_eq_true, beq_iff_eq] at hsp ⊢
        omega
      simp only [hasc, if_true]
      exact ih (fun r hr2 => h r (by rw [hr]; exact List.mem_cons_of_mem _ hr2))

/-- C19. Every input that is empty or consists only of white space (every
rune of it is white space for `unicode.IsSpace`) is rejected with the error
`URL cannot be empty`: the check follows the trimming and comes before
`https://` is prepended, so the input is never parsed as a URL. -/
theorem empty_input_rejected (lowerMap : GoString → GoString) (s : GoString)
    (h : onlyWhitespace s = true) :
    TrimSpace s = [] ∧ validateAndNormalizeURL lowerMap s = .error .emptyURL := by
  have ht := trimSpace_onlyWhitespace s h
  refine ⟨ht, ?_⟩
  unfold validateAndNormalizeURL
  simp only [ht, if_true]

/-- C19 on the empty input of `TestValidateAndNormalizeURL` and on the input
made of a space, a tab, U+00A0, U+3000 and a line feed. -/
theorem empty_input_rejected_witness :
    (onlyWhitespace [] = true ∧ validateAndNormalizeURL id [] = .error .emptyURL)
    ∧ runes [0x20, 0x09, 0xC2, 0xA0, 0xE3, 0x80, 0x80, 0x0A] = [0x20, 0x09, 0xA0, 0x3000, 0x0A]
    ∧ onlyWhitespace [0x20, 0x09, 0xC2, 0xA0, 0xE3, 0x80, 0x80, 0x0A] = true
    ∧ validateAndNormalizeURL id [0x20, 0x09, 0xC2, 0xA0, 0xE3, 0x80, 0x80, 0x0A]
        = .error .emptyURL :=
  ⟨⟨by decide, (empty_input_rejected id [] (by decide)).2⟩, by decide, by decide,
   (empty_input_rejected id [0x20, 0x09, 0xC2, 0xA0, 0xE3, 0x80, 0x80, 0x0A] (by decide)).2⟩

/-! ## First match wins -/

/-- A step that fills at most one empty field of the metadata, chosen by the
first of four conditions that holds, leaves every field that is set, and the
favicon, as it is. -/
theorem fill_keeps (m m1 : URLMetadata) (content : GoString) (c1 c2 c3 c4 : Prop)
    [Decidable c1] [Decidable c2] [Decidable c3] [Decidable c4]
    (h : m1 =
      if c1 then (if m.OgImage = [] then { m with OgImage := content } else m)
      else if c2 then (if m.Title = [] then { m with Title := content } else m)
      else if c3 then (if m.Description = [] then { m with Description := content } else m)
      else if c4 then (if m.Description = [] then { m with Description := content } else m)
      else m) :
    (m.OgImage ≠ [] → m1.OgImage = m.OgImage)
    ∧ (m.Title ≠ [] → m1.Title = m.Title)
    ∧ (m.Description ≠ [] → m1.Description = m.Description)
    ∧ m1.Favicon = m.Favicon := by
  subst h
  refine ⟨?_, ?_, ?_, ?_⟩
  · intro h
    split_ifs <;> simp_all
  · intro h
    split_ifs <;> simp_all
  · intro h
    split_ifs <;> simp_all
  · split_ifs <;> rfl

/-- What `handleMetaTag` leaves as it is: a field that is set, and the favicon. -/
theorem handleMetaTag_keeps (lm : GoString → GoString) (n : Node) (m : URLMetadata) :
    (m.OgImage ≠ [] → (handleMetaTag lm n m).OgImage = m.OgImage)
    ∧ (m.Title ≠ [] → (handleMetaTag lm n m).Title = m.Title)
    ∧ (m.Description ≠ [] → (handleMetaTag lm n m).Description = m.Description)
    ∧ (handleMetaTag lm n m).Favicon = m.Favicon := by
  obtain ⟨m1, hm1⟩ : ∃ m1 : URLMetadata, m1 =
      if (metaAttrs lm n.Attr).1 = str "og:image" then
        (if m.OgImage = [] then { m with OgImage := (metaAttrs lm n.Attr).2.2 } else m)
      else if (metaAttrs lm n.Attr).1 = str "og:title" then
        (if m.Title = [] then { m with Title := (metaAttrs lm n.Attr).2.2 } else m)
      else if (metaAttrs lm n.Attr).1 = str "og:description" then
        (if m.Description = [] then { m with Description := (metaAttrs lm n.Attr).2.2 } else m)
      else if False then
        (if m.Description = [] then { m with Description := (metaAttrs lm n.Attr).2.2 } else m)
      else m := ⟨_, rfl⟩
  have h1 := fill_keeps m m1 _ _ _ _ _ hm1
  have h2 := fill_keeps m1 (handleMetaTag lm n m) (metaAttrs lm n.Attr).2.2
    ((metaAttrs lm n.Attr).2.1 = str "twitter:image")
    ((metaAttrs lm n.Attr).2.1 = str "twitter:title")
    ((metaAttrs lm n.Attr).2.1 = str "twitter:description")
    ((metaAttrs lm n.Attr).2.1 = str "description")
    (by
      rw [hm1]
      unfold handleMetaTag
      simp only [if_false])
  refine ⟨fun h => ?_, fun h => ?_, fun h => ?_, ?_⟩
  · rw [h2.1 (by rw [h1.1 h]; exact h), h1.1 h]
  · rw [h2.2.1 (by rw [h1.2.1 h]; exact h), h1.2.1 h]
  · rw [h2.2.2.1 (by rw [h1.2.2.1 h]; exact h), h1.2.2.1 h]
  · rw [h2.2.2.2, h1.2.2.2]

/-- What `handleLinkTag` leaves as it is: the three other fields, and a
favicon that is set. -/
theorem handleLinkTag_keeps (lm : GoString → GoString) (n : Node) (m : URLMetadata)
    (b : Option URL) :
    (handleLinkTag lm n m b).OgImage = m.OgImage
    ∧ (handleLinkTag lm n m b).Title = m.Title
    ∧ (handleLinkTag lm n m b).Description = m.Description
    ∧ (m.Favicon ≠ [] → (handleLinkTag lm n m b).Favicon = m.Favicon) := by
  unfold handleLinkTag
  generalize linkAttrs lm n.Attr = a
  obtain ⟨rel, href⟩ := a
  generalize Contains rel (str "icon") = k
  simp only
  refine ⟨?_, ?_, ?_, ?_⟩
  · split_ifs <;> rfl
  · split_ifs <;> rfl
  · split_ifs <;> rfl
  · intro h
    split_ifs <;> simp_all

/-- A field of the metadata that is set stays as it is when a node is visited. -/
theorem visit_keeps (lm : GoString → GoString) (b : Option URL) (n : Node)
    (st : TraverseState) :
    (st.metadata.OgImage ≠ [] → (visit lm b n st).metadata.OgImage = st.metadata.OgImage)
    ∧ (st.metadata.Title ≠ [] → (visit lm b n st).metadata.Title = st.metadata.Title)
    ∧ (st.metadata.Description ≠ []
        → (visit lm b n st).metadata.Description = st.metadata.Description)
    ∧ (st.metadata.Favicon ≠ [] → (visit lm b n st).metadata.Favicon = st.metadata.Favicon) := by
  have hm := handleMetaTag_keeps lm n st.metadata
  have hl := handleLinkTag_keeps lm n st.metadata b
  unfold visit
  split_ifs
  · exact ⟨hm.1, hm.2.1, hm.2.2.1, fun _ => hm.2.2.2⟩
  · cases n.FirstChild <;> exact ⟨fun _ => rfl, fun _ => rfl, fun _ => rfl, fun _ => rfl⟩
  · exact ⟨fun _ => hl.1, fun _ => hl.2.1, fun _ => hl.2.2.1, hl.2.2.2⟩
  · exact ⟨fun _ => rfl, fun _ => rfl, fun _ => rfl, fun _ => rfl⟩
  · exact ⟨fun _ => rfl, fun _ => rfl, fun _ => rfl, fun _ => rfl⟩

/-- A field that is set stays as it is over any sequence of visited nodes. -/
theorem foldl_visit_keeps (lm : GoString → GoString) (b : Option URL) (ns : List Node) :
    ∀ st : TraverseState,
      (st.metadata.OgImage ≠ []
        → (ns.foldl (fun s m => visit lm b m s) st).metadata.OgImage = st.metadata.OgImage)
      ∧ (st.metadata.Title ≠ []
        → (ns.foldl (fun s m => visit lm b m s) st).metadata.Title = st.metadata.Title)
      ∧ (st.metadata.Description ≠ []
        → (ns.foldl (fun s m => visit lm b m s) st).metadata.Description
            = st.metadata.Description)
      ∧ (st.metadata.Favicon ≠ []
        → (ns.foldl (fun s m => visit lm b m s) st).metadata.Favicon = st.metadata.Favicon) := by
  induction ns with
  | nil => intro st; exact ⟨fun _ => rfl, fun _ => rfl, fun _ => rfl, fun _ => rfl⟩
  | cons n ns ih =>
    intro st
    have hv := visit_keeps lm b n st
    have hi := ih (visit lm b n st)
    rw [List.foldl_cons]
    refine ⟨fun h => ?_, fun h => ?_, fun h => ?_, fun h => ?_⟩
    · rw [hi.1 (by rw [hv.1 h]; exact h), hv.1 h]
    · rw [hi.2.1 (by rw [hv.2.1 h]; exact h), hv.2.1 h]
    · rw [hi.2.2.1 (by rw [hv.2.2.1 h]; exact h), hv.2.2.1 h]
    · rw [hi.2.2.2 (by rw [hv.2.2.2 h]; exact h), hv.2.2.2 h]

/-- C20. For every node `n` and every metadata `m`: `handleMetaTag(n, m)`
leaves each of `OgImage`, `Title`, `Description` that is non-empty in `m` as
it is, and leaves `Favicon` as it is; `handleLinkTag(n, m, base)` leaves
`OgImage`, `Title` and `Description` as they are, and `Favicon` when it is
non-empty. Hence a field that is non-empty at some point of the traversal
has the same value at its end, whatever nodes follow. -/
theorem first_match_wins (lowerMap : GoString → GoString) :
    (∀ (n : Node) (m : URLMetadata),
      (m.OgImage ≠ [] → (handleMetaTag lowerMap n m).OgImage = m.OgImage)
      ∧ (m.Title ≠ [] → (handleMetaTag lowerMap n m).Title = m.Title)
      ∧ (m.Description ≠ [] → (handleMetaTag lowerMap n m).Description = m.Description)
      ∧ (handleMetaTag lowerMap n m).Favicon = m.Favicon)
    ∧ (∀ (n : Node) (m : URLMetadata) (base : Option URL),
      (handleLinkTag lowerMap n m base).OgImage = m.OgImage
      ∧ (handleLinkTag lowerMap n m base).Title = m.Title
      ∧ (handleLinkTag lowerMap n m base).Description = m.Description
      ∧ (m.Favicon ≠ [] → (handleLinkTag lowerMap n m base).Favicon = m.Favicon))
    ∧ (∀ (base : Option URL) (doc : Node) (st : TraverseState),
      (st.metadata.OgImage ≠ []
        → (traverse lowerMap base doc st).metadata.OgImage = st.metadata.OgImage)
      ∧ (st.metadata.Title ≠ []
        → (traverse lowerMap base doc st).metadata.Title = st.metadata.Title)
      ∧ (st.metadata.Description ≠ []
        → (traverse lowerMap base doc st).metadata.Description = st.metadata.Description)
      ∧ (st.metadata.Favicon ≠ []
        → (traverse lowerMap base doc st).metadata.Favicon = st.metadata.Favicon)) := by
  refine ⟨handleMetaTag_keeps lowerMap, handleLinkTag_keeps lowerMap, ?_⟩
  intro base doc st
  rw [traverse_eq_foldl]
  exact foldl_visit_keeps lowerMap base doc.preorder st

/-- C20 on a head with two `og:image`, two `og:title`, a `twitter:description`
after an `og:description`, and two icon links, traversed from a state in which
the four fields are set. -/
theorem first_match_wins_witness :
    (handleMetaTag id (element "meta" [("property", "og:image"), ("content", "/b.png")] [])
        { OgImage := str "/a.png" }).OgImage = str "/a.png"
    ∧ (handleLinkTag id (element "link" [("rel", "icon"), ("href", "/b.ico")] [])
        { Favicon := str "/a.ico" } none).Favicon = str "/a.ico"
    ∧ (traverse id none
        (documentWithHead
          [element "meta" [("property", "og:image"), ("content", "/b.png")] [],
           element "meta" [("property", "og:title"), ("content", "B")] [],
           element "meta" [("name", "twitter:description"), ("content", "b")] [],
           element "link" [("rel", "icon"), ("href", "/b.ico")] []])
        ⟨{ OgImage := str "/a.png", Title := str "A", Description := str "a",
           Favicon := str "/a.ico" }, []⟩).metadata
      = { OgImage := str "/a.png", Title := str "A", Description := str "a",
          Favicon := str "/a.ico" } :=
  ⟨((first_match_wins id).1
      (element "meta" [("property", "og:image"), ("content", "/b.png")] [])
      { OgImage := str "/a.png" }).1 (by decide),
   ((first_match_wins id).2.1
      (element "link" [("rel", "icon"), ("href", "/b.ico")] [])
      { Favicon := str "/a.ico" } none).2.2.2 (by decide),
   by decide⟩

/-! ## The private-host check, from the match to the host name -/

/-- The first bytes that `utf8.first` gives each length and range. -/
theorem first_range (b : Nat) :
    (first b = 0x02 → 0xC2 ≤ b ∧ b < 0xE0) ∧ (first b = 0x13 → b = 0xE0)
    ∧ (first b = 0x23 → b = 0xED) ∧ (first b = 0x03 → 0xE1 ≤ b ∧ b < 0xF0)
    ∧ (first b = 0x34 → b = 0xF0) ∧ (first b = 0x04 → 0xF1 ≤ b ∧ b < 0xF4)
    ∧ (first b = 0x44 → b = 0xF4) := by
  unfold first
  split_ifs <;> simp <;> omega

/-- A rune below `utf8.RuneSelf` is decoded from a byte below it. -/
theorem decodeRune_lt_runeSelf (b : Nat) (t : GoString)
    (h : (DecodeRuneInString (b :: t)).1 < 0x80) : b < 0x80 := by
  by_contra hb
  have hb : 0x80 ≤ b := by omega
  obtain ⟨r1, r2, r3, r4, r5, r6, r7⟩ := first_range b
  rcases first_cases b with ⟨h1, h2⟩ | ⟨h1, h2⟩ | ⟨h1, h3⟩
  · omega
  · simp [DecodeRuneInString, h2, RuneError] at h
  · rcases h3 with h3 | h3 | h3 | h3 | h3 | h3 | h3
    · have := r1 h3
      rcases t with _ | ⟨s1, _ | ⟨s2, _ | ⟨s3, t3⟩⟩⟩
      all_goals simp only [DecodeRuneInString, h3, acceptRanges, List.length_cons,
        List.length_nil, RuneError] at h
      all_goals norm_num at h
      all_goals (try (split_ifs at h <;> simp at h <;> omega))
    · have := r2 h3
      rcases t with _ | ⟨s1, _ | ⟨s2, _ | ⟨s3, t3⟩⟩⟩
      all_goals simp only [DecodeRuneInString, h3, acceptRanges, List.length_cons,
        List.length_nil, RuneError] at h
      all_goals norm_num at h
      all_goals (try (split_ifs at h <;> simp at h <;> omega))
    · have := r3 h3
      rcases t with _ | ⟨s1, _ | ⟨s2, _ | ⟨s3, t3⟩⟩⟩
      all_goals simp only [DecodeRuneInString, h3, acceptRanges, List.length_cons,
        List.length_nil, RuneError] at h
      all_goals norm_num at h
      all_goals (try (split_ifs at h <;> simp at h <;> omega))
    · have := r4 h3
      rcases t with _ | ⟨s1, _ | ⟨s2, _ | ⟨s3, t3⟩⟩⟩
      all_goals simp only [DecodeRuneInString, h3, acceptRanges, List.length_cons,
        List.length_nil, RuneError] at h
      all_goals norm_num at h
      all_goals (try (split_ifs at h <;> simp at h <;> omega))
    · have := r5 h3
      rcases t with _ | ⟨s1, _ | ⟨s2, _ | ⟨s3, t3⟩⟩⟩
      all_goals simp only [DecodeRuneInString, h3, acceptRanges, List.length_cons,
        List.length_nil, RuneError] at h
      all_goals norm_num at h
      all_goals (try (split_ifs at h <;> simp at h <;> omega))
    · have := r6 h3
      rcases t with _ | ⟨s1, _ | ⟨s2, _ | ⟨s3, t3⟩⟩⟩
      all_goals simp only [DecodeRuneInString, h3, acceptRanges, List.length_cons,
        List.length_nil, RuneError] at h
      all_goals norm_num at h
      all_goals (try (split_ifs at h <;> simp at h <;> omega))
    · have := r7 h3
      rcases t with _ | ⟨s1, _ | ⟨s2, _ | ⟨s3, t3⟩⟩⟩
      all_goals simp only [DecodeRuneInString, h3, acceptRanges, List.length_cons,
        List.length_nil, RuneError] at h
      all_goals norm_num at h
      all_goals (try (split_ifs at h <;> simp at h <;> omega))

/-- A step over a class of runes below `utf8.RuneSelf` consumes one byte of
the class. -/
theorem stepRune_ascii (c : RuneSet) (hc : ∀ r, c.has r = true → r < 0x80) (st st1 : MState)
    (h : stepRune c st = some st1) :
    ∃ d t, c.has d = true ∧ st.rest = d :: t ∧ st1 = ⟨st.pos + 1, t, st.caps⟩ := by
  unfold stepRune at h
  rcases hr : st.rest with _ | ⟨b, t⟩
  · simp [hr] at h
  · simp only [hr] at h
    by_cases hh : c.has (DecodeRuneInString (b :: t)).1 = true
    · have hb := decodeRune_lt_runeSelf b t (hc _ hh)
      rw [decodeRune_ascii b t hb] at h hh
      simp only [hh, if_true, Option.some.injEq, List.drop_succ_cons, List.drop_zero] at h
      exact ⟨b, t, hh, rfl, h.symm⟩
    · simp [hh] at h

theorem run_rune_ascii (c : RuneSet) (hc : ∀ r, c.has r = true → r < 0x80) (st : MState)
    (k : MState → Option MState) (r : MState) (h : (Regex.rune c).run st k = some r) :
    ∃ d t, c.has d = true ∧ st.rest = d :: t ∧ k ⟨st.pos + 1, t, st.caps⟩ = some r := by
  unfold Regex.run at h
  rcases hs : stepRune c st with _ | st1
  · simp [hs] at h
  · obtain ⟨d, t, hd, hrest, rfl⟩ := stepRune_ascii c hc st st1 hs
    simp only [hs, Option.bind] at h
    exact ⟨d, t, hd, hrest, h⟩

theorem lit_has (c : Char) (r : Nat) :
    (RuneSet.mk false [(c.toNat, c.toNat)]).has r = true ↔ r = c.toNat := by
  simp [RuneSet.has]
  omega

/-- A literal text matches where the input goes on with its bytes. -/
theorem run_text (cs : List Char) (hcs : ∀ c ∈ cs, c.toNat < 0x80) :
    ∀ (st : MState) (k : MState → Option MState) (r : MState),
      (Regex.seq (cs.map Regex.lit)).run st k = some r →
      ∃ t, st.rest = cs.map Char.toNat ++ t
        ∧ k ⟨st.pos + cs.length, t, st.caps⟩ = some r := by
  induction cs with
  | nil =>
    intro st k r h
    exact ⟨st.rest, rfl, by simpa [Regex.seq, Regex.run] using h⟩
  | cons c cs ih =>
    intro st k r h
    have hc : ∀ x, (RuneSet.mk false [(c.toNat, c.toNat)]).has x = true → x < 0x80 := by
      intro x hx
      rw [lit_has] at hx
      rw [hx]
      exact hcs c (List.mem_cons_self _ _)
    rcases cs with _ | ⟨c2, cs⟩
    · simp only [List.map, Regex.seq, Regex.lit] at h
      obtain ⟨d, t, hd, hrest, hk⟩ := run_rune_ascii _ hc st k r h
      rw [lit_has] at hd
      exact ⟨t, by simp [hrest, hd], by simpa using hk⟩
    · simp only [List.map, Regex.seq] at h
      rw [Regex.run] at h
      simp only [Regex.lit] at h
      obtain ⟨d, t, hd, hrest, hk⟩ := run_rune_ascii _ hc st _ r h
      rw [lit_has] at hd
      obtain ⟨t2, hrest2, hk2⟩ := ih (fun x hx => hcs x (List.mem_cons_of_mem _ hx)) _ k r hk
      refine ⟨t2, ?_, ?_⟩
      · simp only at hrest2
        simp [hrest, hd, hrest2]
      · simp only at hk2
        rw [← hk2]
        congr 2
        simp only [List.length_cons]
        omega

/-- A pattern that starts with `^` matches at the start of the input or
nowhere. -/
theorem findLoop_bol (X : Regex) (g : Nat) :
    ∀ (fuel pos : Nat) (rest : GoString), 0 < pos →
      findLoop (.cat .bol X) g fuel pos rest = none := by
  intro fuel
  induction fuel with
  | zero =>
    intro pos rest hp
    have : pos ≠ 0 := by omega
    simp [findLoop, Regex.run, this]
  | succ fuel ih =>
    intro pos rest hp
    have : pos ≠ 0 := by omega
    rcases rest with _ | ⟨b, t⟩
    · simp [findLoop, Regex.run, this]
    · simp only [findLoop, Regex.run, this, if_false]
      exact ih _ _ (by omega)

theorem matchString_bol (X : Regex) (g : Nat) (h : GoString)
    (hm : (Regexp.mk (.cat .bol X) g).MatchString h = true) :
    ∃ r, X.run ⟨0, h, List.replicate (g + 1) none⟩ some = some r := by
  unfold Regexp.MatchString at hm
  rcases hr : X.run ⟨0, h, List.replicate (g + 1) none⟩ some with _ | r
  · exfalso
    rcases h with _ | ⟨b, t⟩
    · simp [findLoop, Regex.run, hr] at hm
    · simp only [List.length_cons, findLoop, Regex.run, if_true, hr, Nat.zero_add] at hm
      rw [findLoop_bol X g _ _ _ (decodeRune_spec b t).1] at hm
      simp at hm
  · exact ⟨r, rfl⟩

/-- A host name that one of the four patterns matches starts with the text
of the pattern. -/
theorem blocked_of_pattern (h : GoString) (p : Regexp) (hp : p ∈ privatePatterns)
    (hm : p.MatchString h = true) : BlockedHostname h := by
  have hdigit : ∀ lo hi : Nat, hi < 0x80 →
      ∀ r, (RuneSet.mk false [(lo, hi)]).has r = true → r < 0x80 := by
    intro lo hi hhi r hr
    simp [RuneSet.has] at hr
    omega
  simp only [privatePatterns, List.mem_cons, List.mem_singleton, List.not_mem_nil, or_false] at hp
  rcases hp with rfl | rfl | rfl | rfl
  · obtain ⟨r, hr⟩ := matchString_bol _ _ h hm
    obtain ⟨t, ht, -⟩ := run_text "10.".toList (by decide) _ _ r hr
    exact Or.inr (Or.inr (Or.inr (Or.inr (Or.inl ⟨t, ht⟩))))
  · simp only [Regex.seq] at hm
    obtain ⟨r, hr⟩ := matchString_bol _ _ h hm
    rw [Regex.run] at hr
    obtain ⟨t, ht, hr⟩ := run_text "172.".toList (by decide) _ _ r hr
    simp only at ht
    rw [Regex.run, Regex.run, Regex.run] at hr
    have fin : ∀ (a d : Nat) (t1 : GoString),
        ((a = 49 ∧ 54 ≤ d ∧ d ≤ 57) ∨ (a = 50 ∧ 48 ≤ d ∧ d ≤ 57) ∨ (a = 51 ∧ 48 ≤ d ∧ d ≤ 49)) →
        t = a :: d :: byte '.' :: t1 → BlockedHostname h := by
      intro a d t1 hd ht1
      refine Or.inr (Or.inr (Or.inr (Or.inr (Or.inr (Or.inr (Or.inr
        ⟨(a - 48) * 10 + (d - 48), t1, by omega, by omega, ?_⟩))))))
      rw [decimal_two _ (by omega) (by omega), ht, ht1]
      have e1 : 48 + ((a - 48) * 10 + (d - 48)) / 10 = a := by omega
      have e2 : 48 + ((a - 48) * 10 + (d - 48)) % 10 = d := by omega
      rw [e1, e2]
      simp [str, utf8Bytes, byte]
    have step : ∀ (c : Char) (lo hi : Nat) (st : MState) (f : MState → MState) (r1 : MState),
        (Regex.cat (Regex.lit c) (Regex.rune ⟨false, [(lo, hi)]⟩)).run st
            (fun st1 => (Regex.lit '.').run (f st1) some) = some r1 →
        c.toNat < 0x80 → hi < 0x80 → (∀ s, (f s).rest = s.rest) →
        ∃ d t1, lo ≤ d ∧ d ≤ hi ∧ st.rest = c.toNat :: d :: byte '.' :: t1 := by
      intro c lo hi st f r1 hrun hc hhi hf
      rw [Regex.run] at hrun
      simp only [Regex.lit] at hrun
      obtain ⟨a, ta, ha, hta, hrun⟩ := run_rune_ascii _
        (by intro x hx; rw [lit_has] at hx; omega) _ _ r1 hrun
      rw [lit_has] at ha
      obtain ⟨d, td, hd, htd, hrun⟩ := run_rune_ascii _ (hdigit lo hi hhi) _ _ r1 hrun
      obtain ⟨e, te, he, hte, -⟩ := run_rune_ascii _
        (by intro x hx; rw [lit_has] at hx; rw [hx]; decide) _ _ r1 hrun
      rw [lit_has] at he
      rw [hf] at hte
      simp only at hta htd hte
      simp [RuneSet.has] at hd
      exact ⟨d, te, hd.1, hd.2, by rw [hta, ha, htd, hte, he]⟩
    split at hr
    · rename_i r1 hr1
      obtain ⟨d, t1, h1, h2, ht1⟩ := step '1' (byte '6') (byte '9') _ _ r1 hr1 (by decide) (by decide) (fun s => rfl)
      exact fin _ d t1 (Or.inl ⟨rfl, by simpa [byte] using h1, by simpa [byte] using h2⟩) ht1
    · rw [Regex.run] at hr
      split at hr
      · rename_i r1 hr1
        obtain ⟨d, t1, h1, h2, ht1⟩ := step '2' (byte '0') (byte '9') _ _ r1 hr1 (by decide) (by decide) (fun s => rfl)
        exact fin _ d t1
          (Or.inr (Or.inl ⟨rfl, by simpa [byte] using h1, by simpa [byte] using h2⟩)) ht1
      · obtain ⟨d, t1, h1, h2, ht1⟩ := step '3' (byte '0') (byte '1') _ _ r hr (by decide) (by decide) (fun s => rfl)
        exact fin _ d t1
          (Or.inr (Or.inr ⟨rfl, by simpa [byte] using h1, by simpa [byte] using h2⟩)) ht1
  · obtain ⟨r, hr⟩ := matchString_bol _ _ h hm
    obtain ⟨t, ht, -⟩ := run_text "192.168.".toList (by decide) _ _ r hr
    exact Or.inr (Or.inr (Or.inr (Or.inr (Or.inr (Or.inl ⟨t, ht⟩)))))
  · obtain ⟨r, hr⟩ := matchString_bol _ _ h hm
    obtain ⟨t, ht, -⟩ := run_text "169.254.".toList (by decide) _ _ r hr
    exact Or.inr (Or.inr (Or.inr (Or.inr (Or.inr (Or.inr (Or.inl ⟨t, ht⟩))))))

/-- A host name that `isPrivateHost` rejects is one of the four names of the
list or starts with the text of one of the patterns. -/
theorem blocked_of_isPrivateHost (h : GoString) (hp : isPrivateHost h = true) :
    BlockedHostname h := by
  unfold isPrivateHost at hp
  by_cases h1 : (privateHosts.any fun ph => h == ph) = true
  · simp [privateHosts] at h1
    rcases h1 with h1 | h1 | h1 | h1
    · exact Or.inl h1
    · exact Or.inr (Or.inl h1)
    · exact Or.inr (Or.inr (Or.inl h1))
    · exact Or.inr (Or.inr (Or.inr (Or.inl h1)))
  · simp only [h1, Bool.false_eq_true, if_false] at hp
    by_cases h2 : (privatePatterns.any fun pattern => pattern.MatchString h) = true
    · obtain ⟨p, hpm, hm⟩ := List.any_eq_true.mp h2
      exact blocked_of_pattern h p hpm hm
    · simp [h2] at hp

theorem splitByte_flatMap (sep : Nat) (s : GoString) :
    (splitByte sep s).flatMap (fun e => sep :: e) = sep :: s := by
  induction s with
  | nil => rfl
  | cons c s ih =>
    unfold splitByte
    by_cases hc : c = sep
    · simp only [hc, if_true, List.flatMap_cons, ih]
      rfl
    · simp only [hc, if_false]
      cases hp : splitByte sep s with
      | nil => simp [hp] at ih
      | cons e es =>
        rw [hp] at ih
        simp only [List.flatMap_cons, List.cons_append, List.cons.injEq, true_and] at ih ⊢
        rw [ih]

theorem isDecimalIn_spec (lo hi : Nat) (p : GoString) (h : isDecimalIn lo hi p = true) :
    ∃ n, lo ≤ n ∧ n ≤ hi ∧ p = decimal n := by
  unfold isDecimalIn at h
  obtain ⟨i, hi1, hi2⟩ := List.any_eq_true.mp h
  rw [List.mem_range] at hi1
  exact ⟨lo + i, by omega, by omega, by simpa using hi2⟩

/-- An address of one of the four private forms starts with the text of one
of the patterns. -/
theorem blocked_of_privateAddress (h : GoString) (hp : privateAddress h = true) :
    BlockedHostname h := by
  unfold privateAddress at hp
  have hj := splitByte_flatMap (byte '.') h
  rcases hs : splitByte (byte '.') h with _ | ⟨a, _ | ⟨b, _ | ⟨c, _ | ⟨d, _ | ⟨e, l⟩⟩⟩⟩⟩
  all_goals (rw [hs] at hp)
  all_goals (try (simp only [Bool.false_eq_true] at hp))
  rw [hs] at hj
  simp only [List.flatMap_cons, List.flatMap_nil, List.append_nil, List.cons_append,
    List.cons.injEq, true_and] at hj
  simp only [Bool.and_eq_true, Bool.or_eq_true, beq_iff_eq] at hp
  obtain ⟨-, hp⟩ := hp
  rcases hp with ((⟨ha, -⟩ | ⟨ha, hb⟩) | ⟨ha, hb⟩) | ⟨ha, hb⟩
  · refine Or.inr (Or.inr (Or.inr (Or.inr (Or.inl ⟨b ++ byte '.' :: (c ++ byte '.' :: d), ?_⟩))))
    rw [← hj, ha]
    simp [str, utf8Bytes, byte]
  · obtain ⟨N, h1, h2, hN⟩ := isDecimalIn_spec _ _ _ hb
    refine Or.inr (Or.inr (Or.inr (Or.inr (Or.inr (Or.inr (Or.inr
      ⟨N, c ++ byte '.' :: d, h1, h2, ?_⟩))))))
    rw [← hj, ha, hN]
    simp [str, utf8Bytes, byte]
  · refine Or.inr (Or.inr (Or.inr (Or.inr (Or.inr (Or.inl ⟨c ++ byte '.' :: d, ?_⟩)))))
    rw [← hj, ha, hb]
    simp [str, utf8Bytes, byte]
  · refine Or.inr (Or.inr (Or.inr (Or.inr (Or.inr (Or.inr (Or.inl ⟨c ++ byte '.' :: d, ?_⟩))))))
    rw [← hj, ha, hb]
    simp [str, utf8Bytes, byte]

/-- C24, the claim as stated fails. The host name `10.example.com` is none
of the four names of the list and no address of the form `10.x.x.x`,
`172.16.x.x` to `172.31.x.x`, `192.168.x.x` or `169.254.x.x`, and
`isPrivateHost` is true of it: the pattern `^10\.` matches its start. -/
theorem private_host_check_counterexample :
    str "10.example.com" ∉ privateHosts
    ∧ privateAddress (str "10.example.com") = false
    ∧ isPrivateHost (str "10.example.com") = true := by
  refine ⟨?_, ?_, ?_⟩ <;> decide

/-- C24, amended. For every host name `h`, `isPrivateHost(h)` is true if and
only if `h` is exactly one of `localhost`, `127.0.0.1`, `0.0.0.0`, `::1`, or
`h` starts with `10.`, `192.168.`, `169.254.` or `172.N.` for a decimal `N`
from 16 to 31. So every address of the form `10.x.x.x`, `172.16.x.x` to
`172.31.x.x`, `192.168.x.x` or `169.254.x.x` is rejected, and every host name
that is none of the four names and has none of these starts is accepted. -/
theorem private_host_characterised (h : GoString) :
    (isPrivateHost h = true ↔ BlockedHostname h)
    ∧ (privateAddress h = true → isPrivateHost h = true)
    ∧ (¬ BlockedHostname h → isPrivateHost h = false) := by
  refine ⟨⟨blocked_of_isPrivateHost h, isPrivateHost_of_blocked h⟩,
    fun hp => isPrivateHost_of_blocked h (blocked_of_privateAddress h hp), ?_⟩
  intro hn
  cases hh : isPrivateHost h
  · rfl
  · exact absurd (blocked_of_isPrivateHost h hh) hn

/-- C24 on the address `172.20.1.5` and on the name `example.com`. -/
theorem private_host_characterised_witness :
    privateAddress (str "172.20.1.5") = true
    ∧ isPrivateHost (str "172.20.1.5") = true
    ∧ ¬ BlockedHostname (str "example.com")
    ∧ isPrivateHost (str "example.com") = false :=
  ⟨by decide, (private_host_characterised (str "172.20.1.5")).2.1 (by decide),
   fun hb => absurd (((private_host_characterised (str "example.com")).1).2 hb) (by decide),
   by decide⟩

/-! ## The favicon of the structural strategy -/

/-- The favicon after a node is visited: the `href` of an icon link when no
favicon was set, the old favicon otherwise. -/
theorem visit_Favicon (lm : GoString → GoString) (b : Option URL) (n : Node)
    (st : TraverseState) :
    (visit lm b n st).metadata.Favicon
      = if st.metadata.Favicon = [] ∧ isIconLink lm n = true then linkHref lm n
        else st.metadata.Favicon := by
  have hm := (handleMetaTag_keeps lm n st.metadata).2.2.2
  obtain ⟨d1, d2, d3⟩ : str "title" ≠ str "meta" ∧ str "link" ≠ str "meta"
      ∧ str "link" ≠ str "title" := by decide
  unfold visit isIconLink relHasIcon Node.isElement linkRel linkHref
  by_cases h1 : n.nodeType = .ElementNode
  · by_cases h2 : n.Data = str "meta"
    · simp [h1, h2, hm, d2.symm]
    · by_cases h3 : n.Data = str "title"
      · simp only [h1, h3, d1, if_true, if_false]
        cases n.FirstChild <;> simp [d3.symm]
      · by_cases h4 : n.Data = str "link"
        · simp only [h1, h4, d2, d3, if_true, if_false, handleLinkTag]
          generalize linkAttrs lm n.Attr = a
          obtain ⟨rel, href⟩ := a
          by_cases c1 : Contains rel (str "icon") = true <;> by_cases c2 : href = [] <;>
            by_cases c3 : st.metadata.Favicon = [] <;> simp [c1, c2, c3]
        · simp [h1, h2, h3, h4]
  · simp [h1]

/-- The favicon after a sequence of nodes is visited from a state without
favicon: the `href` of the first icon link with a non-empty `href`. -/
theorem foldl_visit_Favicon (lm : GoString → GoString) (b : Option URL) (ns : List Node) :
    ∀ st : TraverseState, st.metadata.Favicon = [] →
      (ns.foldl (fun s m => visit lm b m s) st).metadata.Favicon
        = match ns.find? (isIconLink lm) with
          | some l => linkHref lm l
          | none => [] := by
  induction ns with
  | nil => intro st h; simpa using h
  | cons n ns ih =>
    intro st h
    rw [List.foldl_cons]
    have hv := visit_Favicon lm b n st
    by_cases hi : isIconLink lm n = true
    · have hne : linkHref lm n ≠ [] := by
        unfold isIconLink at hi
        simp only [Bool.and_eq_true, decide_eq_true_eq] at hi
        exact hi.2
      rw [if_pos ⟨h, hi⟩] at hv
      rw [(foldl_visit_keeps lm b ns (visit lm b n st)).2.2.2 (by rw [hv]; exact hne), hv]
      simp [List.find?, hi]
    · rw [if_neg (fun hc => hi hc.2)] at hv
      rw [ih _ (by rw [hv]; exact h)]
      simp [List.find?, hi]

/-- C21, the claim as stated fails. In the head `<link rel="icon" href="">`,
`<link rel="apple-touch-icon" href="/b.png">` the first link whose `rel`
contains `icon` has the `href` `""`, and the favicon reference extracted is
`/b.png`, the `href` of the second. -/
theorem first_icon_link_counterexample :
    (documentWithHead
        [element "link" [("rel", "icon"), ("href", "")] [],
         element "link" [("rel", "apple-touch-icon"), ("href", "/b.png")] []]).preorder.find?
        (relHasIcon id)
      = some (element "link" [("rel", "icon"), ("href", "")] [])
    ∧ linkHref id (element "link" [("rel", "icon"), ("href", "")] []) = []
    ∧ (traverse id none
        (documentWithHead
          [element "link" [("rel", "icon"), ("href", "")] [],
           element "link" [("rel", "apple-touch-icon"), ("href", "/b.png")] []])
        ⟨{}, []⟩).metadata.Favicon = str "/b.png" :=
  ⟨rfl, by decide, by decide⟩

/-- C21, amended. For every page, the favicon reference the traversal
extracts (before link resolution) is the `href` of the first `<link>` element
in document order whose `rel`, lower-cased, contains `icon` and whose `href`
is not empty, and it is empty when the page has no such element; links that
follow never replace it. -/
theorem favicon_is_first_icon_link (lowerMap : GoString → GoString) (base : Option URL)
    (doc : Node) :
    ((traverse lowerMap base doc ⟨{}, []⟩).metadata.Favicon
        = match doc.preorder.find? (isIconLink lowerMap) with
          | some l => linkHref lowerMap l
          | none => [])
    ∧ ∀ (st : TraverseState) (later : Node), st.metadata.Favicon ≠ [] →
        (traverse lowerMap base later st).metadata.Favicon = st.metadata.Favicon := by
  constructor
  · rw [traverse_eq_foldl]
    exact foldl_visit_Favicon lowerMap base doc.preorder ⟨{}, []⟩ rfl
  · intro st later h
    rw [traverse_eq_foldl]
    exact (foldl_visit_keeps lowerMap base later.preorder st).2.2.2 h

/-- C21 on the `rel` values `icon`, `shortcut icon`, `apple-touch-icon` and
`ICON`, and on a later icon link visited when the favicon is set. -/
theorem favicon_is_first_icon_link_witness :
    (∀ rel ∈ ["icon", "shortcut icon", "apple-touch-icon", "ICON"],
      (traverse id none
        (documentWithHead
          [element "link" [("rel", "stylesheet"), ("href", "/s.css")] [],
           element "link" [("rel", rel), ("href", "/a.ico")] [],
           element "link" [("rel", "icon"), ("href", "/b.ico")] []])
        ⟨{}, []⟩).metadata.Favicon = str "/a.ico")
    ∧ (traverse id none (element "link" [("rel", "icon"), ("href", "/b.ico")] [])
        ⟨{ Favicon := str "/a.ico" }, []⟩).metadata.Favicon = str "/a.ico" :=
  ⟨by decide,
   (favicon_is_first_icon_link id none (element "link" [] [])).2
     ⟨{ Favicon := str "/a.ico" }, []⟩ (element "link" [("rel", "icon"), ("href", "/b.ico")] [])
     (by decide)⟩

/-! ## Several titles -/

theorem visit_titleFromTag_text (lm : GoString → GoString) (b : Option URL) (n : Node)
    (st : TraverseState) :
    (visit lm b n st).titleFromTag
      = if hasTitleText n = true then TrimSpace n.titleText else st.titleFromTag := by
  rw [visit_titleFromTag]
  unfold hasTitleText Node.titleText
  by_cases h : n.isElement "title" = true
  · cases n.FirstChild <;> simp [h]
  · simp [h]

/-- The title text after a sequence of nodes is visited: that of the last
`<title>` element with a child. -/
theorem foldl_visit_titleFromTag_last (lm : GoString → GoString) (b : Option URL)
    (ns : List Node) :
    ∀ st : TraverseState,
      (ns.foldl (fun s m => visit lm b m s) st).titleFromTag
        = match (ns.filter hasTitleText).getLast? with
          | some t => TrimSpace t.titleText
          | none => st.titleFromTag := by
  induction ns with
  | nil => intro st; rfl
  | cons n ns ih =>
    intro st
    rw [List.foldl_cons, ih, visit_titleFromTag_text]
    by_cases hn : hasTitleText n = true
    · simp only [List.filter, hn, if_true, List.getLast?_cons]
      cases (List.filter hasTitleText ns).getLast? <;> rfl
    · simp only [List.filter, hn, if_false]
      simp

/-- C27. For every page in which no meta element carries a title,
`parseHTMLMetadata` returns as title the data of the first child of the last
`<title>` element in document order that has a child, with white space
trimmed, and the empty title when there is no such element; so the title is
empty when that text is only white space. It returns a value whenever the
base URL parses. -/
theorem last_title_wins (lowerMap : GoString → GoString) (doc : Node) (baseURL : GoString)
    (hmeta : ∀ m ∈ doc.preorder, m.isElement "meta" = true → metaTitle lowerMap m = []) :
    (∀ md, parseHTMLMetadata lowerMap (some doc) baseURL = .ok md →
      md.Title = (match (doc.preorder.filter hasTitleText).getLast? with
                  | some t => TrimSpace t.titleText
                  | none => [])
      ∧ ∀ t, (doc.preorder.filter hasTitleText).getLast? = some t →
          onlyWhitespace t.titleText = true → md.Title = [])
    ∧ (∀ b, Parse lowerMap baseURL = .ok b →
        ∃ md, parseHTMLMetadata lowerMap (some doc) baseURL = .ok md) := by
  refine ⟨?_, fun b hb => parseHTMLMetadata_returns lowerMap doc baseURL b hb⟩
  intro md h
  have hf := (parseHTMLMetadata_fields lowerMap doc baseURL md h).1
  rw [traverse_eq_foldl] at hf
  have h1 := foldl_visit_title_nil lowerMap (Parse lowerMap baseURL).toOption doc.preorder
    ⟨{}, []⟩ rfl hmeta
  have h2 := foldl_visit_titleFromTag_last lowerMap (Parse lowerMap baseURL).toOption
    doc.preorder ⟨{}, []⟩
  have key : md.Title = (match (doc.preorder.filter hasTitleText).getLast? with
                  | some t => TrimSpace t.titleText
                  | none => []) := by
    rw [hf, h1, h2]
    split_ifs with hc
    · rfl
    · simp only [true_and, ne_eq, not_not] at hc
      exact hc.symm
  refine ⟨key, ?_⟩
  intro t ht hw
  rw [key, ht]
  exact trimSpace_onlyWhitespace _ hw

/-- C27 on a page with the titles `First` and `Second`, and on a page with
the titles `First` and one of white space only, with the base
`https://example.com/`. -/
theorem last_title_wins_witness :
    (parseHTMLMetadata id
        (some (documentWithHead [element "title" [] [text "First"],
          element "title" [] [], element "title" [] [text " Second "], element "title" [] []]))
        (str "https://example.com/")).map (fun md => md.Title) = .ok (str "Second")
    ∧ (parseHTMLMetadata id
        (some (documentWithHead [element "title" [] [text "First"],
          element "title" [] [text " \n "]]))
        (str "https://example.com/")).map (fun md => md.Title) = .ok [] :=
  ⟨by decide,
   by
    obtain ⟨md, hmd⟩ := (last_title_wins id
      (documentWithHead [element "title" [] [text "First"], element "title" [] [text " \n "]])
      (str "https://example.com/") (by decide)).2
      { Scheme := str "https", Host := str "example.com", Path := str "/" } (by decide)
    have := ((last_title_wins id
      (documentWithHead [element "title" [] [text "First"], element "title" [] [text " \n "]])
      (str "https://example.com/") (by decide)).1 md hmd).2
      (element "title" [] [text " \n "]) rfl (by decide)
    rw [hmd]
    simp [Except.map, this]⟩

/-! ## The two strategies side by side -/

set_option maxRecDepth 100000 in
/-- C22, the code on a page with a `twitter:description` and a plain
`description` meta and no `og:description`: `extractMetadataRegex` returns an
empty description, where `parseHTMLMetadata` on the same page returns the
`twitter:description` content. -/
theorem regex_description_has_no_fallback :
    (extractMetadataRegex id
        (str "<html><head><meta name=\"twitter:description\" content=\"From Twitter\"><meta name=\"description\" content=\"Plain\"></head><body></body></html>")
        (str "https://example.com/")).Description = []
    ∧ (extractMetadataRegex id
        (str "<html><head><meta name=\"description\" content=\"Plain\"></head><body></body></html>")
        (str "https://example.com/")).Description = []
    ∧ (parseHTMLMetadata id
        (some (documentWithHead
          [element "meta" [("name", "twitter:description"), ("content", "From Twitter")] [],
           element "meta" [("name", "description"), ("content", "Plain")] []]))
        (str "https://example.com/")).map (fun md => md.Description)
      = .ok (str "From Twitter") := by
  refine ⟨?_, ?_, ?_⟩ <;> decide

set_option maxRecDepth 100000 in
/-- C23, the code on the two orders of the attributes of an icon link, with
the base `https://example.com/`: with `rel` before `href` the favicon is the
`href`, resolved; with `href` before `rel` the pattern `faviconRegex` does not
match and the favicon is the default `https://example.com/favicon.ico`. -/
theorem regex_favicon_needs_rel_first :
    faviconRegex.FindStringSubmatch (str "<link rel=\"icon\" href=\"/f.ico\">")
      = [str "<link rel=\"icon\" href=\"/f.ico\">", str "/f.ico"]
    ∧ (extractMetadataRegex id (str "<link rel=\"icon\" href=\"/f.ico\">")
        (str "https://example.com/")).Favicon = str "https://example.com/f.ico"
    ∧ faviconRegex.FindStringSubmatch (str "<link href=\"/f.ico\" rel=\"icon\">") = []
    ∧ (extractMetadataRegex id (str "<link href=\"/f.ico\" rel=\"icon\">")
        (str "https://example.com/")).Favicon = str "https://example.com/favicon.ico" := by
  refine ⟨?_, ?_, ?_, ?_⟩ <;> decide

/-- C25, the claim as stated fails. On a protocol-relative reference and the
nil base, reading `baseURL.Scheme` panics, so `resolveURL` returns nothing, and
neither does `parseHTMLMetadata` on a page with such an `og:image` when its
base URL string does not parse. -/
theorem resolveURL_nil_base_panics :
    resolveURL id (str "//cdn.example.com/i.png") none = .error .nilPointerDereference
    ∧ Parse id (str "http://[::1") = .error .missingBracket
    ∧ parseHTMLMetadata id
        (some (documentWithHead
          [element "meta" [("property", "og:image"), ("content", "//cdn.example.com/i.png")] []]))
        (str "http://[::1")
      = .error .nilPointerDereference := by
  refine ⟨?_, ?_, ?_⟩ <;> decide

/-- `resolveURL` with the nil base returns every reference that is not
protocol-relative as it is. -/
theorem resolveURL_none (lm : GoString → GoString) (r : GoString)
    (h : HasPrefix r (str "//") = false) : resolveURL lm r none = .ok r := by
  unfold resolveURL
  by_cases h0 : r = []
  · simp [h0]
  · simp only [h0, if_false, h, Bool.false_eq_true]
    split_ifs <;> rfl

/-- `resolveURL` returns the reference as it is when `url.Parse` rejects it
and it is not protocol-relative. -/
theorem resolveURL_unparsed (lm : GoString → GoString) (r : GoString) (b : URL) (e : UrlError)
    (h : HasPrefix r (str "//") = false) (hp : Parse lm r = .error e) :
    resolveURL lm r (some b) = .ok r := by
  unfold resolveURL
  by_cases h0 : r = []
  · simp [h0]
  · simp only [h0, if_false, h, Bool.false_eq_true, hp]
    split_ifs <;> rfl

/-- Without a base, `parseHTMLMetadata` returns a value when neither
reference it resolves is protocol-relative. -/
theorem parseHTMLMetadata_returns_nil_base (lm : GoString → GoString) (doc : Node)
    (base : GoString) (hb : (Parse lm base).toOption = none)
    (hog : HasPrefix (traverse lm none doc ⟨{}, []⟩).metadata.OgImage (str "//") = false)
    (hfa : HasPrefix (traverse lm none doc ⟨{}, []⟩).metadata.Favicon (str "//") = false) :
    ∃ md, parseHTMLMetadata lm (some doc) base = .ok md := by
  unfold parseHTMLMetadata
  simp only [bind, Except.bind, pure, Except.pure, hb]
  generalize traverse lm none doc ⟨{}, []⟩ = st at hog hfa
  obtain ⟨⟨og, ti, de, fa⟩, tft⟩ := st
  have hv1 := resolveURL_none lm og hog
  have hv2 := resolveURL_none lm fa hfa
  by_cases h1 : og = [] <;> by_cases h2 : fa = [] <;>
    by_cases hti : ti = [] ∧ tft ≠ [] <;>
    simp [h1, h2, hti, hv1, hv2]

/-- C25, amended. `resolveURL` returns a string for every reference and every
non-nil base (the reference itself when `url.Parse` rejects it and it does not
start with `//`), and with the nil base for every reference that does not
start with `//`. So `parseHTMLMetadata` returns a metadata value for every
readable body and every base URL string that parses, and with a base URL
string that does not parse whenever neither the image nor the favicon
reference extracted starts with `//`; `fetchURLMetadata`, its only caller,
never ends in a panic. -/
theorem resolver_returns (lowerMap : GoString → GoString) :
    (∀ (r : GoString) (b : URL), ∃ v, resolveURL lowerMap r (some b) = .ok v)
    ∧ (∀ (r : GoString) (b : URL) (e : UrlError), HasPrefix r (str "//") = false →
        Parse lowerMap r = .error e → resolveURL lowerMap r (some b) = .ok r)
    ∧ (∀ r : GoString, HasPrefix r (str "//") = false → resolveURL lowerMap r none = .ok r)
    ∧ (∀ (doc : Node) (baseURL : GoString) (b : URL), Parse lowerMap baseURL = .ok b →
        ∃ md, parseHTMLMetadata lowerMap (some doc) baseURL = .ok md)
    ∧ (∀ (doc : Node) (baseURL : GoString), (Parse lowerMap baseURL).toOption = none →
        HasPrefix (traverse lowerMap none doc ⟨{}, []⟩).metadata.OgImage (str "//") = false →
        HasPrefix (traverse lowerMap none doc ⟨{}, []⟩).metadata.Favicon (str "//") = false →
        ∃ md, parseHTMLMetadata lowerMap (some doc) baseURL = .ok md)
    ∧ (∀ (htmlParse : GoString → Option Node) (replies : List Reply) (targetURL : GoString),
        (fetchURLMetadata lowerMap htmlParse replies targetURL).2 ≠ .panic) :=
  ⟨resolveURL_some_ok lowerMap, resolveURL_unparsed lowerMap, resolveURL_none lowerMap,
    parseHTMLMetadata_returns lowerMap,
    fun doc baseURL hb hog hfa => parseHTMLMetadata_returns_nil_base lowerMap doc baseURL hb hog hfa,
    fetchURLMetadata_returns lowerMap⟩

/-- C25 on the references `/a.png` and `%zz` and on a page with the image
`/a.png` and the icon `f.ico`, with the base URL string `http://[::1`, which
does not parse. -/
theorem resolver_returns_witness :
    resolveURL id (str "/a.png") none = .ok (str "/a.png")
    ∧ resolveURL id (str "%zz") (some testBase) = .ok (str "%zz")
    ∧ (Parse id (str "http://[::1")).toOption = none
    ∧ ∃ md, parseHTMLMetadata id
        (some (documentWithHead
          [element "meta" [("property", "og:image"), ("content", "/a.png")] [],
           element "link" [("rel", "icon"), ("href", "f.ico")] []]))
        (str "http://[::1") = .ok md :=
  ⟨(resolver_returns id).2.2.1 (str "/a.png") (by decide),
   (resolver_returns id).2.1 (str "%zz") testBase (.escapeError (str "%zz")) (by decide)
     (by decide),
   by decide,
   (resolver_returns id).2.2.2.2.1
     (documentWithHead
       [element "meta" [("property", "og:image"), ("content", "/a.png")] [],
        element "link" [("rel", "icon"), ("href", "f.ico")] []])
     (str "http://[::1") (by decide) (by decide) (by decide)⟩

/-- C26, the code on the relative reference `http-logo.png` and the base
`https://example.com/page/`: `resolveURL` resolves it, `resolveRelativeURL`
returns it as it is, because it starts with `http`. -/
theorem resolvers_differ_on_http_text :
    resolveURL id (str "http-logo.png") (some testBase)
      = .ok (str "https://example.com/page/http-logo.png")
    ∧ resolveRelativeURL id (str "http-logo.png") testBase = str "http-logo.png" := by
  refine ⟨?_, ?_⟩ <;> decide

end Copus
